import Mathlib

/-!
Lua Low Level: the bytecode-to-IR translation driver

A shallow embedding of `lllcompilerstate.cpp`, `lllcompiler.cpp` and
`lllvararg.cpp`.  The IR builder is modelled by explicit state passing: the
compilation state carries the function under construction (its blocks, in
layout order, and the instructions of each block), the table `blocks_` and the
builder's insertion point.  Every builder call of the source appends one
instruction to the block at the insertion point, in the order the source
issues it.

Conventions.
* A basic block is identified by how it was allocated: the entry block, the
  block allocated up front for a bytecode offset, or the `k`-th sub-block
  allocated while instruction `i` was being translated.
* An instruction result (`llvm::Value*`) is identified by the block that holds
  the instruction and its position there; instructions are only ever appended.
* Reading `blocks_[k]` or `code[k]` outside the table has no defined result;
  the embedding returns `none` there, so a translation that yields `some` never
  touched a block outside the table.
* The cosmetic value names given to builder calls (`"ra"`, `"top"`, ...) are
  dropped; block names are kept.
-/

set_option linter.constructorNameAsVariable false

universe u

namespace LLL

/-! ## Bytecode -/

/-- A bytecode instruction: a 32-bit word. -/
abbrev Instruction := Nat

/-- Opcodes dispatched by the driver, in the numbering of the 5.3 bytecode. -/
inductive OpCode
  | OP_MOVE | OP_LOADK | OP_LOADKX | OP_LOADBOOL | OP_LOADNIL | OP_GETUPVAL
  | OP_GETTABUP | OP_GETTABLE | OP_SETTABUP | OP_SETUPVAL | OP_SETTABLE
  | OP_NEWTABLE | OP_SELF | OP_ADD | OP_SUB | OP_MUL | OP_MOD | OP_POW
  | OP_DIV | OP_IDIV | OP_BAND | OP_BOR | OP_BXOR | OP_SHL | OP_SHR
  | OP_UNM | OP_BNOT | OP_NOT | OP_LEN | OP_CONCAT | OP_JMP | OP_EQ | OP_LT
  | OP_LE | OP_TEST | OP_TESTSET | OP_CALL | OP_TAILCALL | OP_RETURN
  | OP_FORLOOP | OP_FORPREP | OP_TFORCALL | OP_TFORLOOP | OP_SETLIST
  | OP_CLOSURE | OP_VARARG | OP_EXTRAARG
  deriving DecidableEq, Repr

open OpCode

/-- Modelled from the spec: the opcode numbering of the 5.3 bytecode
(`lopcodes.h` is not among the sources). -/
def opcodeTable : List OpCode :=
  [OP_MOVE, OP_LOADK, OP_LOADKX, OP_LOADBOOL, OP_LOADNIL, OP_GETUPVAL,
   OP_GETTABUP, OP_GETTABLE, OP_SETTABUP, OP_SETUPVAL, OP_SETTABLE,
   OP_NEWTABLE, OP_SELF, OP_ADD, OP_SUB, OP_MUL, OP_MOD, OP_POW,
   OP_DIV, OP_IDIV, OP_BAND, OP_BOR, OP_BXOR, OP_SHL, OP_SHR,
   OP_UNM, OP_BNOT, OP_NOT, OP_LEN, OP_CONCAT, OP_JMP, OP_EQ, OP_LT,
   OP_LE, OP_TEST, OP_TESTSET, OP_CALL, OP_TAILCALL, OP_RETURN,
   OP_FORLOOP, OP_FORPREP, OP_TFORCALL, OP_TFORLOOP, OP_SETLIST,
   OP_CLOSURE, OP_VARARG, OP_EXTRAARG]

/-- Modelled from the spec: `GET_OPCODE`, the low six bits of the word
(`lopcodes.h` is not among the sources).  Words whose six bits name no opcode
give `none`: the driver's `switch` has no case for them. -/
def GET_OPCODE (i : Instruction) : Option OpCode := opcodeTable[i % 64]?

/-- Modelled from the spec: `GETARG_A`, eight bits at position 6. -/
def GETARG_A (i : Instruction) : Nat := i / 2 ^ 6 % 2 ^ 8

/-- Modelled from the spec: `GETARG_B`, nine bits at position 23. -/
def GETARG_B (i : Instruction) : Nat := i / 2 ^ 23 % 2 ^ 9

/-- Modelled from the spec: `GETARG_C`, nine bits at position 14. -/
def GETARG_C (i : Instruction) : Nat := i / 2 ^ 14 % 2 ^ 9

/-- Modelled from the spec: `GETARG_Bx`, eighteen bits at position 14. -/
def GETARG_Bx (i : Instruction) : Nat := i / 2 ^ 14 % 2 ^ 18

/-- Modelled from the spec: `MAXARG_sBx`, the excess of the signed
displacement encoding. -/
def MAXARG_sBx : Nat := 131071

/-- Modelled from the spec: `GETARG_sBx`, the signed displacement. -/
def GETARG_sBx (i : Instruction) : Int := (GETARG_Bx i : Int) - MAXARG_sBx

/-- Modelled from the spec: `GETARG_Ax`, twenty-six bits at position 6. -/
def GETARG_Ax (i : Instruction) : Nat := i / 2 ^ 6 % 2 ^ 26

/-- The number of an opcode in `opcodeTable`. -/
def OpCode.toNat (o : OpCode) : Nat := opcodeTable.indexOf o

/-- Modelled from the spec: `CREATE_ABC`, the encoder of an `A B C` word. -/
def CREATE_ABC (o : OpCode) (a b c : Nat) : Instruction :=
  o.toNat + a * 2 ^ 6 + c * 2 ^ 14 + b * 2 ^ 23

/-- Modelled from the spec: `CREATE_ABx`, the encoder of an `A Bx` word. -/
def CREATE_ABx (o : OpCode) (a bx : Nat) : Instruction :=
  o.toNat + a * 2 ^ 6 + bx * 2 ^ 14

/-- Encoder of an `A sBx` word from the signed displacement. -/
def CREATE_AsBx (o : OpCode) (a : Nat) (sbx : Int) : Instruction :=
  CREATE_ABx o a (sbx + MAXARG_sBx).toNat

/-- Modelled from the spec: `LUA_TNIL`, the nil type tag. -/
def LUA_TNIL : Int := 0

/-- Modelled from the spec: `LFIELDS_PER_FLUSH` of the 5.3 bytecode. -/
def LFIELDS_PER_FLUSH : Int := 50

/-- Modelled from the spec: `luaO_fb2int`, the decoder of the "floating point
byte" size hints of `NEWTABLE` (`lobject.c` is not among the sources). -/
def luaO_fb2int (x : Nat) : Nat :=
  if x < 8 then x else (x % 8 + 8) * 2 ^ (x / 8 - 1)

/-- The fields of `Proto` the compiler reads. -/
structure Proto where
  /-- The bytecode array; `sizecode` is its length. -/
  code : List Instruction
  /-- Number of nested closure prototypes. -/
  sizep : Nat
  /-- Number of fixed parameters. -/
  numparams : Nat
  deriving DecidableEq, Repr

/-- The `sizecode` field. -/
def Proto.sizecode (p : Proto) : Nat := p.code.length

/-! ## The IR under construction -/

/-- Identity of a basic block. -/
inductive BlockId
  | entry
  | primary (offset : Nat)
  | sub (owner : Nat) (index : Nat)
  deriving DecidableEq, Repr

/-- The `offsetof` constants the compiler passes to the field accessors. -/
inductive Field
  | lua_State_ci | lua_State_top | CallInfo_base | CallInfo_top
  | CallInfo_func | TValue_tt
  deriving DecidableEq, Repr

/-- The runtime functions the generated code calls by name. -/
inductive RuntimeFn
  | lll_upvalbarrier | lll_newtable | luaH_resize | lll_unm | lll_bnot
  | lll_not | luaV_objlen | luaV_concat | luaV_equalobj | luaV_lessthan
  | luaV_lessequal | lll_test | luaD_callnoyield | luaF_close | lll_forloop
  | lll_forprep | lll_setlist | lll_closure | lll_checkcg | lll_checkstack
  deriving DecidableEq, Repr

/-- The types named through `rt_.GetType`. -/
inductive IRType
  | lua_State | LClosure | CallInfo | TValue | lua_Number
  deriving DecidableEq, Repr

/-- An `llvm::Value*` operand. -/
inductive Value
  /-- The null pointer a handle holds before it is set. -/
  | null
  /-- First argument of the function: the interpreter state. -/
  | state
  /-- Second argument of the function: the closure. -/
  | closure
  /-- A constant made by `MakeInt`. -/
  | int (n : Int)
  /-- The constant made by `MakeInt(offsetof(...))`. -/
  | offsetof (f : Field)
  /-- The result of the `k`-th instruction of block `b`. -/
  | inst (b : BlockId) (k : Nat)
  deriving DecidableEq, Repr

/-- Modelled from the spec: the operand views `Register`, `Constant` and
`Upvalue` and the result of `Value::CreateByArg` (`lllvalue.h` is not among
the sources). -/
inductive Operand
  | register (n : Nat)
  | constant (k : Nat)
  | upvalue (n : Nat)
  | byArg (arg : Nat)
  deriving DecidableEq, Repr

/-- One IR instruction.  The last group stands for the code emitted by helpers
whose bodies are not among the sources (`GetValueR`, `SetRegister` and the
methods of the operand views); each use is one instruction in emission order. -/
inductive Inst
  | alloca (ty : IRType)
  | bitcast (v : Value)
  | gep (p idx : Value)
  | load (p : Value)
  | store (v p : Value)
  | intToPtr (v : Value)
  | call (f : RuntimeFn) (args : List Value)
  | ptrDiff (a b : Value)
  | intCast (v : Value) (bytes : Nat) (isSigned : Bool)
  | neg (v : Value)
  | add (a b : Value)
  | sub (a b : Value)
  | mul (a b : Value)
  | icmpNE (a b : Value)
  | icmpSGE (a b : Value)
  | icmpSLT (a b : Value)
  | phi (incoming : List (Value × BlockId))
  | br (dest : BlockId)
  | condBr (cond : Value) (ifTrue ifFalse : BlockId)
  | ret (v : Value)
  | getValueR (reg : Int)
  | setRegister (dst src : Value)
  | getTValue (o : Operand)
  | assign (dst src : Operand)
  | setValue (dst src : Operand)
  | setBoolean (dst : Operand) (v : Value)
  | setTag (dst : Operand) (tag : Int)
  deriving DecidableEq, Repr

/-- Terminator instructions: branches and returns. -/
def Inst.isTerminator : Inst → Bool
  | .br _ => true
  | .condBr _ _ _ => true
  | .ret _ => true
  | _ => false

/-- The result of `BasicBlock::getTerminator`: the last instruction when it is
a terminator. -/
def getTerminator (l : List Inst) : Option Inst :=
  match l.getLast? with
  | some t => if t.isTerminator then some t else none
  | none => none

/-- The handles of `values_`. -/
structure Values where
  state : Value
  closure : Value
  ci : Value
  bnumber : Value
  cnumber : Value
  base : Value
  deriving DecidableEq, Repr

/-- The compilation state `CompilerState`, with the function under
construction and the builder's insertion point. -/
structure CompilerState where
  proto_ : Proto
  values_ : Values
  /-- Blocks of `function_`, in layout order. -/
  layout : List BlockId
  /-- Instructions of each block of `function_`. -/
  insts : BlockId → List Inst
  /-- Name of each block of `function_`. -/
  label : BlockId → String
  blocks_ : List BlockId
  /-- Insertion point of `builder_`. -/
  insertPoint : BlockId
  curr_ : Nat
  instr_ : Instruction

/-- Builder actions: state passing, with `none` for an access outside a
table. -/
def Build (α : Type) : Type := CompilerState → Option (α × CompilerState)

/-- Sequencing of builder actions. -/
@[noinline] def Build.bind {α β : Type} (m : Build α) (f : α → Build β) : Build β :=
  fun cs =>
    match m cs with
    | none => none
    | some (a, cs') => f a cs'

/-- The action that emits nothing. -/
@[noinline] def Build.pure {α : Type} (a : α) : Build α := fun cs => some (a, cs)

instance : Monad Build where
  pure := Build.pure
  bind := Build.bind

/-- Read of the compilation state. -/
def get : Build CompilerState := fun cs => some (cs, cs)

/-- Update of the compilation state. -/
def modify (f : CompilerState → CompilerState) : Build Unit :=
  fun cs => some ((), f cs)

/-- The state after a list of instructions was appended to a block. -/
def CompilerState.append (cs : CompilerState) (b : BlockId)
    (l : List Inst) : CompilerState :=
  { cs with insts := Function.update cs.insts b (cs.insts b ++ l) }

/-- The state after the insertion point moved to a block. -/
def CompilerState.withPoint (cs : CompilerState) (b : BlockId) :
    CompilerState :=
  { cs with insertPoint := b }

/-- The state after the driver loaded an instruction into `instr_`. -/
def CompilerState.withInstr (cs : CompilerState) (instr : Instruction) :
    CompilerState :=
  { cs with instr_ := instr }

/-- The state after the driver moved `curr_`. -/
def CompilerState.withCurr (cs : CompilerState) (curr : Nat) : CompilerState :=
  { cs with curr_ := curr }

/-- Append one instruction at the insertion point and return its result. -/
def emit (i : Inst) : Build Value := fun cs =>
  some (.inst cs.insertPoint (cs.insts cs.insertPoint).length,
    cs.append cs.insertPoint [i])

/-- The builder's `SetInsertPoint`. -/
def SetInsertPoint (b : BlockId) : Build Unit := fun cs =>
  some ((), cs.withPoint b)

/-- Read of `blocks_[k]`. -/
def blockAt (k : Int) : Build BlockId := fun cs =>
  if 0 ≤ k then (cs.blocks_[k.toNat]?).map (fun b => (b, cs)) else none

/-- Read of `proto_->code[k]`. -/
def codeAt (k : Nat) : Build Instruction := fun cs =>
  (cs.proto_.code[k]?).map (fun i => (i, cs))

/-- The builder's `CreateBr`. -/
def CreateBr (dest : BlockId) : Build Unit := do
  let _ ← emit (.br dest)

/-- The builder's `CreateCondBr`. -/
def CreateCondBr (cond : Value) (ifTrue ifFalse : BlockId) : Build Unit := do
  let _ ← emit (.condBr cond ifTrue ifFalse)

/-- The builder's `CreateRet`. -/
def CreateRet (v : Value) : Build Unit := do
  let _ ← emit (.ret v)

/-- Add an incoming edge when the instruction is a phi. -/
def phiAdd (v : Value) (from_ : BlockId) : Inst → Inst
  | .phi inc => .phi (inc ++ [(v, from_)])
  | other => other

/-- The state after the `k`-th instruction of a block, a phi, gained an
incoming edge. -/
def CompilerState.withIncoming (cs : CompilerState) (b : BlockId)
    (k : Nat) (v : Value) (from_ : BlockId) : CompilerState :=
  { cs with insts := Function.update cs.insts b
              ((cs.insts b).modify (phiAdd v from_) k) }

/-- The phi's `addIncoming`: the existing phi instruction gains an edge. -/
def addIncoming (phi v : Value) (from_ : BlockId) : Build Unit := fun cs =>
  match phi with
  | .inst b k => some ((), cs.withIncoming b k v from_)
  | _ => none

/-! ## `lllcompilerstate.cpp` -/

/-- The constant made by `MakeInt`. -/
def MakeInt (value : Int) : Value := .int value

/-- The byte size `sizeof(int)` passed to `MakeIntT`. -/
def sizeof_int : Nat := 4

/-- Truth test `ToBool`: compare against zero. -/
def ToBool (value : Value) : Build Value :=
  emit (.icmpNE value (MakeInt 0))

/-- Pointer injection `InjectPointer`. -/
def InjectPointer (ptr : Int) : Build Value :=
  emit (.intToPtr (.int ptr))

/-- Address of a field, `GetFieldPtr`: cast to bytes, index by the offset,
cast to the field type. -/
def GetFieldPtr (strukt : Value) (offset : Field) : Build Value := do
  let mem ← emit (.bitcast strukt)
  let element ← emit (.gep mem (.offsetof offset))
  emit (.bitcast element)

/-- Field read `LoadField`. -/
def LoadField (strukt : Value) (offset : Field) : Build Value := do
  let ptr ← GetFieldPtr strukt offset
  emit (.load ptr)

/-- Field write `SetField`. -/
def SetField (strukt fieldvalue : Value) (offset : Field) : Build Unit := do
  let ptr ← GetFieldPtr strukt offset
  let _ ← emit (.store fieldvalue ptr)

/-- Call of a runtime function, `CreateCall`. -/
def CreateCall (name : RuntimeFn) (args : List Value) : Build Value :=
  emit (.call name args)

/-- Load of the cached stack base, `GetBase`. -/
def GetBase : Build Value := do
  let cs ← get
  emit (.load cs.values_.base)

/-- Reload of the stack base from the call record, `UpdateStack`. -/
def UpdateStack : Build Unit := do
  let cs ← get
  let base ← LoadField cs.values_.ci .CallInfo_base
  let _ ← emit (.store base cs.values_.base)

/-- Re-derivation of the published top from the call record, `ReloadTop`. -/
def ReloadTop : Build Unit := do
  let cs ← get
  let top ← LoadField cs.values_.ci .CallInfo_top
  SetField cs.values_.state top .lua_State_top

/-- Modelled from the spec: `GetValueR`, the address of a register (declared
in `lllcompilerstate.h`, whose body is not among the sources). -/
def GetValueR (reg : Int) : Build Value :=
  emit (.getValueR reg)

/-- Modelled from the spec: `SetRegister`, the copy of one tagged value into
a register (declared in `lllcompilerstate.h`, body not among the sources). -/
def SetRegister (dst src : Value) : Build Unit := do
  let _ ← emit (.setRegister dst src)

/-- Publication of a register as the stack top, `SetTop`. -/
def SetTop (reg : Int) : Build Unit := do
  let cs ← get
  let top ← GetValueR reg
  SetField cs.values_.state top .lua_State_top

/-- Slot distance from a register to the published top, `TopDiff`. -/
def TopDiff (n : Int) : Build Value := do
  let cs ← get
  let top ← LoadField cs.values_.state .lua_State_top
  let r ← GetValueR n
  let diff ← emit (.ptrDiff top r)
  emit (.intCast diff sizeof_int false)

/-- Number of sub-blocks already allocated for an instruction. -/
def subCount (owner : Nat) (l : List BlockId) : Nat :=
  l.countP (fun b => match b with
    | .sub o _ => decide (o = owner)
    | _ => false)

/-- Insert a block right after another one in the layout. -/
def insertAfter (anchor block : BlockId) : List BlockId → List BlockId
  | [] => [block]
  | b :: bs =>
    if b = anchor then b :: block :: bs else b :: insertAfter anchor block bs

/-- The state after a new, empty block was placed right after `anchor`. -/
def CompilerState.withBlock (cs : CompilerState) (anchor block : BlockId)
    (name : String) : CompilerState :=
  { cs with
    layout := insertAfter anchor block cs.layout
    label := Function.update cs.label block name }

/-- Allocation of an auxiliary block, `CreateSubBlock`: a new block named
after the current instruction's block, placed right after `preview` (after the
current instruction's block when no `preview` is given). -/
def CreateSubBlock (suffix : String) (preview : Option BlockId) :
    Build BlockId := do
  let cs ← get
  let current ← blockAt cs.curr_
  let anchor := preview.getD current
  let block := BlockId.sub cs.curr_ (subCount cs.curr_ cs.layout)
  modify fun cs => cs.withBlock anchor block (cs.label current ++ "." ++ suffix)
  pure block

/-- Modelled from the spec: `luaP_opnames`, only used to name blocks. -/
def luaP_opnames : List String :=
  ["MOVE", "LOADK", "LOADKX", "LOADBOOL", "LOADNIL", "GETUPVAL", "GETTABUP",
   "GETTABLE", "SETTABUP", "SETUPVAL", "SETTABLE", "NEWTABLE", "SELF", "ADD",
   "SUB", "MUL", "MOD", "POW", "DIV", "IDIV", "BAND", "BOR", "BXOR", "SHL",
   "SHR", "UNM", "BNOT", "NOT", "LEN", "CONCAT", "JMP", "EQ", "LT", "LE",
   "TEST", "TESTSET", "CALL", "TAILCALL", "RETURN", "FORLOOP", "FORPREP",
   "TFORCALL", "TFORLOOP", "SETLIST", "CLOSURE", "VARARG", "EXTRAARG"]

/-- Name of the opcode of an instruction word. -/
def opname (i : Instruction) : String := luaP_opnames.getD (i % 64) ""

/-- The state after a new, empty block was added at the end of the function. -/
def CompilerState.pushBlock (cs : CompilerState) (block : BlockId)
    (name : String) : CompilerState :=
  { cs with
    layout := cs.layout ++ [block]
    label := Function.update cs.label block name }

/-- The state after the next slot of the block table was filled. -/
def CompilerState.pushSlot (cs : CompilerState) (block : BlockId) :
    CompilerState :=
  { cs with blocks_ := cs.blocks_ ++ [block] }

/-- The state after handles of `values_` were set. -/
def CompilerState.withValues (cs : CompilerState) (values : Values) :
    CompilerState :=
  { cs with values_ := values }

/-- The loop of `CreateBlocks` that allocates the block of each offset. -/
def createBlockLoop : List Instruction → Nat → Build Unit
  | [], _ => pure ()
  | instr :: rest, i => do
    modify fun cs => (cs.pushBlock (BlockId.primary i)
      ("block." ++ toString i ++ "." ++ opname instr)).pushSlot
      (BlockId.primary i)
    createBlockLoop rest (i + 1)

/-- Set-up of the function skeleton, `CreateBlocks`: the entry block loads the
call record, allocates the scratch slots and the base slot, loads the stack
base, and branches to the block of offset 0. -/
def CreateBlocks : Build Unit := do
  modify fun cs => cs.withValues
    { cs.values_ with state := .state, closure := .closure }

  modify fun cs => cs.pushBlock BlockId.entry "entry"
  SetInsertPoint .entry

  let ci ← LoadField .state .lua_State_ci
  modify fun cs => cs.withValues { cs.values_ with ci := ci }

  let bnumber ← emit (.alloca .lua_Number)
  modify fun cs => cs.withValues { cs.values_ with bnumber := bnumber }
  let cnumber ← emit (.alloca .lua_Number)
  modify fun cs => cs.withValues { cs.values_ with cnumber := cnumber }

  let base ← emit (.alloca .TValue)
  modify fun cs => cs.withValues { cs.values_ with base := base }
  UpdateStack

  let cs ← get
  createBlockLoop cs.proto_.code 0

  let first ← blockAt 0
  CreateBr first

/-- The state a `CompilerState` constructor starts `CreateBlocks` from: an
empty function and an empty block table. -/
def CompilerState.init (proto : Proto) : CompilerState where
  proto_ := proto
  values_ := ⟨.null, .null, .null, .null, .null, .null⟩
  layout := []
  insts := fun _ => []
  label := fun _ => ""
  blocks_ := []
  insertPoint := .entry
  curr_ := 0
  instr_ := 0

/-- The constructor of `CompilerState`. -/
def CompilerState.create (proto : Proto) : Option CompilerState :=
  (CreateBlocks (CompilerState.init proto)).map (fun r => r.2)

/-! ## `lllvararg.cpp` -/

/-- The handles a `Vararg` translator keeps between its steps. -/
structure Vararg where
  available_ : Value
  required_ : Value
  nmoves_ : Value
  deriving DecidableEq, Repr

namespace Vararg

/-- Address of the register at `ra + offset`, `GetRegisterFromA`. -/
def GetRegisterFromA (offset : Value) : Build Value := do
  let cs ← get
  let a := MakeInt (GETARG_A cs.instr_)
  let idx ← emit (.add a offset)
  emit (.gep cs.values_.base idx)

/-- Step `ComputeAvailableArgs`. -/
def ComputeAvailableArgs (v : Vararg) : Build Vararg := do
  let cs ← get
  let func ← LoadField cs.values_.ci .CallInfo_func
  let vadiff ← emit (.ptrDiff cs.values_.base func)
  let vasize ← emit (.intCast vadiff sizeof_int false)
  let numparams1 := MakeInt (cs.proto_.numparams + 1)
  let n ← emit (.sub vasize numparams1)
  -- if n < 0 then n = 0 end
  let nge0 ← emit (.icmpSGE n (MakeInt 0))
  let nge0int ← emit (.intCast nge0 sizeof_int false)
  let available ← emit (.mul nge0int n)
  pure { v with available_ := available }

/-- Step `ComputeRequiredArgs`. -/
def ComputeRequiredArgs (v : Vararg) : Build Vararg := do
  let cs ← get
  let b := GETARG_B cs.instr_
  let v := { v with required_ := MakeInt ((b : Int) - 1) }
  if b = 0 then
    let v := { v with required_ := v.available_ }
    let _ ← CreateCall .lll_checkstack [cs.values_.state, v.available_]
    UpdateStack
    let top ← GetRegisterFromA v.available_
    SetField cs.values_.state top .lua_State_top
    pure v
  else
    pure v

/-- Step `ComputeNMoves`: the minimum of required and available, by a
two-way branch merged in a phi. -/
def ComputeNMoves (v : Vararg) : Build (Vararg × BlockId) := do
  let requiredmin ← CreateSubBlock "requiredmin" none
  let availablemin ← CreateSubBlock "availablemin" (some requiredmin)
  let computenmoves ← CreateSubBlock "computenmoves" (some availablemin)

  let required_lt_available ← emit (.icmpSLT v.required_ v.available_)
  CreateCondBr required_lt_available requiredmin availablemin

  SetInsertPoint requiredmin
  CreateBr computenmoves

  SetInsertPoint availablemin
  CreateBr computenmoves

  SetInsertPoint computenmoves
  let nmoves ← emit (.phi [])
  addIncoming nmoves v.required_ requiredmin
  addIncoming nmoves v.available_ availablemin
  pure ({ v with nmoves_ := nmoves }, computenmoves)

/-- Step `MoveAvailable`: the copy loop. -/
def MoveAvailable (v : Vararg) (entry : BlockId) : Build BlockId := do
  let cs ← get
  let check ← CreateSubBlock "move.check" (some entry)
  let move ← CreateSubBlock "move" (some check)
  let end_ ← CreateSubBlock "move.end" (some move)

  SetInsertPoint entry
  CreateBr check

  SetInsertPoint check
  let i ← emit (.phi [])
  addIncoming i (MakeInt 0) entry
  let inext ← emit (.add i (MakeInt 1))
  addIncoming i inext move
  let i_lt_nmoves ← emit (.icmpSLT i v.nmoves_)
  CreateCondBr i_lt_nmoves move end_

  SetInsertPoint move
  let vidx ← emit (.sub i v.available_)
  let value ← emit (.gep cs.values_.base vidx)
  let r ← GetRegisterFromA i
  SetRegister r value
  CreateBr check

  pure end_

/-- Step `FillRequired`: the nil-fill loop, which leaves to the block of the
next instruction. -/
def FillRequired (v : Vararg) (entry : BlockId) : Build Unit := do
  let cs ← get
  let check ← CreateSubBlock "fill.check" (some entry)
  let fill ← CreateSubBlock "fill" (some check)
  let end_ ← blockAt (cs.curr_ + 1)

  SetInsertPoint entry
  CreateBr check

  SetInsertPoint check
  let j ← emit (.phi [])
  addIncoming j v.nmoves_ entry
  let jnext ← emit (.add j (MakeInt 1))
  addIncoming j jnext fill
  let j_lt_req ← emit (.icmpSLT j v.required_)
  CreateCondBr j_lt_req fill end_

  SetInsertPoint fill
  let r ← GetRegisterFromA j
  SetField r (MakeInt LUA_TNIL) .TValue_tt
  CreateBr check

/-- The translator of `VARARG`, `Vararg::Compile`. -/
def Compile : Build Unit := do
  let v : Vararg := ⟨.null, .null, .null⟩
  let v ← ComputeAvailableArgs v
  let v ← ComputeRequiredArgs v
  let (v, computenmoves) ← ComputeNMoves v
  let moveend ← MoveAvailable v computenmoves
  FillRequired v moveend

end Vararg

/-! ## `lllcompiler.cpp` -/

/-- The composite translators whose sources are absent (`Arith`, `Logical`,
`TableGet`, `TableSet`): the driver is parametrised by what they emit. -/
structure Translators where
  /-- The call `Arith(cs_).Compile()`. -/
  Arith : Build Unit
  /-- The call `Logical(cs_).Compile()`. -/
  Logical : Build Unit
  /-- The call `TableGet(cs_, table, key, dest).Compile()`. -/
  TableGet : Operand → Operand → Operand → Build Unit
  /-- The call `TableSet(cs_, table, key, value).Compile()`. -/
  TableSet : Operand → Operand → Operand → Build Unit

/-- Append a list of instructions, one after the other. -/
def emitAll : List Inst → Build Unit
  | [] => pure ()
  | i :: rest => do
    let _ ← emit i
    emitAll rest

/-- Handler of `MOVE`. -/
def CompileMove : Build Unit := do
  let cs ← get
  let ra := Operand.register (GETARG_A cs.instr_)
  let rb := Operand.register (GETARG_B cs.instr_)
  let _ ← emit (.assign ra rb)

/-- Handler of `LOADK` and `LOADKX`. -/
def CompileLoadk (extraarg : Bool) : Build Unit := do
  let cs ← get
  let ra := Operand.register (GETARG_A cs.instr_)
  let karg ← if extraarg then (do
      let next ← codeAt (cs.curr_ + 1)
      pure (GETARG_Ax next))
    else pure (GETARG_Bx cs.instr_)
  let k := Operand.constant karg
  let _ ← emit (.assign ra k)

/-- Handler of `LOADBOOL`. -/
def CompileLoadbool : Build Unit := do
  let cs ← get
  let ra := Operand.register (GETARG_A cs.instr_)
  let _ ← emit (.setBoolean ra (MakeInt (GETARG_B cs.instr_)))
  if GETARG_C cs.instr_ ≠ 0 then
    let target ← blockAt (cs.curr_ + 2)
    CreateBr target

/-- Handler of `LOADNIL`: registers `A` to `A + B`. -/
def CompileLoadnil : Build Unit := do
  let cs ← get
  let start := GETARG_A cs.instr_
  emitAll ((List.range (GETARG_B cs.instr_ + 1)).map
    (fun k => Inst.setTag (.register (start + k)) LUA_TNIL))

/-- Handler of `GETUPVAL`. -/
def CompileGetupval : Build Unit := do
  let cs ← get
  let ra := Operand.register (GETARG_A cs.instr_)
  let upval := Operand.upvalue (GETARG_B cs.instr_)
  let _ ← emit (.assign ra upval)

/-- Handler of `GETTABUP`. -/
def CompileGettabup (T : Translators) : Build Unit := do
  let cs ← get
  let table := Operand.upvalue (GETARG_B cs.instr_)
  let key := Operand.byArg (GETARG_C cs.instr_)
  let dest := Operand.register (GETARG_A cs.instr_)
  T.TableGet table key dest

/-- Handler of `GETTABLE`. -/
def CompileGettable (T : Translators) : Build Unit := do
  let cs ← get
  let table := Operand.register (GETARG_B cs.instr_)
  let key := Operand.byArg (GETARG_C cs.instr_)
  let dest := Operand.register (GETARG_A cs.instr_)
  T.TableGet table key dest

/-- Handler of `SETTABUP`. -/
def CompileSettabup (T : Translators) : Build Unit := do
  let cs ← get
  let table := Operand.upvalue (GETARG_A cs.instr_)
  let key := Operand.byArg (GETARG_B cs.instr_)
  let value := Operand.byArg (GETARG_C cs.instr_)
  T.TableSet table key value

/-- Handler of `SETUPVAL`. -/
def CompileSetupval : Build Unit := do
  let cs ← get
  let upval := Operand.upvalue (GETARG_B cs.instr_)
  let ra := Operand.register (GETARG_A cs.instr_)
  let _ ← emit (.assign upval ra)
  let tvalue ← emit (.getTValue upval)
  let _ ← CreateCall .lll_upvalbarrier [cs.values_.state, tvalue]

/-- Handler of `SETTABLE`. -/
def CompileSettable (T : Translators) : Build Unit := do
  let cs ← get
  let table := Operand.register (GETARG_A cs.instr_)
  let key := Operand.byArg (GETARG_B cs.instr_)
  let value := Operand.byArg (GETARG_C cs.instr_)
  T.TableSet table key value

/-- The GC check `CompileCheckcg`. -/
def CompileCheckcg (reg : Value) : Build Unit := do
  let cs ← get
  let _ ← CreateCall .lll_checkcg [cs.values_.state, cs.values_.ci, reg]

/-- Handler of `NEWTABLE`. -/
def CompileNewtable : Build Unit := do
  let cs ← get
  let a := GETARG_A cs.instr_
  let b := GETARG_B cs.instr_
  let c := GETARG_C cs.instr_
  let ra := Operand.register a
  let ratv ← emit (.getTValue ra)
  let table ← CreateCall .lll_newtable [cs.values_.state, ratv]
  if b ≠ 0 ∨ c ≠ 0 then
    let _ ← CreateCall .luaH_resize
      [cs.values_.state, table, MakeInt (luaO_fb2int b), MakeInt (luaO_fb2int c)]
  let ra1 := Operand.register (a + 1)
  let ra1tv ← emit (.getTValue ra1)
  CompileCheckcg ra1tv

/-- Handler of `SELF`. -/
def CompileSelf (T : Translators) : Build Unit := do
  let cs ← get
  let table := Operand.register (GETARG_B cs.instr_)
  let key := Operand.byArg (GETARG_C cs.instr_)
  let methodslot := Operand.register (GETARG_A cs.instr_)
  let selfslot := Operand.register (GETARG_A cs.instr_ + 1)
  let _ ← emit (.setValue selfslot table)
  T.TableGet table key methodslot

/-- Handler of the unary operators. -/
def CompileUnop (function : RuntimeFn) : Build Unit := do
  let cs ← get
  let ra := Operand.register (GETARG_A cs.instr_)
  let rkb := Operand.byArg (GETARG_B cs.instr_)
  let ratv ← emit (.getTValue ra)
  let rkbtv ← emit (.getTValue rkb)
  let _ ← CreateCall function [cs.values_.state, ratv, rkbtv]
  UpdateStack

/-- Handler of `CONCAT`. -/
def CompileConcat : Build Unit := do
  let cs ← get
  let a := GETARG_A cs.instr_
  let b := GETARG_B cs.instr_
  let c := GETARG_C cs.instr_

  SetTop (c + 1)
  let _ ← CreateCall .luaV_concat
    [cs.values_.state, MakeInt ((c : Int) - b + 1)]
  UpdateStack

  let ra := Operand.register a
  let rb := Operand.register b
  let _ ← emit (.assign ra rb)

  if a ≥ b then
    let ra1 := Operand.register (a + 1)
    let ra1tv ← emit (.getTValue ra1)
    CompileCheckcg ra1tv
  else
    let rbtv ← emit (.getTValue rb)
    CompileCheckcg rbtv

  ReloadTop

/-- Handler of `JMP`. -/
def CompileJmp : Build Unit := do
  let cs ← get
  let target ← blockAt (cs.curr_ + GETARG_sBx cs.instr_ + 1)
  CreateBr target

/-- Handler of `EQ`, `LT` and `LE`. -/
def CompileCmp (function : RuntimeFn) : Build Unit := do
  let cs ← get
  let rkb := Operand.byArg (GETARG_B cs.instr_)
  let rkc := Operand.byArg (GETARG_C cs.instr_)
  let rkbtv ← emit (.getTValue rkb)
  let rkctv ← emit (.getTValue rkc)
  let result ← CreateCall function [cs.values_.state, rkbtv, rkctv]
  UpdateStack

  let a := MakeInt (GETARG_A cs.instr_)
  let cmp ← emit (.icmpNE result a)
  let nextblock ← blockAt (cs.curr_ + 2)
  let jmpblock ← blockAt (cs.curr_ + 1)
  CreateCondBr cmp nextblock jmpblock

/-- Handler of `TEST`. -/
def CompileTest : Build Unit := do
  let cs ← get
  let _ ← GetValueR (GETARG_A cs.instr_)
  let call ← CreateCall .lll_test [MakeInt (GETARG_C cs.instr_)]
  let test ← ToBool call
  let nextblock ← blockAt (cs.curr_ + 2)
  let jmpblock ← blockAt (cs.curr_ + 1)
  CreateCondBr test nextblock jmpblock

/-- Handler of `TESTSET`. -/
def CompileTestset : Build Unit := do
  let cs ← get
  let rb ← GetValueR (GETARG_B cs.instr_)
  let call ← CreateCall .lll_test [MakeInt (GETARG_C cs.instr_), rb]
  let result ← ToBool call
  let setblock ← CreateSubBlock "set" none
  let skip ← blockAt (cs.curr_ + 2)
  CreateCondBr result skip setblock
  SetInsertPoint setblock
  let ra ← GetValueR (GETARG_A cs.instr_)
  SetRegister ra rb
  let next ← blockAt (cs.curr_ + 1)
  CreateBr next

/-- Handler of `CALL`. -/
def CompileCall : Build Unit := do
  let cs ← get
  let a := GETARG_A cs.instr_
  let b := GETARG_B cs.instr_
  if b ≠ 0 then
    SetTop (a + b)
  let ra ← GetValueR a
  let _ ← CreateCall .luaD_callnoyield
    [cs.values_.state, ra, MakeInt ((GETARG_C cs.instr_ : Int) - 1)]
  UpdateStack

/-- Handler of `TAILCALL`. -/
def CompileTailcall : Build Unit := do
  -- Tailcall returns a negative value that signals the call must be performed
  let cs ← get
  let base ← GetValueR 0
  if cs.proto_.sizep > 0 then
    let _ ← CreateCall .luaF_close [cs.values_.state, base]
  let a := GETARG_A cs.instr_
  let b := GETARG_B cs.instr_
  if b ≠ 0 then
    SetTop (a + b)
  let diff ← TopDiff a
  let ret ← emit (.neg diff)
  CreateRet ret

/-- Handler of `RETURN`. -/
def CompileReturn : Build Unit := do
  let cs ← get
  let base ← GetValueR 0
  if cs.proto_.sizep > 0 then
    let _ ← CreateCall .luaF_close [cs.values_.state, base]
  let a := GETARG_A cs.instr_
  let b := GETARG_B cs.instr_
  let nresults ←
    if b = 0 then
      TopDiff (GETARG_A cs.instr_)
    else if b = 1 then
      pure (MakeInt 0)
    else do
      let nresults := MakeInt ((b : Int) - 1)
      SetTop ((a : Int) + b - 1)
      pure nresults
  CreateRet nresults

/-- Handler of `FORLOOP`. -/
def CompileForloop : Build Unit := do
  let cs ← get
  let ra ← GetValueR (GETARG_A cs.instr_)
  let call ← CreateCall .lll_forloop [ra]
  let jump ← ToBool call
  let jumpblock ← blockAt (cs.curr_ + 1 + GETARG_sBx cs.instr_)
  let next ← blockAt (cs.curr_ + 1)
  CreateCondBr jump jumpblock next

/-- Handler of `FORPREP`. -/
def CompileForprep : Build Unit := do
  let cs ← get
  let ra ← GetValueR (GETARG_A cs.instr_)
  let _ ← CreateCall .lll_forprep [cs.values_.state, ra]
  let target ← blockAt (cs.curr_ + 1 + GETARG_sBx cs.instr_)
  CreateBr target

/-- Handler of `TFORCALL`. -/
def CompileTforcall : Build Unit := do
  let cs ← get
  let a : Int := GETARG_A cs.instr_
  let cb := a + 3
  let cb2 ← GetValueR (cb + 2)
  let ra2 ← GetValueR (a + 2)
  SetRegister cb2 ra2
  let cb1 ← GetValueR (cb + 1)
  let ra1 ← GetValueR (a + 1)
  SetRegister cb1 ra1
  let cb0 ← GetValueR cb
  let ra ← GetValueR a
  SetRegister cb0 ra
  SetTop (cb + 3)
  let cbv ← GetValueR cb
  let _ ← CreateCall .luaD_callnoyield
    [cs.values_.state, cbv, MakeInt (GETARG_C cs.instr_)]
  UpdateStack
  ReloadTop

/-- Handler of `TFORLOOP`. -/
def CompileTforloop : Build Unit := do
  let cs ← get
  let a : Int := GETARG_A cs.instr_
  let ra1 ← GetValueR (a + 1)
  let tag ← LoadField ra1 .TValue_tt
  let notnil ← emit (.icmpNE tag (MakeInt LUA_TNIL))
  let continueblock ← CreateSubBlock "continue" none
  let jmpblock ← blockAt (cs.curr_ + 1)
  CreateCondBr notnil continueblock jmpblock

  SetInsertPoint continueblock
  let ra ← GetValueR a
  SetRegister ra ra1
  let target ← blockAt (cs.curr_ + 1 + GETARG_sBx cs.instr_)
  CreateBr target

/-- Handler of `SETLIST`. -/
def CompileSetlist : Build Unit := do
  let cs ← get
  let a := GETARG_A cs.instr_
  let b := GETARG_B cs.instr_
  let c ← if GETARG_C cs.instr_ = 0 then (do
      let next ← codeAt (cs.curr_ + 1)
      pure (GETARG_Ax next))
    else pure (GETARG_C cs.instr_)

  let n ← if b ≠ 0 then pure (MakeInt b) else TopDiff ((a : Int) + 1)
  let fields := MakeInt (((c : Int) - 1) * LFIELDS_PER_FLUSH)

  let ra ← GetValueR a
  let _ ← CreateCall .lll_setlist [cs.values_.state, ra, fields, n]
  ReloadTop

/-- Handler of `CLOSURE`. -/
def CompileClosure : Build Unit := do
  let cs ← get
  let base ← GetValueR 0
  let ra ← GetValueR (GETARG_A cs.instr_)
  let _ ← CreateCall .lll_closure
    [cs.values_.state, cs.values_.closure, base, ra,
     MakeInt (GETARG_Bx cs.instr_)]
  let ra1 ← GetValueR ((GETARG_A cs.instr_ : Int) + 1)
  CompileCheckcg ra1

/-- The `switch` of the driver: the handler of the current instruction. -/
def dispatch (T : Translators) (op : Option OpCode) : Build Unit :=
  match op with
  | some OP_MOVE => CompileMove
  | some OP_LOADK => CompileLoadk false
  | some OP_LOADKX => CompileLoadk true
  | some OP_LOADBOOL => CompileLoadbool
  | some OP_LOADNIL => CompileLoadnil
  | some OP_GETUPVAL => CompileGetupval
  | some OP_GETTABUP => CompileGettabup T
  | some OP_GETTABLE => CompileGettable T
  | some OP_SETTABUP => CompileSettabup T
  | some OP_SETUPVAL => CompileSetupval
  | some OP_SETTABLE => CompileSettable T
  | some OP_NEWTABLE => CompileNewtable
  | some OP_SELF => CompileSelf T
  | some OP_ADD | some OP_SUB | some OP_MUL | some OP_MOD | some OP_POW
  | some OP_DIV | some OP_IDIV => T.Arith
  | some OP_BAND | some OP_BOR | some OP_BXOR | some OP_SHL | some OP_SHR =>
    T.Logical
  | some OP_UNM => CompileUnop .lll_unm
  | some OP_BNOT => CompileUnop .lll_bnot
  | some OP_NOT => CompileUnop .lll_not
  | some OP_LEN => CompileUnop .luaV_objlen
  | some OP_CONCAT => CompileConcat
  | some OP_JMP => CompileJmp
  | some OP_EQ => CompileCmp .luaV_equalobj
  | some OP_LT => CompileCmp .luaV_lessthan
  | some OP_LE => CompileCmp .luaV_lessequal
  | some OP_TEST => CompileTest
  | some OP_TESTSET => CompileTestset
  | some OP_CALL => CompileCall
  | some OP_TAILCALL => CompileTailcall
  | some OP_RETURN => CompileReturn
  | some OP_FORLOOP => CompileForloop
  | some OP_FORPREP => CompileForprep
  | some OP_TFORCALL => CompileTforcall
  | some OP_TFORLOOP => CompileTforloop
  | some OP_SETLIST => CompileSetlist
  | some OP_CLOSURE => CompileClosure
  | some OP_VARARG => Vararg.Compile
  | some OP_EXTRAARG => pure ()
  | none => pure ()

/-- The default fall-through of the driver: a branch to the next block when
the block of the current instruction has no terminator. -/
def fallThrough : Build Unit := do
  let cs ← get
  let current ← blockAt cs.curr_
  if (getTerminator (cs.insts current)).isNone then
    let next ← blockAt (cs.curr_ + 1)
    CreateBr next

/-- One iteration of the driver's loop body. -/
def compileOne (T : Translators) : Build Unit := do
  let cs ← get
  let current ← blockAt cs.curr_
  SetInsertPoint current
  let instr ← codeAt cs.curr_
  modify fun cs => cs.withInstr instr
  dispatch T (GET_OPCODE instr)
  fallThrough

/-- The driver's loop, from the current `curr_`; the count bounds the number
of iterations, which is `sizecode` when no handler moves `curr_`. -/
def compileLoop (T : Translators) : Nat → Build Unit
  | 0 => fun cs => if cs.curr_ < cs.proto_.sizecode then none else some ((), cs)
  | fuel + 1 => do
    let cs ← get
    if cs.curr_ < cs.proto_.sizecode then
      compileOne T
      modify fun cs => cs.withCurr (cs.curr_ + 1)
      compileLoop T fuel

/-- The driver `Compiler::CompileInstructions`. -/
def CompileInstructions (T : Translators) : Build Bool := do
  modify fun cs => cs.withCurr 0
  let cs ← get
  compileLoop T cs.proto_.sizecode
  pure true

/-- Translation of a whole `Proto`: construction of the state, then the
driver; the result is the final state. -/
def translate (T : Translators) (proto : Proto) : Option CompilerState :=
  match CompilerState.create proto with
  | none => none
  | some cs => (CompileInstructions T cs).map (fun r => r.2)

/-- Translators that emit nothing, for programs without composite
instructions. -/
def Translators.silent : Translators where
  Arith := pure ()
  Logical := pure ()
  TableGet := fun _ _ _ => pure ()
  TableSet := fun _ _ _ => pure ()

/-! ## Shape of the generated blocks -/

/-- The terminator instructions of a block. -/
def terminators (l : List Inst) : List Inst := l.filter Inst.isTerminator

/-- A block that ends with exactly one terminator: it holds one terminator
instruction and that instruction is the last. -/
def wellTerminated (l : List Inst) : Bool :=
  (terminators l).length == 1 && (getTerminator l).isSome

/-- The blocks an instruction branches to. -/
def Inst.targets : Inst → List BlockId
  | .br dest => [dest]
  | .condBr _ ifTrue ifFalse => [ifTrue, ifFalse]
  | _ => []

/-- The blocks a block branches to. -/
def successors : List Inst → List BlockId
  | [] => []
  | i :: rest => i.targets ++ successors rest

/-- The block table `CreateBlocks` builds for `n` instructions. -/
def blockTable (n : Nat) : List BlockId := (List.range n).map BlockId.primary

/-- The blocks that belong to the instruction at an offset: its primary block
and the sub-blocks allocated while it was translated. -/
def ownedBy (i : Nat) : BlockId → Bool
  | .primary k => k == i
  | .sub k _ => k == i
  | .entry => false

/-- The state the driver hands to a handler: the insertion point is the block
of the current instruction, that block has no terminator yet, and no
sub-block of the instruction exists. -/
structure Ready (cs : CompilerState) (n : Nat) : Prop where
  table : cs.blocks_ = blockTable n
  inRange : cs.curr_ < n
  point : cs.insertPoint = .primary cs.curr_
  open_ : terminators (cs.insts (.primary cs.curr_)) = []
  fresh : ∀ j, BlockId.sub cs.curr_ j ∉ cs.layout
  freshInsts : ∀ j, cs.insts (.sub cs.curr_ j) = []
  present : BlockId.primary cs.curr_ ∈ cs.layout

/-- What the translation of one instruction may do to the state: it keeps the
table, adds only sub-blocks of the current instruction, writes only to the
blocks of the current instruction, leaves every sub-block with exactly one
terminator at its end, leaves the primary block either so terminated or open
with the insertion point on it, and branches only to blocks of the table or to
its own sub-blocks. -/
structure Translated (cs cs' : CompilerState) (n : Nat) : Prop where
  proto : cs'.proto_ = cs.proto_
  table : cs'.blocks_ = cs.blocks_
  curr : cs'.curr_ = cs.curr_
  keeps : ∀ b, b ∈ cs.layout → b ∈ cs'.layout
  adds : ∀ b, b ∈ cs'.layout → b ∈ cs.layout ∨ ∃ j, b = .sub cs.curr_ j
  frame : ∀ b, ownedBy cs.curr_ b = false → cs'.insts b = cs.insts b
  subs : ∀ j, BlockId.sub cs.curr_ j ∈ cs'.layout →
    wellTerminated (cs'.insts (.sub cs.curr_ j)) = true
  unused : ∀ j, BlockId.sub cs.curr_ j ∉ cs'.layout →
    cs'.insts (.sub cs.curr_ j) = []
  primary : wellTerminated (cs'.insts (.primary cs.curr_)) = true ∨
    (terminators (cs'.insts (.primary cs.curr_)) = [] ∧
      cs'.insertPoint = .primary cs.curr_)
  targets : ∀ b, ownedBy cs.curr_ b = true → ∀ s ∈ successors (cs'.insts b),
    s ∈ blockTable n ∨ (s ∈ cs'.layout ∧ ∃ j, s = .sub cs.curr_ j)

/-- The handler reached the next instruction: it left the primary block open
(the driver then adds the fall-through), or one of the blocks of the
instruction branches to the block of the next offset. -/
def Falls (cs cs' : CompilerState) : Prop :=
  terminators (cs'.insts (.primary cs.curr_)) = [] ∨
    ∃ b, ownedBy cs.curr_ b = true ∧ b ∈ cs'.layout ∧
      BlockId.primary (cs.curr_ + 1) ∈ successors (cs'.insts b)

/-- The handler ended the primary block itself. -/
def Closes (cs cs' : CompilerState) : Prop :=
  wellTerminated (cs'.insts (.primary cs.curr_)) = true

/-! ## The code generated for `VARARG` -/

namespace Vararg

/-- The ten instructions of `ComputeAvailableArgs`, at the start of block
`p`; the last one is `available`. -/
def availableCode (st : Values) (numparams : Nat) (p : BlockId) : List Inst :=
  [.bitcast st.ci,
   .gep (.inst p 0) (.offsetof .CallInfo_func),
   .bitcast (.inst p 1),
   .load (.inst p 2),
   .ptrDiff st.base (.inst p 3),
   .intCast (.inst p 4) sizeof_int false,
   .sub (.inst p 5) (.int (numparams + 1)),
   .icmpSGE (.inst p 6) (.int 0),
   .intCast (.inst p 7) sizeof_int false,
   .mul (.inst p 8) (.inst p 6)]

/-- The value `available_`. -/
def available (p : BlockId) : Value := .inst p 9

/-- The instructions `ComputeRequiredArgs` emits for an open call (`B = 0`):
the stack check, the reload of the base and the store of the new top. -/
def openCode (st : Values) (a : Nat) (p : BlockId) : List Inst :=
  [.call .lll_checkstack [st.state, available p],
   .bitcast st.ci,
   .gep (.inst p 11) (.offsetof .CallInfo_base),
   .bitcast (.inst p 12),
   .load (.inst p 13),
   .store (.inst p 14) st.base,
   .add (.int a) (available p),
   .gep st.base (.inst p 16),
   .bitcast st.state,
   .gep (.inst p 18) (.offsetof .lua_State_top),
   .bitcast (.inst p 19),
   .store (.inst p 17) (.inst p 20)]

/-- The value `required_`. -/
def required (b : Nat) (p : BlockId) : Value :=
  if b = 0 then available p else .int ((b : Int) - 1)

/-- The code of the primary block of a `VARARG` at offset `c`. -/
def entryCode (st : Values) (numparams a b c : Nat) : List Inst :=
  availableCode st numparams (.primary c) ++
  (if b = 0 then openCode st a (.primary c) else []) ++
  [.icmpSLT (required b (.primary c)) (available (.primary c)),
   .condBr (.inst (.primary c) (if b = 0 then 22 else 10)) (.sub c 0) (.sub c 1)]

/-- The value `nmoves_`: the phi of block `computenmoves`. -/
def nmoves (c : Nat) : Value := .inst (.sub c 2) 0

/-- The code of the `k`-th sub-block of a `VARARG` at offset `c`:
`requiredmin`, `availablemin`, `computenmoves`, `move.check`, `move`,
`move.end`, `fill.check`, `fill`. -/
def subCode (st : Values) (a b c : Nat) : Nat → List Inst
  | 0 => [.br (.sub c 2)]
  | 1 => [.br (.sub c 2)]
  | 2 => [.phi [(required b (.primary c), .sub c 0),
                (available (.primary c), .sub c 1)],
          .br (.sub c 3)]
  | 3 => [.phi [(.int 0, .sub c 2), (.inst (.sub c 3) 1, .sub c 4)],
          .add (.inst (.sub c 3) 0) (.int 1),
          .icmpSLT (.inst (.sub c 3) 0) (nmoves c),
          .condBr (.inst (.sub c 3) 2) (.sub c 4) (.sub c 5)]
  | 4 => [.sub (.inst (.sub c 3) 0) (available (.primary c)),
          .gep st.base (.inst (.sub c 4) 0),
          .add (.int a) (.inst (.sub c 3) 0),
          .gep st.base (.inst (.sub c 4) 2),
          .setRegister (.inst (.sub c 4) 3) (.inst (.sub c 4) 1),
          .br (.sub c 3)]
  | 5 => [.br (.sub c 6)]
  | 6 => [.phi [(nmoves c, .sub c 5), (.inst (.sub c 6) 1, .sub c 7)],
          .add (.inst (.sub c 6) 0) (.int 1),
          .icmpSLT (.inst (.sub c 6) 0) (required b (.primary c)),
          .condBr (.inst (.sub c 6) 2) (.sub c 7) (.primary (c + 1))]
  | 7 => [.add (.int a) (.inst (.sub c 6) 0),
          .gep st.base (.inst (.sub c 7) 0),
          .bitcast (.inst (.sub c 7) 1),
          .gep (.inst (.sub c 7) 2) (.offsetof .TValue_tt),
          .bitcast (.inst (.sub c 7) 3),
          .store (.int LUA_TNIL) (.inst (.sub c 7) 4),
          .br (.sub c 6)]
  | _ => []

/-- The state `Vararg::Compile` produces from a state whose current block is
empty: the nine blocks with their code, laid out in the order primary,
`requiredmin`, `availablemin`, `computenmoves`, `move.check`, `move`,
`move.end`, `fill.check`, `fill`. -/
def result (cs : CompilerState) : CompilerState :=
  let c := cs.curr_
  let st := cs.values_
  let a := GETARG_A cs.instr_
  let b := GETARG_B cs.instr_
  let name := cs.label (.primary c)
  (((((((((((((((((cs.append (.primary c)
      (entryCode st cs.proto_.numparams a b c)).append
      (.sub c 0) (subCode st a b c 0)).append
      (.sub c 1) (subCode st a b c 1)).append
      (.sub c 2) (subCode st a b c 2)).append
      (.sub c 3) (subCode st a b c 3)).append
      (.sub c 4) (subCode st a b c 4)).append
      (.sub c 5) (subCode st a b c 5)).append
      (.sub c 6) (subCode st a b c 6)).append
      (.sub c 7) (subCode st a b c 7)).withBlock
      (.primary c) (.sub c 0) (name ++ "." ++ "requiredmin")).withBlock
      (.sub c 0) (.sub c 1) (name ++ "." ++ "availablemin")).withBlock
      (.sub c 1) (.sub c 2) (name ++ "." ++ "computenmoves")).withBlock
      (.sub c 2) (.sub c 3) (name ++ "." ++ "move.check")).withBlock
      (.sub c 3) (.sub c 4) (name ++ "." ++ "move")).withBlock
      (.sub c 4) (.sub c 5) (name ++ "." ++ "move.end")).withBlock
      (.sub c 5) (.sub c 6) (name ++ "." ++ "fill.check")).withBlock
      (.sub c 6) (.sub c 7) (name ++ "." ++ "fill")).withPoint (.sub c 7)

end Vararg

/-! ## The dispatch of one instruction -/

/-- The contract of the composite translators whose sources are absent, as the
specification describes them: each translates its instruction locally and
reaches the block of the next instruction. -/
def Translators.Respectful (T : Translators) : Prop :=
  ∀ cs n, Ready cs n → cs.curr_ + 1 < n →
    (∃ cs', T.Arith cs = some ((), cs') ∧ Translated cs cs' n ∧ Falls cs cs') ∧
    (∃ cs', T.Logical cs = some ((), cs') ∧ Translated cs cs' n ∧ Falls cs cs') ∧
    (∀ table key dest, ∃ cs', T.TableGet table key dest cs = some ((), cs') ∧
      Translated cs cs' n ∧ Falls cs cs') ∧
    (∀ table key value, ∃ cs', T.TableSet table key value cs = some ((), cs') ∧
      Translated cs cs' n ∧ Falls cs cs')

/-- The blocks the handler of an opcode and the driver's fall-through read
from the table exist: the condition under which the translation of the
instruction at offset `c` is defined. -/
def Needs (c : Nat) (instr : Instruction) (n : Nat) : Option OpCode → Prop
  | some OP_JMP =>
    0 ≤ (c : Int) + GETARG_sBx instr + 1 ∧ (c : Int) + GETARG_sBx instr + 1 < n
  | some OP_FORPREP =>
    0 ≤ (c : Int) + 1 + GETARG_sBx instr ∧ (c : Int) + 1 + GETARG_sBx instr < n
  | some OP_FORLOOP =>
    (0 ≤ (c : Int) + 1 + GETARG_sBx instr ∧
      (c : Int) + 1 + GETARG_sBx instr < n) ∧ c + 1 < n
  | some OP_TFORLOOP =>
    (0 ≤ (c : Int) + 1 + GETARG_sBx instr ∧
      (c : Int) + 1 + GETARG_sBx instr < n) ∧ c + 1 < n
  | some OP_EQ => c + 2 < n
  | some OP_LT => c + 2 < n
  | some OP_LE => c + 2 < n
  | some OP_TEST => c + 2 < n
  | some OP_TESTSET => c + 2 < n
  | some OP_LOADBOOL => if GETARG_C instr ≠ 0 then c + 2 < n else c + 1 < n
  | some OP_RETURN => True
  | some OP_TAILCALL => True
  | _ => c + 1 < n

/-- The handlers that end the block themselves without an edge to the next
instruction: `JMP`, `FORPREP`, `TAILCALL`, `RETURN`, and `LOADBOOL` with its
skip flag set. -/
def endsFlow (instr : Instruction) : Option OpCode → Bool
  | some OP_JMP => true
  | some OP_FORPREP => true
  | some OP_TAILCALL => true
  | some OP_RETURN => true
  | some OP_LOADBOOL => decide (GETARG_C instr ≠ 0)
  | _ => false

/-- The result of a handler: a local translation that either ended the block
itself or reaches the next instruction, whose block exists. -/
def Outcome (ends : Bool) (cs cs' : CompilerState) (n : Nat) : Prop :=
  Translated cs cs' n ∧
    match ends with
    | true => Closes cs cs'
    | false => Falls cs cs' ∧ cs.curr_ + 1 < n

/-! ## The driver loop -/

/-- Some block of the instruction at offset `c` branches to the block of the
next offset. -/
def Reaches (c : Nat) (cs : CompilerState) : Prop :=
  ∃ b, ownedBy c b = true ∧ b ∈ cs.layout ∧
    BlockId.primary (c + 1) ∈ successors (cs.insts b)

/-- The instruction word at an offset (zero outside the code). -/
def Proto.instrAt (p : Proto) (i : Nat) : Instruction := p.code.getD i 0

/-- The invariant of the driver loop when `curr_` instructions are translated:
the table is the one built up front, every block of the function is the entry
block, a block of the table or a sub-block of a translated instruction, the
blocks of the instructions still to translate are empty, and every other
block ends with exactly one terminator. -/
structure DriverInv (p : Proto) (cs : CompilerState) : Prop where
  proto : cs.proto_ = p
  table : cs.blocks_ = blockTable p.sizecode
  le : cs.curr_ ≤ p.sizecode
  entryIn : BlockId.entry ∈ cs.layout
  entryBr : BlockId.primary 0 ∈ successors (cs.insts .entry)
  primaryIn : ∀ i, i < p.sizecode → BlockId.primary i ∈ cs.layout
  only : ∀ b ∈ cs.layout, b = .entry ∨ (∃ i, i < p.sizecode ∧ b = .primary i) ∨
    ∃ i j, i < cs.curr_ ∧ b = .sub i j
  pending : ∀ i, cs.curr_ ≤ i →
    cs.insts (.primary i) = [] ∧ ∀ j, cs.insts (.sub i j) = []
  done : ∀ b ∈ cs.layout, (∀ i, b = .primary i → i < cs.curr_) →
    wellTerminated (cs.insts b) = true
  reached : ∀ i, i < cs.curr_ →
    endsFlow (p.instrAt i) (GET_OPCODE (p.instrAt i)) = false → Reaches i cs
  entryTo : successors (cs.insts .entry) = [.primary 0]
  targets : ∀ b ∈ cs.layout, ∀ s ∈ successors (cs.insts b),
    s ∈ blockTable p.sizecode ∨ ∃ i j, s = .sub i j ∧ ownedBy i b = true

/-- Every instruction of the program has the blocks its translation reads. -/
def Proto.Translatable (p : Proto) : Prop :=
  ∀ i, i < p.sizecode → Needs i (p.instrAt i) p.sizecode (GET_OPCODE (p.instrAt i))

/-- The instructions of the entry block before its branch. -/
def entryCode : List Inst :=
  [.bitcast .state,
   .gep (.inst .entry 0) (.offsetof .lua_State_ci),
   .bitcast (.inst .entry 1),
   .load (.inst .entry 2),
   .alloca .lua_Number,
   .alloca .lua_Number,
   .alloca .TValue,
   .bitcast (.inst .entry 3),
   .gep (.inst .entry 7) (.offsetof .CallInfo_base),
   .bitcast (.inst .entry 8),
   .load (.inst .entry 9),
   .store (.inst .entry 10) (.inst .entry 6)]

/-- The handles `CreateBlocks` caches. -/
def entryValues : Values :=
  ⟨.state, .closure, .inst .entry 3, .inst .entry 4, .inst .entry 5,
    .inst .entry 6⟩

/-- The state `CreateBlocks` reaches before it allocates the blocks of the
table. -/
def skeleton (p : Proto) : CompilerState :=
  ((((CompilerState.init p).pushBlock .entry "entry").withPoint .entry).append
    .entry entryCode).withValues entryValues

/-- The rest of `CreateBlocks`: the blocks of the table and the branch of the
entry block. -/
def createTail (code : List Instruction) : Build Unit := do
  createBlockLoop code 0
  let first ← blockAt 0
  CreateBr first

/-! ## Programs the driver is defined on -/

/-- The offsets of the blocks the handler of an instruction at offset `i`
branches to. -/
def branchTargets (i : Nat) (instr : Instruction) : List Int :=
  match GET_OPCODE instr with
  | some OP_JMP => [(i : Int) + GETARG_sBx instr + 1]
  | some OP_FORPREP => [(i : Int) + 1 + GETARG_sBx instr]
  | some OP_FORLOOP => [(i : Int) + 1 + GETARG_sBx instr, (i : Int) + 1]
  | some OP_TFORLOOP => [(i : Int) + 1 + GETARG_sBx instr, (i : Int) + 1]
  | some OP_EQ => [(i : Int) + 2, (i : Int) + 1]
  | some OP_LT => [(i : Int) + 2, (i : Int) + 1]
  | some OP_LE => [(i : Int) + 2, (i : Int) + 1]
  | some OP_TEST => [(i : Int) + 2, (i : Int) + 1]
  | some OP_TESTSET => [(i : Int) + 2, (i : Int) + 1]
  | some OP_LOADBOOL => if GETARG_C instr ≠ 0 then [(i : Int) + 2] else []
  | some OP_VARARG => [(i : Int) + 1]
  | _ => []

/-- Every branch target of every instruction is an offset of the program. -/
def targetsInRange (p : Proto) : Bool :=
  (List.range p.sizecode).all fun i =>
    (branchTargets i (p.instrAt i)).all fun t =>
      decide (0 ≤ t) && decide (t < p.sizecode)

/-- The program is not empty and the handler of its last instruction ends the
block: the instruction is a `RETURN`, a `TAILCALL` or a `JMP`. -/
def lastTerminates (p : Proto) : Bool :=
  decide (0 < p.sizecode) &&
    (decide (GET_OPCODE (p.instrAt (p.sizecode - 1)) = some OP_RETURN) ||
     decide (GET_OPCODE (p.instrAt (p.sizecode - 1)) = some OP_TAILCALL) ||
     decide (GET_OPCODE (p.instrAt (p.sizecode - 1)) = some OP_JMP))

/-! ## Execution of the generated code

A small-step reading of the IR the builder calls produce: integers are
residues modulo two to their width, pointers are symbolic addresses, memory
maps addresses to values, and the runtime functions the code calls are a
parameter.  Every call, store and register copy is recorded in a trace. -/

/-- Runtime values. -/
inductive RVal
  /-- An integer of `bits` bits, as its unsigned residue. -/
  | int (bits : Nat) (u : Nat)
  /-- The interpreter state, first argument of the function. -/
  | state
  /-- The closure, second argument of the function. -/
  | closure
  /-- The constant `offsetof` of a field. -/
  | offs (f : Field)
  /-- The address of the slot an `alloca` made. -/
  | slot (b : BlockId) (k : Nat)
  /-- The address of a field of the record at an address. -/
  | field (p : RVal) (f : Field)
  /-- The address `idx` tagged values after an address. -/
  | elem (p : RVal) (idx : Int)
  /-- The address of a register, as `GetValueR` gives it. -/
  | reg (n : Int)
  /-- The address an operand view gives. -/
  | tvalue (o : Operand)
  /-- No defined value. -/
  | undef
  deriving DecidableEq, Repr

/-- What the generated code does to the world outside its own values. -/
inductive Event
  | call (f : RuntimeFn) (args : List RVal)
  | store (v p : RVal)
  | setRegister (dst src : RVal)
  | assign (dst src : Operand)
  | setValue (dst src : Operand)
  | setBoolean (dst : Operand) (v : RVal)
  | setTag (dst : Operand) (tag : Int)
  deriving DecidableEq, Repr

/-- The runtime the generated code runs against. -/
structure World where
  /-- Result of a runtime function, and the memory it leaves. -/
  call : RuntimeFn → List RVal → (RVal → RVal) → RVal × (RVal → RVal)
  /-- Distance, in tagged values, between two addresses of unrelated origin. -/
  ptrDiff : RVal → RVal → Int

/-- The state of an execution: the value of every instruction result, the
memory, and the trace of events so far. -/
structure Machine where
  env : BlockId × Nat → RVal
  mem : RVal → RVal
  trace : List Event

/-- Signed reading of a residue of `bits` bits. -/
def sval (bits : Nat) (u : Nat) : Int :=
  if u < 2 ^ (bits - 1) then (u : Int) else (u : Int) - 2 ^ bits

/-- Residue of an integer modulo two to the `bits`. -/
def toU (bits : Nat) (z : Int) : Nat := (z % 2 ^ bits).toNat

/-- Value of an operand. -/
def evalValue (m : Machine) : Value → RVal
  | .null => .undef
  | .state => .state
  | .closure => .closure
  | .int n => .int (8 * sizeof_int) (toU (8 * sizeof_int) n)
  | .offsetof f => .offs f
  | .inst b k => m.env (b, k)

/-- Distance between two addresses, in tagged values. -/
def ptrDistance (W : World) : RVal → RVal → Int
  | .reg x, .reg y => x - y
  | .elem p x, .elem q y => if p = q then x - y else W.ptrDiff (.elem p x) (.elem q y)
  | a, b => W.ptrDiff a b

/-- The machine after an instruction result was bound. -/
def Machine.bind (m : Machine) (at_ : BlockId × Nat) (v : RVal) : Machine :=
  { m with env := Function.update m.env at_ v }

/-- The machine after an event was recorded. -/
def Machine.log (m : Machine) (e : Event) : Machine :=
  { m with trace := m.trace ++ [e] }

/-- Execution of one instruction that is neither a phi nor a terminator. -/
def execInst (W : World) (at_ : BlockId × Nat) (m : Machine) : Inst → Machine
  | .alloca _ => m.bind at_ (.slot at_.1 at_.2)
  | .bitcast v => m.bind at_ (evalValue m v)
  | .gep p idx =>
    m.bind at_ (match evalValue m idx with
      | .offs f => .field (evalValue m p) f
      | .int bits u => .elem (evalValue m p) (sval bits u)
      | _ => .undef)
  | .load p => m.bind at_ (m.mem (evalValue m p))
  | .store v p =>
    ({ m with mem := Function.update m.mem (evalValue m p) (evalValue m v) }).log
      (.store (evalValue m v) (evalValue m p))
  | .intToPtr _ => m.bind at_ .undef
  | .call f args =>
    let r := W.call f (args.map (evalValue m)) m.mem
    (({ m with mem := r.2 }).bind at_ r.1).log (.call f (args.map (evalValue m)))
  | .ptrDiff a b =>
    m.bind at_ (.int 64 (toU 64 (ptrDistance W (evalValue m a) (evalValue m b))))
  | .intCast v bytes isSigned =>
    m.bind at_ (match evalValue m v with
      | .int bits u =>
        .int (8 * bytes)
          (if isSigned then toU (8 * bytes) (sval bits u) else u % 2 ^ (8 * bytes))
      | _ => .undef)
  | .neg v =>
    m.bind at_ (match evalValue m v with
      | .int bits u => .int bits (toU bits (-(u : Int)))
      | _ => .undef)
  | .add a b =>
    m.bind at_ (match evalValue m a, evalValue m b with
      | .int bits u, .int _ v => .int bits ((u + v) % 2 ^ bits)
      | _, _ => .undef)
  | .sub a b =>
    m.bind at_ (match evalValue m a, evalValue m b with
      | .int bits u, .int _ v => .int bits (toU bits ((u : Int) - v))
      | _, _ => .undef)
  | .mul a b =>
    m.bind at_ (match evalValue m a, evalValue m b with
      | .int bits u, .int _ v => .int bits ((u * v) % 2 ^ bits)
      | _, _ => .undef)
  | .icmpNE a b =>
    m.bind at_ (match evalValue m a, evalValue m b with
      | .int _ u, .int _ v => .int 1 (if u ≠ v then 1 else 0)
      | _, _ => .undef)
  | .icmpSGE a b =>
    m.bind at_ (match evalValue m a, evalValue m b with
      | .int bits u, .int bits' v =>
        .int 1 (if sval bits u ≥ sval bits' v then 1 else 0)
      | _, _ => .undef)
  | .icmpSLT a b =>
    m.bind at_ (match evalValue m a, evalValue m b with
      | .int bits u, .int bits' v =>
        .int 1 (if sval bits u < sval bits' v then 1 else 0)
      | _, _ => .undef)
  | .getValueR n => m.bind at_ (.reg n)
  | .setRegister dst src => m.log (.setRegister (evalValue m dst) (evalValue m src))
  | .getTValue o => m.bind at_ (.tvalue o)
  | .assign dst src => m.log (.assign dst src)
  | .setValue dst src => m.log (.setValue dst src)
  | .setBoolean dst v => m.log (.setBoolean dst (evalValue m v))
  | .setTag dst tag => m.log (.setTag dst tag)
  | .phi _ => m
  | .br _ => m
  | .condBr _ _ _ => m
  | .ret _ => m

/-- Value a phi takes when control arrives from `pred`, read in the machine
`m0` at the entry of the block. -/
def phiValue (m0 : Machine) (pred : BlockId) : List (Value × BlockId) → RVal
  | [] => .undef
  | (v, b) :: rest => if b = pred then evalValue m0 v else phiValue m0 pred rest

/-- Execution of the instructions of block `cur` from position `k` on, control
having arrived from `pred` with machine `m0`: phis read their operands in
`m0`; the result is the machine at the first terminator, and that
terminator. -/
def execFrom (W : World) (m0 : Machine) (pred cur : BlockId) :
    List Inst → Nat → Machine → Machine × Option Inst
  | [], _, m => (m, none)
  | .phi inc :: rest, k, m =>
    execFrom W m0 pred cur rest (k + 1) (m.bind (cur, k) (phiValue m0 pred inc))
  | i :: rest, k, m =>
    if i.isTerminator then (m, some i)
    else execFrom W m0 pred cur rest (k + 1) (execInst W (cur, k) m i)

/-- Where an execution stands. -/
inductive Control
  /-- Control enters block `cur` from block `pred`. -/
  | enter (pred cur : BlockId) (m : Machine)
  /-- The function returned a value. -/
  | returned (v : RVal) (m : Machine)
  /-- The block has no terminator, or branches on no integer. -/
  | stuck

/-- Execution of one block and of its terminator. -/
def stepBlock (W : World) (F : BlockId → List Inst) (pred cur : BlockId)
    (m : Machine) : Control :=
  match execFrom W m pred cur (F cur) 0 m with
  | (m', some (.br dest)) => .enter cur dest m'
  | (m', some (.condBr c ifTrue ifFalse)) =>
    match evalValue m' c with
    | .int _ u => if u ≠ 0 then .enter cur ifTrue m' else .enter cur ifFalse m'
    | _ => .stuck
  | (m', some (.ret v)) => .returned (evalValue m' v) m'
  | _ => .stuck

/-- Execution from the entry of block `cur` until the function returns or
control enters a block of `stop`, for at most `fuel` blocks. -/
def run (W : World) (F : BlockId → List Inst) (stop : BlockId → Bool) :
    Nat → BlockId → BlockId → Machine → Option Control
  | 0, _, _, _ => none
  | fuel + 1, pred, cur, m =>
    if stop cur then some (.enter pred cur m)
    else
      match stepBlock W F pred cur m with
      | .enter p c m' => run W F stop fuel p c m'
      | .returned v m' => some (.returned v m')
      | .stuck => some .stuck

/-- The signed integer a function returned, when it returned one. -/
def Control.result : Control → Option Int
  | .returned (.int bits u) _ => some (sval bits u)
  | _ => none

/-! ## States and programs the statements are instantiated at -/

/-- The state the driver hands to the handler of the instruction at offset
`c` of a program none of whose instructions is translated yet: the function
holds the entry block and the blocks of the table, and `curr_`, `instr_` and
the insertion point are those of offset `c`. -/
def handlerState (p : Proto) (c : Nat) : CompilerState where
  proto_ := p
  values_ := entryValues
  layout := .entry :: blockTable p.sizecode
  insts := fun b => if b = .entry then entryCode ++ [.br (.primary 0)] else []
  label := fun _ => ""
  blocks_ := blockTable p.sizecode
  insertPoint := .primary c
  curr_ := c
  instr_ := p.instrAt c

/-- Two register moves and a jump back to the first: the jump is at offset 2
and its displacement is -3. -/
def jumpBack : Proto :=
  ⟨[CREATE_ABC OP_MOVE 0 0 0, CREATE_ABC OP_MOVE 0 0 0, CREATE_AsBx OP_JMP 0 (-3)], 0, 0⟩

/-! ## Reading the emitted code -/

/-- The instruction of block `b` that defines a value, when the value is the
result of one. -/
def defOf (b : BlockId) (l : List Inst) : Value → Option Inst
  | .inst b' k => if b' = b then l[k]? else none
  | _ => none

/-- The record and the field an address of a block points into, when the
address was made the way `GetFieldPtr` makes it: a cast of the record, the
indexing by the offset of the field, and a cast of the result. -/
def fieldOf (b : BlockId) (l : List Inst) (p : Value) : Option (Value × Field) :=
  match defOf b l p with
  | some (.bitcast element) =>
    match defOf b l element with
    | some (.gep mem (.offsetof f)) =>
      match defOf b l mem with
      | some (.bitcast strukt) => some (strukt, f)
      | _ => none
    | _ => none
  | _ => none

/-- The stores of block `b` into field `f` of record `s`, each given by the
instruction that computes the stored value. -/
def storesTo (s : Value) (f : Field) (b : BlockId) (l : List Inst) :
    List (Option Inst) :=
  l.filterMap fun i =>
    match i with
    | .store v p => if fieldOf b l p = some (s, f) then some (defOf b l v) else none
    | _ => none

/-- The stack-top publishes of a block: its stores into `lua_State::top`. -/
def topPublishes (cs : CompilerState) (b : BlockId) : List (Option Inst) :=
  storesTo cs.values_.state .lua_State_top b (cs.insts b)

/-- A call with a fixed argument count followed by a return of nothing. -/
def callTwo : Proto :=
  ⟨[CREATE_ABC OP_CALL 0 2 1, CREATE_ABC OP_RETURN 0 1 0], 0, 0⟩

/-- The argument lists of the calls of a block to the runtime function `f`. -/
def callsOf (f : RuntimeFn) (l : List Inst) : List (List Value) :=
  l.filterMap fun i =>
    match i with
    | .call g args => if g = f then some args else none
    | _ => none

/-- A `SELF` followed by a return of nothing. -/
def selfReturn : Proto :=
  ⟨[CREATE_ABC OP_SELF 0 1 2, CREATE_ABC OP_RETURN 0 1 0], 0, 0⟩

/-! ## The code of `RETURN` and `TAILCALL` -/

/-- The five instructions `SetTop(reg)` appends at position `k` of block
`p`. -/
def setTopCode (st : Values) (reg : Int) (p : BlockId) (k : Nat) : List Inst :=
  [.getValueR reg,
   .bitcast st.state,
   .gep (.inst p (k + 1)) (.offsetof .lua_State_top),
   .bitcast (.inst p (k + 2)),
   .store (.inst p k) (.inst p (k + 3))]

/-- The seven instructions `TopDiff(n)` appends at position `k` of block `p`;
the last one is its result. -/
def topDiffCode (st : Values) (n : Int) (p : BlockId) (k : Nat) : List Inst :=
  [.bitcast st.state,
   .gep (.inst p k) (.offsetof .lua_State_top),
   .bitcast (.inst p (k + 1)),
   .load (.inst p (k + 2)),
   .getValueR n,
   .ptrDiff (.inst p (k + 3)) (.inst p (k + 4)),
   .intCast (.inst p (k + 5)) sizeof_int false]

/-- The upvalue close of `RETURN` and `TAILCALL`, emitted after the address of
the frame base (instruction 0 of the block) when the function has nested
prototypes. -/
def closeCode (st : Values) (sizep : Nat) (p : BlockId) : List Inst :=
  if 0 < sizep then [.call .luaF_close [st.state, .inst p 0]] else []

/-- What `CompileReturn` appends from position `k` on, after the close. -/
def returnTail (st : Values) (a b : Nat) (p : BlockId) (k : Nat) : List Inst :=
  if b = 0 then topDiffCode st a p k ++ [.ret (.inst p (k + 6))]
  else if b = 1 then [.ret (.int 0)]
  else setTopCode st ((a : Int) + b - 1) p k ++ [.ret (.int ((b : Int) - 1))]

/-- What `CompileTailcall` appends from position `k` on, after the close. -/
def tailcallTail (st : Values) (a b : Nat) (p : BlockId) (k : Nat) : List Inst :=
  if b = 0 then
    topDiffCode st a p k ++ [.neg (.inst p (k + 6)), .ret (.inst p (k + 7))]
  else
    setTopCode st ((a : Int) + b) p k ++ topDiffCode st a p (k + 5) ++
      [.neg (.inst p (k + 11)), .ret (.inst p (k + 12))]

/-- The code of a `RETURN` in an empty block `p`. -/
def returnCode (st : Values) (sizep a b : Nat) (p : BlockId) : List Inst :=
  .getValueR 0 :: (closeCode st sizep p ++
    returnTail st a b p (1 + (closeCode st sizep p).length))

/-- The code of a `TAILCALL` in an empty block `p`. -/
def tailcallCode (st : Values) (sizep a b : Nat) (p : BlockId) : List Inst :=
  .getValueR 0 :: (closeCode st sizep p ++
    tailcallTail st a b p (1 + (closeCode st sizep p).length))

/-! ## Observations on an execution -/

/-- The machine in which a function returned. -/
def Control.final : Control → Option Machine
  | .returned _ m => some m
  | _ => none

/-- The memory `RETURN` and `TAILCALL` read the published top from: the one
the upvalue close leaves when the function has nested prototypes, the one at
the entry of the block otherwise. -/
def closedMem (W : World) (sizep : Nat) (m : Machine) : RVal → RVal :=
  if 0 < sizep then (W.call .luaF_close [.state, .reg 0] m.mem).2 else m.mem

/-- The address of `lua_State::top`. -/
def topField : RVal := .field .state .lua_State_top

/-- A tail call of `R(1)` with two arguments followed by a return. -/
def tailcallThree : Proto :=
  ⟨[CREATE_ABC OP_TAILCALL 1 3 0, CREATE_ABC OP_RETURN 0 1 0], 0, 0⟩

/-- A runtime whose functions return zero and leave the memory as it is. -/
def World.quiet : World := ⟨fun _ _ mem => (.int 32 0, mem), fun _ _ => 0⟩

/-- A machine in which nothing is defined. -/
def Machine.blank : Machine := ⟨fun _ => .undef, fun _ => .undef, []⟩

/-- The block control enters next. -/
def Control.next : Control → Option BlockId
  | .enter _ cur _ => some cur
  | _ => none

/-- A boolean load that skips, one that does not, and a return. -/
def loadboolBoth : Proto :=
  ⟨[CREATE_ABC OP_LOADBOOL 0 1 1, CREATE_ABC OP_LOADBOOL 0 0 0,
    CREATE_ABC OP_RETURN 0 1 0], 0, 0⟩

/-- An equality test, the jump that follows it, and a return. -/
def eqJump : Proto :=
  ⟨[CREATE_ABC OP_EQ 1 0 1, CREATE_AsBx OP_JMP 0 0, CREATE_ABC OP_RETURN 0 1 0], 0, 0⟩

/-- A `VARARG` that asks for five values, in a function of one fixed
parameter, and a return. -/
def varargFive : Proto :=
  ⟨[CREATE_ABC OP_VARARG 2 6 0, CREATE_ABC OP_RETURN 0 1 0], 0, 1⟩

/-- A `VARARG` that asks for every value (`B = 0`), in a function of one fixed
parameter, and a return. -/
def varargOpen : Proto :=
  ⟨[CREATE_ABC OP_VARARG 2 0 0, CREATE_ABC OP_RETURN 0 1 0], 0, 1⟩

/-! ## The code of the stack reloads -/

/-- The five instructions `UpdateStack` appends at position `k` of block
`p`: the load of `ci->u.l.base` and its store into the slot `values_.base`. -/
def updateStackCode (st : Values) (p : BlockId) (k : Nat) : List Inst :=
  [.bitcast st.ci,
   .gep (.inst p k) (.offsetof .CallInfo_base),
   .bitcast (.inst p (k + 1)),
   .load (.inst p (k + 2)),
   .store (.inst p (k + 3)) st.base]

/-- The eight instructions `ReloadTop` appends at position `k` of block `p`:
the load of `ci->top` and its store into `lua_State::top`. -/
def reloadTopCode (st : Values) (p : BlockId) (k : Nat) : List Inst :=
  [.bitcast st.ci,
   .gep (.inst p k) (.offsetof .CallInfo_top),
   .bitcast (.inst p (k + 1)),
   .load (.inst p (k + 2)),
   .bitcast st.state,
   .gep (.inst p (k + 4)) (.offsetof .lua_State_top),
   .bitcast (.inst p (k + 5)),
   .store (.inst p (k + 3)) (.inst p (k + 6))]

/-! ## The driver, iteration by iteration -/

/-- The first `k` iterations of the loop of `CompileInstructions`, from the
current `curr_`. -/
def stepsFrom (T : Translators) : Nat → Build Unit
  | 0 => pure ()
  | k + 1 => do
    compileOne T
    modify fun cs => cs.withCurr (cs.curr_ + 1)
    stepsFrom T k

/-- The state of the translation of a `Proto` when the loop of
`CompileInstructions` has run `k` times. -/
def translatePrefix (T : Translators) (proto : Proto) (k : Nat) :
    Option CompilerState :=
  match CompilerState.create proto with
  | none => none
  | some cs => (stepsFrom T k (cs.withCurr 0)).map (fun r => r.2)

/-! ## The stages of `Compile` -/

/-- Modelled from the spec: the object `Engine` that wraps the execution engine
the backend made (`lllengine.h` is not among the sources). -/
structure Engine where
  /-- The `llvm::ExecutionEngine` the object owns. -/
  engine : Nat
  deriving DecidableEq, Repr

/-- The answers of the LLVM services `Compile` calls. -/
structure Backend where
  /-- The service `llvm::verifyModule`: whether the module is broken, and the
  text it writes to the error stream. -/
  verifyModule : CompilerState → Bool × String
  /-- The pass `createPromoteMemoryToRegisterPass`, run on the function. -/
  promote : CompilerState → CompilerState
  /-- The call `EngineBuilder::create`: an execution engine, or the error
  string it sets when it returns null. -/
  create : CompilerState → Except String Nat

/-- The members of `Compiler` and what it did to the world outside. -/
structure Compiler where
  cs_ : CompilerState
  /-- Whether `cs_.module_` still owns the module. -/
  moduleHeld : Bool
  error_ : String
  engine_ : Option Engine
  /-- Whether the module was dumped to the error output. -/
  dumped : Bool

/-- The constructor of `Compiler`: no engine yet. -/
def Compiler.new (proto : Proto) : Option Compiler :=
  (CompilerState.create proto).map fun cs => ⟨cs, true, "", none, false⟩

/-- The stage `CompileInstructions`, as a method of `Compiler`. -/
def Compiler.CompileInstructions (T : Translators) (c : Compiler) :
    Option (Bool × Compiler) :=
  (LLL.CompileInstructions T c.cs_).map fun r => (r.1, { c with cs_ := r.2 })

/-- The stage `VerifyModule`: the verifier's text goes to `error_`, a broken
module is dumped, and the result is whether the module is sound. -/
def Compiler.VerifyModule (B : Backend) (c : Compiler) : Bool × Compiler :=
  let err := (B.verifyModule c.cs_).1
  let c1 := { c with error_ := c.error_ ++ (B.verifyModule c.cs_).2 }
  (!err, if err then { c1 with dumped := true } else c1)

/-- The stage `OptimizeModule`: it runs the pass and always succeeds. -/
def Compiler.OptimizeModule (B : Backend) (c : Compiler) : Bool × Compiler :=
  (true, { c with cs_ := B.promote c.cs_ })

/-- The stage `CreateEngine`: the module is released to the engine builder;
an engine is installed when the builder makes one. -/
def Compiler.CreateEngine (B : Backend) (c : Compiler) : Bool × Compiler :=
  match B.create c.cs_ with
  | .ok engine => (true, { c with moduleHeld := false, engine_ := some ⟨engine⟩ })
  | .error msg => (false, { c with moduleHeld := false, error_ := msg })

/-- The method `Compiler::Compile`: the four stages joined by `&&`. -/
def Compiler.Compile (T : Translators) (B : Backend) (c : Compiler) :
    Option (Bool × Compiler) :=
  match c.CompileInstructions T with
  | none => none
  | some (false, c1) => some (false, c1)
  | some (true, c1) =>
    match c1.VerifyModule B with
    | (false, c2) => some (false, c2)
    | (true, c2) =>
      match c2.OptimizeModule B with
      | (false, c3) => some (false, c3)
      | (true, c3) => some (c3.CreateEngine B)

/-- The method `Compiler::GetEngine`: `engine_.release()`. -/
def Compiler.GetEngine (c : Compiler) : Option Engine × Compiler :=
  (c.engine_, { c with engine_ := none })

/-- The method `Compiler::GetErrorMessage`. -/
def Compiler.GetErrorMessage (c : Compiler) : String := c.error_

/-- A backend that accepts every module and makes an engine. -/
def Backend.accepting : Backend := ⟨fun _ => (false, ""), fun cs => cs, fun _ => .ok 0⟩

/-- A backend whose verifier rejects every module. -/
def Backend.rejecting : Backend :=
  ⟨fun _ => (true, "broken module"), fun cs => cs, fun _ => .ok 0⟩

/-! ## What a `VARARG` does when it runs -/

namespace Vararg

/-- The distance `ComputeAvailableArgs` reads, in tagged values: from the
function record `ci->func` to the value of `values_.base`, which is the
address of the slot that holds the stack base. -/
def vadiff (W : World) (m : Machine) : Int :=
  ptrDistance W (m.env (.entry, 6)) (m.mem (.field (m.env (.entry, 3)) .CallInfo_func))

/-- The count of extra arguments: the distance less the fixed parameters and
the function itself, and zero when that is negative. -/
def availableCount (W : World) (numparams : Nat) (m : Machine) : Nat :=
  (max 0 (vadiff W m - (numparams + 1))).toNat

/-- The count of values asked for: every extra argument when `B` is 0,
`B - 1` otherwise. -/
def requiredCount (b available : Nat) : Nat := if b = 0 then available else b - 1

/-- The register copies of the move loop, in order: for `i` from `from_` on,
`count` of them, the value at `base[i - available]` goes to `R(A+i)`, the
element `a + i` after `base`. -/
def copies (base : RVal) (a available from_ count : Nat) : List Event :=
  (List.range count).map fun k =>
    .setRegister (.elem base ((a : Int) + ((from_ + k : Nat) : Int)))
      (.elem base (((from_ + k : Nat) : Int) - available))

/-- The nil stores of the fill loop, in order: for `j` from `from_` on,
`count` of them, the tag of `R(A+j)` is set to `LUA_TNIL`. -/
def fills (base : RVal) (a from_ count : Nat) : List Event :=
  (List.range count).map fun k =>
    .store (.int 32 0) (.field (.elem base ((a : Int) + ((from_ + k : Nat) : Int))) .TValue_tt)

/-- What an open `VARARG` (`B = 0`) does before its loops: the stack check, the
reload of the base into its slot and the store of the new top. -/
def opening (W : World) (a b available : Nat) (m : Machine) : List Event :=
  if b = 0 then
    [.call .lll_checkstack [.state, .int 32 available],
     .store ((W.call .lll_checkstack [.state, .int 32 available] m.mem).2
        (.field (m.env (.entry, 3)) .CallInfo_base)) (m.env (.entry, 6)),
     .store (.elem (m.env (.entry, 6)) ((a : Int) + available)) (.field .state .lua_State_top)]
  else []

end Vararg

/-- The register an event writes: the destination of a register copy, or the
register whose tag a store sets. -/
def Event.written : Event → Option RVal
  | .setRegister dst _ => some dst
  | .store _ (.field r .TValue_tt) => some r
  | _ => none

/-- The test that stops an execution at the block of an offset. -/
def stopAt (c : Nat) (b : BlockId) : Bool := b == .primary c

/-- Every outcome of the execution that enters `cur'` from `pred'` with
machine `m'` is an outcome of the one that enters `cur` from `pred` with
machine `m`: the first reaches the second. -/
def Leads (W : World) (F : BlockId → List Inst) (stop : BlockId → Bool)
    (pred cur : BlockId) (m : Machine) (pred' cur' : BlockId) (m' : Machine) : Prop :=
  ∀ (R : Control) (f : Nat), run W F stop f pred' cur' m' = some R →
    ∃ f', run W F stop f' pred cur m = some R

/-- Execution of a run of instructions none of which is a phi or a
terminator, from position `k` of block `cur`. -/
def execList (W : World) (cur : BlockId) : List Inst → Nat → Machine → Machine
  | [], _, m => m
  | i :: rest, k, m => execList W cur rest (k + 1) (execInst W (cur, k) m i)

/-- An instruction that is neither a phi nor a terminator. -/
def Inst.isPlain : Inst → Bool
  | .phi _ => false
  | i => !i.isTerminator

/-- A runtime in which every pointer difference of unrelated origin is `d`,
whose functions return zero and leave the memory as it is. -/
def World.distance (d : Int) : World := ⟨fun _ _ mem => (.int 32 0, mem), fun _ _ => d⟩

/-- A `VARARG` that asks for two values, in a function of one fixed
parameter, and a return. -/
def varargTwo : Proto :=
  ⟨[CREATE_ABC OP_VARARG 2 3 0, CREATE_ABC OP_RETURN 0 1 0], 0, 1⟩

/-! ## A call frame for running a function from its entry -/

/-- The machine control enters a block with. -/
def Control.entered : Control → Option Machine
  | .enter _ _ m => some m
  | _ => none

/-- The address of the call record of the running function. -/
def callRecord : RVal := .elem .state 1

/-- The memory at the call of a Lua function whose registers start at `R(0)`
and whose function value lies `-func` tagged values below them:
`L->ci` is the call record, `ci->base` is `R(0)` and `ci->func` is
`R(func)`. -/
def frameMem (func : Int) : RVal → RVal := fun p =>
  if p = .field .state .lua_State_ci then callRecord
  else if p = .field callRecord .CallInfo_base then .reg 0
  else if p = .field callRecord .CallInfo_func then .reg func
  else RVal.undef

/-- The machine at the call of a function: nothing computed yet, the memory
that of `frameMem`. -/
def Machine.atCall (func : Int) : Machine := ⟨fun _ => .undef, frameMem func, []⟩

/-- A `VARARG` that asks for three values, in a function of no fixed
parameter, followed by a return. -/
def varargFour : Proto :=
  ⟨[CREATE_ABC OP_VARARG 2 4 0, CREATE_ABC OP_RETURN 0 1 0], 0, 0⟩

/-- What a run of a prototype from the entry of its function shows when
control reaches the block of offset `c`: the value of `values_.base`, the
content of that address, the content of `lua_State::top`, the value of
`available` in the block of offset 0, and the trace. -/
def observed (W : World) (p : Proto) (func : Int) (c : Nat) :
    Option (RVal × RVal × RVal × RVal × List Event) :=
  (translate Translators.silent p).bind fun cs =>
    ((run W cs.insts (stopAt c) 40 .entry .entry (Machine.atCall func)).bind
      Control.entered).map fun m =>
      (evalValue m cs.values_.base, m.mem (evalValue m cs.values_.base), m.mem topField,
        evalValue m (Vararg.available (.primary 0)), m.trace)

/-- The program `LOADK r0, k0; RETURN r0, 2`. -/
def loadkReturn : Proto :=
  ⟨[CREATE_ABx OP_LOADK 0 0, CREATE_ABC OP_RETURN 0 2 0], 0, 0⟩

/-- A definitional equation, stated so that rewriting with it leaves an explicit
proof step. -/
theorem byUnfold {α : Sort u} {a b : α} (h : a = b) : a = b := h

@[simp] theorem append_proto_ (cs : CompilerState) (b : BlockId) (l : List Inst) :
    (cs.append b l).proto_ = cs.proto_ := byUnfold rfl

@[simp] theorem append_values_ (cs : CompilerState) (b : BlockId) (l : List Inst) :
    (cs.append b l).values_ = cs.values_ := byUnfold rfl

@[simp] theorem append_layout (cs : CompilerState) (b : BlockId) (l : List Inst) :
    (cs.append b l).layout = cs.layout := byUnfold rfl

@[simp] theorem append_insts (cs : CompilerState) (b : BlockId) (l : List Inst) :
    (cs.append b l).insts = Function.update cs.insts b (cs.insts b ++ l) := byUnfold rfl

@[simp] theorem append_label (cs : CompilerState) (b : BlockId) (l : List Inst) :
    (cs.append b l).label = cs.label := byUnfold rfl

@[simp] theorem append_blocks_ (cs : CompilerState) (b : BlockId) (l : List Inst) :
    (cs.append b l).blocks_ = cs.blocks_ := byUnfold rfl

@[simp] theorem append_insertPoint (cs : CompilerState) (b : BlockId) (l : List Inst) :
    (cs.append b l).insertPoint = cs.insertPoint := byUnfold rfl

@[simp] theorem append_curr_ (cs : CompilerState) (b : BlockId) (l : List Inst) :
    (cs.append b l).curr_ = cs.curr_ := byUnfold rfl

@[simp] theorem append_instr_ (cs : CompilerState) (b : BlockId) (l : List Inst) :
    (cs.append b l).instr_ = cs.instr_ := byUnfold rfl

@[simp] theorem withPoint_proto_ (cs : CompilerState) (b : BlockId) :
    (cs.withPoint b).proto_ = cs.proto_ := byUnfold rfl

@[simp] theorem withPoint_values_ (cs : CompilerState) (b : BlockId) :
    (cs.withPoint b).values_ = cs.values_ := byUnfold rfl

@[simp] theorem withPoint_layout (cs : CompilerState) (b : BlockId) :
    (cs.withPoint b).layout = cs.layout := byUnfold rfl

@[simp] theorem withPoint_insts (cs : CompilerState) (b : BlockId) :
    (cs.withPoint b).insts = cs.insts := byUnfold rfl

@[simp] theorem withPoint_label (cs : CompilerState) (b : BlockId) :
    (cs.withPoint b).label = cs.label := byUnfold rfl

@[simp] theorem withPoint_blocks_ (cs : CompilerState) (b : BlockId) :
    (cs.withPoint b).blocks_ = cs.blocks_ := byUnfold rfl

@[simp] theorem withPoint_insertPoint (cs : CompilerState) (b : BlockId) :
    (cs.withPoint b).insertPoint = b := byUnfold rfl

@[simp] theorem withPoint_curr_ (cs : CompilerState) (b : BlockId) :
    (cs.withPoint b).curr_ = cs.curr_ := byUnfold rfl

@[simp] theorem withPoint_instr_ (cs : CompilerState) (b : BlockId) :
    (cs.withPoint b).instr_ = cs.instr_ := byUnfold rfl

@[simp] theorem withIncoming_proto_ (cs : CompilerState) (b : BlockId) (k : Nat) (v : Value) (f : BlockId) :
    (cs.withIncoming b k v f).proto_ = cs.proto_ := byUnfold rfl

@[simp] theorem withIncoming_values_ (cs : CompilerState) (b : BlockId) (k : Nat) (v : Value) (f : BlockId) :
    (cs.withIncoming b k v f).values_ = cs.values_ := byUnfold rfl

@[simp] theorem withIncoming_layout (cs : CompilerState) (b : BlockId) (k : Nat) (v : Value) (f : BlockId) :
    (cs.withIncoming b k v f).layout = cs.layout := byUnfold rfl

@[simp] theorem withIncoming_insts (cs : CompilerState) (b : BlockId) (k : Nat) (v : Value) (f : BlockId) :
    (cs.withIncoming b k v f).insts = Function.update cs.insts b ((cs.insts b).modify (phiAdd v f) k) := byUnfold rfl

@[simp] theorem withIncoming_label (cs : CompilerState) (b : BlockId) (k : Nat) (v : Value) (f : BlockId) :
    (cs.withIncoming b k v f).label = cs.label := byUnfold rfl

@[simp] theorem withIncoming_blocks_ (cs : CompilerState) (b : BlockId) (k : Nat) (v : Value) (f : BlockId) :
    (cs.withIncoming b k v f).blocks_ = cs.blocks_ := byUnfold rfl

@[simp] theorem withIncoming_insertPoint (cs : CompilerState) (b : BlockId) (k : Nat) (v : Value) (f : BlockId) :
    (cs.withIncoming b k v f).insertPoint = cs.insertPoint := byUnfold rfl

@[simp] theorem withIncoming_curr_ (cs : CompilerState) (b : BlockId) (k : Nat) (v : Value) (f : BlockId) :
    (cs.withIncoming b k v f).curr_ = cs.curr_ := byUnfold rfl

@[simp] theorem withIncoming_instr_ (cs : CompilerState) (b : BlockId) (k : Nat) (v : Value) (f : BlockId) :
    (cs.withIncoming b k v f).instr_ = cs.instr_ := byUnfold rfl

@[simp] theorem withBlock_proto_ (cs : CompilerState) (anchor block : BlockId) (name : String) :
    (cs.withBlock anchor block name).proto_ = cs.proto_ := byUnfold rfl

@[simp] theorem withBlock_values_ (cs : CompilerState) (anchor block : BlockId) (name : String) :
    (cs.withBlock anchor block name).values_ = cs.values_ := byUnfold rfl

@[simp] theorem withBlock_layout (cs : CompilerState) (anchor block : BlockId) (name : String) :
    (cs.withBlock anchor block name).layout = insertAfter anchor block cs.layout := byUnfold rfl

@[simp] theorem withBlock_insts (cs : CompilerState) (anchor block : BlockId) (name : String) :
    (cs.withBlock anchor block name).insts = cs.insts := byUnfold rfl

@[simp] theorem withBlock_label (cs : CompilerState) (anchor block : BlockId) (name : String) :
    (cs.withBlock anchor block name).label = Function.update cs.label block name := byUnfold rfl

@[simp] theorem withBlock_blocks_ (cs : CompilerState) (anchor block : BlockId) (name : String) :
    (cs.withBlock anchor block name).blocks_ = cs.blocks_ := byUnfold rfl

@[simp] theorem withBlock_insertPoint (cs : CompilerState) (anchor block : BlockId) (name : String) :
    (cs.withBlock anchor block name).insertPoint = cs.insertPoint := byUnfold rfl

@[simp] theorem withBlock_curr_ (cs : CompilerState) (anchor block : BlockId) (name : String) :
    (cs.withBlock anchor block name).curr_ = cs.curr_ := byUnfold rfl

@[simp] theorem withBlock_instr_ (cs : CompilerState) (anchor block : BlockId) (name : String) :
    (cs.withBlock anchor block name).instr_ = cs.instr_ := byUnfold rfl

@[simp] theorem withInstr_proto_ (cs : CompilerState) (i : Instruction) :
    (cs.withInstr i).proto_ = cs.proto_ := byUnfold rfl

@[simp] theorem withInstr_values_ (cs : CompilerState) (i : Instruction) :
    (cs.withInstr i).values_ = cs.values_ := byUnfold rfl

@[simp] theorem withInstr_layout (cs : CompilerState) (i : Instruction) :
    (cs.withInstr i).layout = cs.layout := byUnfold rfl

@[simp] theorem withInstr_insts (cs : CompilerState) (i : Instruction) :
    (cs.withInstr i).insts = cs.insts := byUnfold rfl

@[simp] theorem withInstr_label (cs : CompilerState) (i : Instruction) :
    (cs.withInstr i).label = cs.label := byUnfold rfl

@[simp] theorem withInstr_blocks_ (cs : CompilerState) (i : Instruction) :
    (cs.withInstr i).blocks_ = cs.blocks_ := byUnfold rfl

@[simp] theorem withInstr_insertPoint (cs : CompilerState) (i : Instruction) :
    (cs.withInstr i).insertPoint = cs.insertPoint := byUnfold rfl

@[simp] theorem withInstr_curr_ (cs : CompilerState) (i : Instruction) :
    (cs.withInstr i).curr_ = cs.curr_ := byUnfold rfl

@[simp] theorem withInstr_instr_ (cs : CompilerState) (i : Instruction) :
    (cs.withInstr i).instr_ = i := byUnfold rfl

@[simp] theorem withCurr_proto_ (cs : CompilerState) (k : Nat) :
    (cs.withCurr k).proto_ = cs.proto_ := byUnfold rfl

@[simp] theorem withCurr_values_ (cs : CompilerState) (k : Nat) :
    (cs.withCurr k).values_ = cs.values_ := byUnfold rfl

@[simp] theorem withCurr_layout (cs : CompilerState) (k : Nat) :
    (cs.withCurr k).layout = cs.layout := byUnfold rfl

@[simp] theorem withCurr_insts (cs : CompilerState) (k : Nat) :
    (cs.withCurr k).insts = cs.insts := byUnfold rfl

@[simp] theorem withCurr_label (cs : CompilerState) (k : Nat) :
    (cs.withCurr k).label = cs.label := byUnfold rfl

@[simp] theorem withCurr_blocks_ (cs : CompilerState) (k : Nat) :
    (cs.withCurr k).blocks_ = cs.blocks_ := byUnfold rfl

@[simp] theorem withCurr_insertPoint (cs : CompilerState) (k : Nat) :
    (cs.withCurr k).insertPoint = cs.insertPoint := byUnfold rfl

@[simp] theorem withCurr_curr_ (cs : CompilerState) (k : Nat) :
    (cs.withCurr k).curr_ = k := byUnfold rfl

@[simp] theorem withCurr_instr_ (cs : CompilerState) (k : Nat) :
    (cs.withCurr k).instr_ = cs.instr_ := byUnfold rfl

@[simp] theorem pushBlock_proto_ (cs : CompilerState) (b : BlockId) (name : String) :
    (cs.pushBlock b name).proto_ = cs.proto_ := byUnfold rfl

@[simp] theorem pushBlock_values_ (cs : CompilerState) (b : BlockId) (name : String) :
    (cs.pushBlock b name).values_ = cs.values_ := byUnfold rfl

@[simp] theorem pushBlock_layout (cs : CompilerState) (b : BlockId) (name : String) :
    (cs.pushBlock b name).layout = cs.layout ++ [b] := byUnfold rfl

@[simp] theorem pushBlock_insts (cs : CompilerState) (b : BlockId) (name : String) :
    (cs.pushBlock b name).insts = cs.insts := byUnfold rfl

@[simp] theorem pushBlock_label (cs : CompilerState) (b : BlockId) (name : String) :
    (cs.pushBlock b name).label = Function.update cs.label b name := byUnfold rfl

@[simp] theorem pushBlock_blocks_ (cs : CompilerState) (b : BlockId) (name : String) :
    (cs.pushBlock b name).blocks_ = cs.blocks_ := byUnfold rfl

@[simp] theorem pushBlock_insertPoint (cs : CompilerState) (b : BlockId) (name : String) :
    (cs.pushBlock b name).insertPoint = cs.insertPoint := byUnfold rfl

@[simp] theorem pushBlock_curr_ (cs : CompilerState) (b : BlockId) (name : String) :
    (cs.pushBlock b name).curr_ = cs.curr_ := byUnfold rfl

@[simp] theorem pushBlock_instr_ (cs : CompilerState) (b : BlockId) (name : String) :
    (cs.pushBlock b name).instr_ = cs.instr_ := byUnfold rfl

@[simp] theorem pushSlot_proto_ (cs : CompilerState) (b : BlockId) :
    (cs.pushSlot b).proto_ = cs.proto_ := byUnfold rfl

@[simp] theorem pushSlot_values_ (cs : CompilerState) (b : BlockId) :
    (cs.pushSlot b).values_ = cs.values_ := byUnfold rfl

@[simp] theorem pushSlot_layout (cs : CompilerState) (b : BlockId) :
    (cs.pushSlot b).layout = cs.layout := byUnfold rfl

@[simp] theorem pushSlot_insts (cs : CompilerState) (b : BlockId) :
    (cs.pushSlot b).insts = cs.insts := byUnfold rfl

@[simp] theorem pushSlot_label (cs : CompilerState) (b : BlockId) :
    (cs.pushSlot b).label = cs.label := byUnfold rfl

@[simp] theorem pushSlot_blocks_ (cs : CompilerState) (b : BlockId) :
    (cs.pushSlot b).blocks_ = cs.blocks_ ++ [b] := byUnfold rfl

@[simp] theorem pushSlot_insertPoint (cs : CompilerState) (b : BlockId) :
    (cs.pushSlot b).insertPoint = cs.insertPoint := byUnfold rfl

@[simp] theorem pushSlot_curr_ (cs : CompilerState) (b : BlockId) :
    (cs.pushSlot b).curr_ = cs.curr_ := byUnfold rfl

@[simp] theorem pushSlot_instr_ (cs : CompilerState) (b : BlockId) :
    (cs.pushSlot b).instr_ = cs.instr_ := byUnfold rfl

@[simp] theorem withValues_proto_ (cs : CompilerState) (v : Values) :
    (cs.withValues v).proto_ = cs.proto_ := byUnfold rfl

@[simp] theorem withValues_values_ (cs : CompilerState) (v : Values) :
    (cs.withValues v).values_ = v := byUnfold rfl

@[simp] theorem withValues_layout (cs : CompilerState) (v : Values) :
    (cs.withValues v).layout = cs.layout := byUnfold rfl

@[simp] theorem withValues_insts (cs : CompilerState) (v : Values) :
    (cs.withValues v).insts = cs.insts := byUnfold rfl

@[simp] theorem withValues_label (cs : CompilerState) (v : Values) :
    (cs.withValues v).label = cs.label := byUnfold rfl

@[simp] theorem withValues_blocks_ (cs : CompilerState) (v : Values) :
    (cs.withValues v).blocks_ = cs.blocks_ := byUnfold rfl

@[simp] theorem withValues_insertPoint (cs : CompilerState) (v : Values) :
    (cs.withValues v).insertPoint = cs.insertPoint := byUnfold rfl

@[simp] theorem withValues_curr_ (cs : CompilerState) (v : Values) :
    (cs.withValues v).curr_ = cs.curr_ := byUnfold rfl

@[simp] theorem withValues_instr_ (cs : CompilerState) (v : Values) :
    (cs.withValues v).instr_ = cs.instr_ := byUnfold rfl

theorem bind_eq {α β : Type} (m : Build α) (f : α → Build β) (cs : CompilerState) :
    (m >>= f) cs = match m cs with
      | none => none
      | some (a, cs') => f a cs' := byUnfold rfl

theorem pure_eq {α : Type} (a : α) (cs : CompilerState) :
    (pure a : Build α) cs = some (a, cs) := byUnfold rfl

theorem get_apply (cs : CompilerState) : get cs = some (cs, cs) := byUnfold rfl

theorem modify_apply (f : CompilerState → CompilerState) (cs : CompilerState) :
    modify f cs = some ((), f cs) := byUnfold rfl

theorem emit_apply (i : Inst) (cs : CompilerState) :
    emit i cs = some (.inst cs.insertPoint (cs.insts cs.insertPoint).length,
      cs.append cs.insertPoint [i]) := byUnfold rfl

theorem SetInsertPoint_apply (b : BlockId) (cs : CompilerState) :
    SetInsertPoint b cs = some ((), cs.withPoint b) := byUnfold rfl

theorem append_append (cs : CompilerState) (b : BlockId) (l₁ l₂ : List Inst) :
    (cs.append b l₁).append b l₂ = cs.append b (l₁ ++ l₂) := by
  simp [CompilerState.append]

theorem blockAt_table (n t : Nat) (ht : t < n) (cs : CompilerState) (k : Int)
    (hb : cs.blocks_ = blockTable n) (hk : k = t) :
    blockAt k cs = some (.primary t, cs) := by
  subst hk
  simp [blockAt, hb, ht, blockTable]

theorem blockAt_none (cs : CompilerState) (n : Nat)
    (hb : cs.blocks_ = blockTable n) (k : Int)
    (hk : k < 0 ∨ (n : Int) ≤ k) : blockAt k cs = none := by
  unfold blockAt
  split
  · have : n ≤ k.toNat := by omega
    simp [hb, blockTable, this]
  · rfl

theorem mem_blockTable (b : BlockId) (n : Nat) :
    b ∈ blockTable n ↔ ∃ i, i < n ∧ b = .primary i := by
  simp [blockTable, eq_comm]

theorem terminators_append (l₁ l₂ : List Inst) :
    terminators (l₁ ++ l₂) = terminators l₁ ++ terminators l₂ := by
  simp [terminators]

theorem successors_append (l₁ l₂ : List Inst) :
    successors (l₁ ++ l₂) = successors l₁ ++ successors l₂ := by
  induction l₁ with
  | nil => rfl
  | cons a l ih => simp [successors, ih]

theorem targets_of_not_terminator (a : Inst) (h : a.isTerminator = false) :
    a.targets = [] := by
  cases a <;> first | rfl | (simp [Inst.isTerminator] at h)

theorem successors_of_open (l : List Inst) (h : terminators l = []) :
    successors l = [] := by
  induction l with
  | nil => rfl
  | cons a l ih =>
    simp only [terminators, List.filter_cons] at h
    split at h
    · exact absurd h (by simp)
    · rename_i ha
      simp only [Bool.not_eq_true] at ha
      simp [successors, targets_of_not_terminator a ha, ih h]

theorem getTerminator_append_wellTerminated (l₁ l₂ : List Inst)
    (h : wellTerminated l₂ = true) : getTerminator (l₁ ++ l₂) = getTerminator l₂ := by
  cases l₂ with
  | nil => simp [wellTerminated, terminators] at h
  | cons a l =>
    have : (a :: l).getLast? = some ((a :: l).getLast (by simp)) :=
      List.getLast?_eq_getLast _ _
    simp [getTerminator, List.getLast?_append, this]

theorem wellTerminated_append (l₁ l₂ : List Inst) (h₁ : terminators l₁ = [])
    (h₂ : wellTerminated l₂ = true) : wellTerminated (l₁ ++ l₂) = true := by
  have h := getTerminator_append_wellTerminated l₁ l₂ h₂
  simp only [wellTerminated, terminators_append, h₁, List.nil_append, h] at h₂ ⊢
  exact h₂

theorem getTerminator_of_open (l : List Inst) (h : terminators l = []) :
    getTerminator l = none := by
  unfold getTerminator
  split
  · rename_i t ht
    have hm : t ∈ l := List.mem_of_getLast?_eq_some ht
    split
    · rename_i hterm
      have : t ∈ terminators l := by simp [terminators, hm, hterm]
      simp [h] at this
    · rfl
  · rfl

theorem translated_append (cs : CompilerState) (n : Nat) (h : Ready cs n)
    (l : List Inst) (hl : wellTerminated l = true ∨ terminators l = [])
    (ht : ∀ s ∈ successors l, s ∈ blockTable n) :
    Translated cs (cs.append (.primary cs.curr_) l) n := by
  obtain ⟨h1, h2, h3, h4, h5, h6, h7⟩ := h
  refine ⟨rfl, rfl, rfl, fun b hb => hb, fun b hb => Or.inl hb, ?_, ?_, ?_, ?_, ?_⟩
  · intro b hb
    have : b ≠ .primary cs.curr_ := by
      rintro rfl; simp [ownedBy] at hb
    simp [CompilerState.append, Function.update_apply, this]
  · intro j hj
    exact absurd hj (h5 j)
  · intro j _
    simp [CompilerState.append, Function.update_apply, h6]
  · rcases hl with hl | hl
    · left
      simpa [CompilerState.append] using wellTerminated_append _ _ h4 hl
    · right
      simp [CompilerState.append, terminators_append, h4, hl, h3]
  · intro b hb s hs
    cases b with
    | entry => simp [ownedBy] at hb
    | primary k =>
      have hk : k = cs.curr_ := by simpa [ownedBy] using hb
      subst hk
      simp [CompilerState.append, successors_append, successors_of_open _ h4] at hs
      exact Or.inl (ht s hs)
    | sub k j =>
      have hk : k = cs.curr_ := by simpa [ownedBy] using hb
      subst hk
      simp [CompilerState.append, Function.update_apply, h6, successors] at hs

theorem translated_append_open (cs : CompilerState) (n : Nat) (h : Ready cs n)
    (l : List Inst) (hl : terminators l = []) :
    Translated cs (cs.append (.primary cs.curr_) l) n ∧
      Falls cs (cs.append (.primary cs.curr_) l) := by
  refine ⟨translated_append cs n h l (Or.inr hl) ?_, Or.inl ?_⟩
  · simp [successors_of_open l hl]
  · simp [CompilerState.append, terminators_append, h.open_, hl]

theorem translated_append_falls (cs : CompilerState) (n : Nat) (h : Ready cs n)
    (l : List Inst) (hl : wellTerminated l = true)
    (ht : ∀ s ∈ successors l, s ∈ blockTable n)
    (hn : BlockId.primary (cs.curr_ + 1) ∈ successors l) :
    Translated cs (cs.append (.primary cs.curr_) l) n ∧
      Falls cs (cs.append (.primary cs.curr_) l) := by
  refine ⟨translated_append cs n h l (Or.inl hl) ht, Or.inr ⟨.primary cs.curr_, ?_, h.present, ?_⟩⟩
  · simp [ownedBy]
  · simp [CompilerState.append, successors_append, hn]

/-! ## What the helpers of the compilation state emit -/

theorem CreateBr_apply (dest : BlockId) (cs : CompilerState) :
    CreateBr dest cs = some ((), cs.append cs.insertPoint [.br dest]) := byUnfold rfl

theorem CreateCondBr_apply (c : Value) (t f : BlockId) (cs : CompilerState) :
    CreateCondBr c t f cs =
      some ((), cs.append cs.insertPoint [.condBr c t f]) := byUnfold rfl

theorem CreateRet_apply (v : Value) (cs : CompilerState) :
    CreateRet v cs = some ((), cs.append cs.insertPoint [.ret v]) := byUnfold rfl

theorem CreateCall_apply (f : RuntimeFn) (args : List Value) (cs : CompilerState) :
    CreateCall f args cs =
      some (.inst cs.insertPoint (cs.insts cs.insertPoint).length,
        cs.append cs.insertPoint [.call f args]) := byUnfold rfl

theorem GetValueR_apply (reg : Int) (cs : CompilerState) :
    GetValueR reg cs =
      some (.inst cs.insertPoint (cs.insts cs.insertPoint).length,
        cs.append cs.insertPoint [.getValueR reg]) := byUnfold rfl

theorem SetRegister_apply (dst src : Value) (cs : CompilerState) :
    SetRegister dst src cs =
      some ((), cs.append cs.insertPoint [.setRegister dst src]) := byUnfold rfl

theorem ToBool_apply (v : Value) (cs : CompilerState) :
    ToBool v cs =
      some (.inst cs.insertPoint (cs.insts cs.insertPoint).length,
        cs.append cs.insertPoint [.icmpNE v (.int 0)]) := byUnfold rfl

theorem GetFieldPtr_apply (strukt : Value) (offset : Field) (cs : CompilerState) :
    GetFieldPtr strukt offset cs =
      some (.inst cs.insertPoint ((cs.insts cs.insertPoint).length + 2),
        cs.append cs.insertPoint
          [.bitcast strukt,
           .gep (.inst cs.insertPoint (cs.insts cs.insertPoint).length)
             (.offsetof offset),
           .bitcast (.inst cs.insertPoint
             ((cs.insts cs.insertPoint).length + 1))]) := by
  simp [GetFieldPtr, bind_eq, emit_apply, append_append]

theorem LoadField_apply (strukt : Value) (offset : Field) (cs : CompilerState) :
    LoadField strukt offset cs =
      some (.inst cs.insertPoint ((cs.insts cs.insertPoint).length + 3),
        cs.append cs.insertPoint
          [.bitcast strukt,
           .gep (.inst cs.insertPoint (cs.insts cs.insertPoint).length)
             (.offsetof offset),
           .bitcast (.inst cs.insertPoint
             ((cs.insts cs.insertPoint).length + 1)),
           .load (.inst cs.insertPoint
             ((cs.insts cs.insertPoint).length + 2))]) := by
  simp [LoadField, bind_eq, GetFieldPtr_apply, emit_apply, append_append]

theorem SetField_apply (strukt v : Value) (offset : Field) (cs : CompilerState) :
    SetField strukt v offset cs =
      some ((), cs.append cs.insertPoint
          [.bitcast strukt,
           .gep (.inst cs.insertPoint (cs.insts cs.insertPoint).length)
             (.offsetof offset),
           .bitcast (.inst cs.insertPoint
             ((cs.insts cs.insertPoint).length + 1)),
           .store v (.inst cs.insertPoint
             ((cs.insts cs.insertPoint).length + 2))]) := by
  simp [SetField, bind_eq, pure_eq, GetFieldPtr_apply, emit_apply, append_append]

theorem UpdateStack_apply (cs : CompilerState) :
    UpdateStack cs =
      some ((), cs.append cs.insertPoint
          [.bitcast cs.values_.ci,
           .gep (.inst cs.insertPoint (cs.insts cs.insertPoint).length)
             (.offsetof .CallInfo_base),
           .bitcast (.inst cs.insertPoint
             ((cs.insts cs.insertPoint).length + 1)),
           .load (.inst cs.insertPoint
             ((cs.insts cs.insertPoint).length + 2)),
           .store (.inst cs.insertPoint
             ((cs.insts cs.insertPoint).length + 3)) cs.values_.base]) := by
  simp [UpdateStack, bind_eq, pure_eq, get_apply, LoadField_apply, emit_apply,
    append_append]

theorem ReloadTop_apply (cs : CompilerState) :
    ReloadTop cs =
      some ((), cs.append cs.insertPoint
          [.bitcast cs.values_.ci,
           .gep (.inst cs.insertPoint (cs.insts cs.insertPoint).length)
             (.offsetof .CallInfo_top),
           .bitcast (.inst cs.insertPoint
             ((cs.insts cs.insertPoint).length + 1)),
           .load (.inst cs.insertPoint
             ((cs.insts cs.insertPoint).length + 2)),
           .bitcast cs.values_.state,
           .gep (.inst cs.insertPoint
             ((cs.insts cs.insertPoint).length + 4))
             (.offsetof .lua_State_top),
           .bitcast (.inst cs.insertPoint
             ((cs.insts cs.insertPoint).length + 5)),
           .store (.inst cs.insertPoint
             ((cs.insts cs.insertPoint).length + 3))
             (.inst cs.insertPoint
               ((cs.insts cs.insertPoint).length + 6))]) := by
  simp [ReloadTop, bind_eq, get_apply, LoadField_apply, SetField_apply,
    append_append]

theorem SetTop_apply (reg : Int) (cs : CompilerState) :
    SetTop reg cs =
      some ((), cs.append cs.insertPoint
          [.getValueR reg,
           .bitcast cs.values_.state,
           .gep (.inst cs.insertPoint
             ((cs.insts cs.insertPoint).length + 1))
             (.offsetof .lua_State_top),
           .bitcast (.inst cs.insertPoint
             ((cs.insts cs.insertPoint).length + 2)),
           .store (.inst cs.insertPoint (cs.insts cs.insertPoint).length)
             (.inst cs.insertPoint
               ((cs.insts cs.insertPoint).length + 3))]) := by
  simp [SetTop, bind_eq, get_apply, GetValueR_apply, SetField_apply,
    append_append]

theorem TopDiff_apply (n : Int) (cs : CompilerState) :
    TopDiff n cs =
      some (.inst cs.insertPoint ((cs.insts cs.insertPoint).length + 6),
        cs.append cs.insertPoint
          [.bitcast cs.values_.state,
           .gep (.inst cs.insertPoint (cs.insts cs.insertPoint).length)
             (.offsetof .lua_State_top),
           .bitcast (.inst cs.insertPoint
             ((cs.insts cs.insertPoint).length + 1)),
           .load (.inst cs.insertPoint
             ((cs.insts cs.insertPoint).length + 2)),
           .getValueR n,
           .ptrDiff (.inst cs.insertPoint
               ((cs.insts cs.insertPoint).length + 3))
             (.inst cs.insertPoint
               ((cs.insts cs.insertPoint).length + 4)),
           .intCast (.inst cs.insertPoint
             ((cs.insts cs.insertPoint).length + 5)) sizeof_int false]) := by
  simp [TopDiff, bind_eq, get_apply, LoadField_apply, GetValueR_apply,
    emit_apply, append_append]

theorem CompileCheckcg_apply (reg : Value) (cs : CompilerState) :
    CompileCheckcg reg cs =
      some ((), cs.append cs.insertPoint
        [.call .lll_checkcg [cs.values_.state, cs.values_.ci, reg]]) := byUnfold rfl

theorem emitAll_apply (l : List Inst) (cs : CompilerState) :
    emitAll l cs = some ((), cs.append cs.insertPoint l) := by
  induction l generalizing cs with
  | nil => simp [emitAll, pure_eq, CompilerState.append]
  | cons a l ih => simp [emitAll, bind_eq, emit_apply, ih, append_append]

theorem mem_insertAfter (anchor block b : BlockId) (l : List BlockId) :
    b ∈ insertAfter anchor block l ↔ b = block ∨ b ∈ l := by
  induction l with
  | nil => simp [insertAfter]
  | cons a l ih =>
    unfold insertAfter
    split
    · simp only [List.mem_cons]; tauto
    · simp only [List.mem_cons, ih]; tauto

theorem subCount_insertAfter (owner k : Nat) (anchor : BlockId)
    (l : List BlockId) :
    subCount owner (insertAfter anchor (.sub owner k) l) =
      subCount owner l + 1 := by
  induction l with
  | nil => simp [insertAfter, subCount]
  | cons a l ih =>
    unfold insertAfter
    split
    · simp [subCount, List.countP_cons]
      omega
    · simp only [subCount, List.countP_cons] at ih ⊢
      rw [ih]
      omega

theorem subCount_of_fresh (owner : Nat) (l : List BlockId)
    (h : ∀ j, BlockId.sub owner j ∉ l) : subCount owner l = 0 := by
  simp only [subCount, List.countP_eq_zero]
  intro b hb
  cases b with
  | sub o j =>
    have : o ≠ owner := by
      rintro rfl
      exact h j hb
    simp [this]
  | _ => simp

theorem CreateSubBlock_apply (n : Nat) (suffix : String)
    (preview : Option BlockId) (cs : CompilerState)
    (hb : cs.blocks_ = blockTable n) (hc : cs.curr_ < n) :
    CreateSubBlock suffix preview cs =
      some (.sub cs.curr_ (subCount cs.curr_ cs.layout),
        cs.withBlock (preview.getD (.primary cs.curr_))
          (.sub cs.curr_ (subCount cs.curr_ cs.layout))
          (cs.label (.primary cs.curr_) ++ "." ++ suffix)) := by
  simp [CreateSubBlock, bind_eq, pure_eq, get_apply, modify_apply,
    blockAt_table n cs.curr_ hc cs _ hb rfl]

/-! ## Normal form of a sequence of builder steps

Appends are gathered innermost, block allocations next, the move of the
insertion point outermost. -/

theorem withPoint_withPoint (cs : CompilerState) (a b : BlockId) :
    (cs.withPoint a).withPoint b = cs.withPoint b := byUnfold rfl

theorem withPoint_append (cs : CompilerState) (a b : BlockId) (l : List Inst) :
    (cs.withPoint a).append b l = (cs.append b l).withPoint a := byUnfold rfl

theorem withPoint_withBlock (cs : CompilerState) (a anchor block : BlockId)
    (name : String) :
    (cs.withPoint a).withBlock anchor block name =
      (cs.withBlock anchor block name).withPoint a := byUnfold rfl

theorem withPoint_withIncoming (cs : CompilerState) (a b : BlockId) (k : Nat)
    (v : Value) (f : BlockId) :
    (cs.withPoint a).withIncoming b k v f =
      (cs.withIncoming b k v f).withPoint a := byUnfold rfl

theorem withBlock_append (cs : CompilerState) (anchor block b : BlockId)
    (name : String) (l : List Inst) :
    (cs.withBlock anchor block name).append b l =
      (cs.append b l).withBlock anchor block name := byUnfold rfl

theorem withBlock_withIncoming (cs : CompilerState) (anchor block b : BlockId)
    (name : String) (k : Nat) (v : Value) (f : BlockId) :
    (cs.withBlock anchor block name).withIncoming b k v f =
      (cs.withIncoming b k v f).withBlock anchor block name := byUnfold rfl

theorem append_withIncoming (cs : CompilerState) (b : BlockId) (l : List Inst)
    (k : Nat) (v : Value) (f : BlockId) (h : cs.insts b = []) :
    (cs.append b l).withIncoming b k v f =
      cs.append b (l.modify (phiAdd v f) k) := by
  simp [CompilerState.append, CompilerState.withIncoming, h]

theorem addIncoming_apply (b : BlockId) (k : Nat) (v : Value) (f : BlockId)
    (cs : CompilerState) :
    addIncoming (.inst b k) v f cs = some ((), cs.withIncoming b k v f) := byUnfold rfl

theorem ownedBy_false_iff (i : Nat) (b : BlockId) :
    ownedBy i b = false ↔ b ≠ .primary i ∧ ∀ j, b ≠ .sub i j := by
  cases b <;> simp [ownedBy]

/-- Introduction rule for `Translated` when `m` sub-blocks were allocated. -/
theorem translated_intro (cs cs' : CompilerState) (n m : Nat) (h : Ready cs n)
    (hproto : cs'.proto_ = cs.proto_) (htable : cs'.blocks_ = cs.blocks_)
    (hcurr : cs'.curr_ = cs.curr_)
    (hlayout : ∀ b, b ∈ cs'.layout ↔
      b ∈ cs.layout ∨ ∃ j, j < m ∧ b = .sub cs.curr_ j)
    (hframe : ∀ b, b ≠ .primary cs.curr_ → (∀ j, b ≠ .sub cs.curr_ j) →
      cs'.insts b = cs.insts b)
    (hsubs : ∀ j, j < m → wellTerminated (cs'.insts (.sub cs.curr_ j)) = true)
    (hunused : ∀ j, m ≤ j → cs'.insts (.sub cs.curr_ j) = [])
    (hprimary : wellTerminated (cs'.insts (.primary cs.curr_)) = true ∨
      (terminators (cs'.insts (.primary cs.curr_)) = [] ∧
        cs'.insertPoint = .primary cs.curr_))
    (htp : ∀ s ∈ successors (cs'.insts (.primary cs.curr_)),
      s ∈ blockTable n ∨ ∃ j, j < m ∧ s = .sub cs.curr_ j)
    (hts : ∀ j, j < m → ∀ s ∈ successors (cs'.insts (.sub cs.curr_ j)),
      s ∈ blockTable n ∨ ∃ j, j < m ∧ s = .sub cs.curr_ j) :
    Translated cs cs' n := by
  have hin : ∀ j, BlockId.sub cs.curr_ j ∈ cs'.layout ↔ j < m := by
    intro j
    rw [hlayout]
    constructor
    · rintro (hj | ⟨k, hk, hjk⟩)
      · exact absurd hj (h.fresh j)
      · cases hjk; exact hk
    · intro hj; exact Or.inr ⟨j, hj, rfl⟩
  have hok : ∀ s, (s ∈ blockTable n ∨ ∃ j, j < m ∧ s = .sub cs.curr_ j) →
      s ∈ blockTable n ∨ (s ∈ cs'.layout ∧ ∃ j, s = .sub cs.curr_ j) := by
    rintro s (hs | ⟨j, hj, rfl⟩)
    · exact Or.inl hs
    · exact Or.inr ⟨(hin j).2 hj, j, rfl⟩
  refine ⟨hproto, htable, hcurr, fun b hb => (hlayout b).2 (Or.inl hb), ?_, ?_,
    fun j hj => hsubs j ((hin j).1 hj), ?_, hprimary, ?_⟩
  · intro b hb
    rcases (hlayout b).1 hb with hb | ⟨j, _, rfl⟩
    · exact Or.inl hb
    · exact Or.inr ⟨j, rfl⟩
  · intro b hb
    rw [ownedBy_false_iff] at hb
    exact hframe b hb.1 hb.2
  · intro j hj
    apply hunused
    by_contra hlt
    exact hj ((hin j).2 (by omega))
  · intro b hb s hs
    cases b with
    | entry => simp [ownedBy] at hb
    | primary k =>
      have hk : k = cs.curr_ := by simpa [ownedBy] using hb
      subst hk
      exact hok s (htp s hs)
    | sub k j =>
      have hk : k = cs.curr_ := by simpa [ownedBy] using hb
      subst hk
      by_cases hj : j < m
      · exact hok s (hts j hj s hs)
      · rw [hunused j (by omega)] at hs
        simp [successors] at hs

theorem terminators_nil : terminators [] = [] := byUnfold rfl

theorem terminators_cons (a : Inst) (l : List Inst) :
    terminators (a :: l) =
      if a.isTerminator = true then a :: terminators l else terminators l := by
  simp only [terminators, List.filter_cons]

theorem getTerminator_append_cons (l₁ : List Inst) (a : Inst) (l₂ : List Inst) :
    getTerminator (l₁ ++ a :: l₂) = getTerminator (a :: l₂) := by
  have : (a :: l₂).getLast? = some ((a :: l₂).getLast (by simp)) :=
    List.getLast?_eq_getLast _ _
  simp [getTerminator, List.getLast?_append, this]

theorem getTerminator_cons_cons (a b : Inst) (l : List Inst) :
    getTerminator (a :: b :: l) = getTerminator (b :: l) := by
  simp [getTerminator, List.getLast?_cons_cons]

theorem getTerminator_singleton (a : Inst) :
    getTerminator [a] = if a.isTerminator = true then some a else none := by
  simp [getTerminator]

/-! ## Every handler of the driver translates its instruction locally -/

theorem terminators_eq_nil (l : List Inst)
    (h : ∀ a ∈ l, a.isTerminator = false) : terminators l = [] := by
  simp only [terminators, List.filter_eq_nil_iff]
  intro a ha
  simp [h a ha]

theorem codeAt_apply (cs : CompilerState) (k : Nat)
    (hk : k < cs.proto_.code.length) :
    ∃ i, codeAt k cs = some (i, cs) := by
  refine ⟨cs.proto_.code[k], ?_⟩
  simp [codeAt, List.getElem?_eq_getElem hk]

theorem CompileMove_ok (cs : CompilerState) (n : Nat) (h : Ready cs n) :
    ∃ cs', CompileMove cs = some ((), cs') ∧ Translated cs cs' n ∧ Falls cs cs' := by
  have h3 := h.point
  have hx : True := trivial
  simp only [CompileMove, bind_eq, pure_eq, get_apply, modify_apply, emit_apply, GetValueR_apply, SetRegister_apply, CreateCall_apply, CreateBr_apply, CreateCondBr_apply, CreateRet_apply, ToBool_apply, LoadField_apply, SetField_apply, UpdateStack_apply, ReloadTop_apply, SetTop_apply, TopDiff_apply, CompileCheckcg_apply, emitAll_apply, SetInsertPoint_apply, addIncoming_apply, append_append, withPoint_withPoint, withPoint_append, withPoint_withBlock, withPoint_withIncoming, withBlock_append, withBlock_withIncoming, h3, 
    exists_eq_left', Option.some.injEq, Prod.mk.injEq, true_and, List.cons_append, List.nil_append,
    List.length_append, List.length_cons, List.length_nil, if_true, if_false, ite_not,
    append_proto_, append_values_, append_layout, append_insts, append_label, append_blocks_, append_insertPoint, append_curr_, append_instr_, withPoint_proto_, withPoint_values_, withPoint_layout, withPoint_insts, withPoint_label, withPoint_blocks_, withPoint_insertPoint, withPoint_curr_, withPoint_instr_, withIncoming_proto_, withIncoming_values_, withIncoming_layout, withIncoming_insts, withIncoming_label, withIncoming_blocks_, withIncoming_insertPoint, withIncoming_curr_, withIncoming_instr_, withBlock_proto_, withBlock_values_, withBlock_layout, withBlock_insts, withBlock_label, withBlock_blocks_, withBlock_insertPoint, withBlock_curr_, withBlock_instr_,
    Bool.false_eq_true, hx,
    Function.update_same, not_true_eq_false, not_false_eq_true, ne_eq, or_self, or_true, true_or, or_false, false_or,
    gt_iff_lt, ge_iff_le]
  all_goals
    refine translated_append_open cs n h _ ?_
    simp [terminators_cons, terminators_nil, Inst.isTerminator]

theorem CompileLoadk_false_ok (cs : CompilerState) (n : Nat) (h : Ready cs n) :
    ∃ cs', CompileLoadk false cs = some ((), cs') ∧ Translated cs cs' n ∧ Falls cs cs' := by
  have h3 := h.point
  have hx : True := trivial
  simp only [CompileLoadk, bind_eq, pure_eq, get_apply, modify_apply, emit_apply, GetValueR_apply, SetRegister_apply, CreateCall_apply, CreateBr_apply, CreateCondBr_apply, CreateRet_apply, ToBool_apply, LoadField_apply, SetField_apply, UpdateStack_apply, ReloadTop_apply, SetTop_apply, TopDiff_apply, CompileCheckcg_apply, emitAll_apply, SetInsertPoint_apply, addIncoming_apply, append_append, withPoint_withPoint, withPoint_append, withPoint_withBlock, withPoint_withIncoming, withBlock_append, withBlock_withIncoming, h3, 
    exists_eq_left', Option.some.injEq, Prod.mk.injEq, true_and, List.cons_append, List.nil_append,
    List.length_append, List.length_cons, List.length_nil, if_true, if_false, ite_not,
    append_proto_, append_values_, append_layout, append_insts, append_label, append_blocks_, append_insertPoint, append_curr_, append_instr_, withPoint_proto_, withPoint_values_, withPoint_layout, withPoint_insts, withPoint_label, withPoint_blocks_, withPoint_insertPoint, withPoint_curr_, withPoint_instr_, withIncoming_proto_, withIncoming_values_, withIncoming_layout, withIncoming_insts, withIncoming_label, withIncoming_blocks_, withIncoming_insertPoint, withIncoming_curr_, withIncoming_instr_, withBlock_proto_, withBlock_values_, withBlock_layout, withBlock_insts, withBlock_label, withBlock_blocks_, withBlock_insertPoint, withBlock_curr_, withBlock_instr_,
    Bool.false_eq_true, hx,
    Function.update_same, not_true_eq_false, not_false_eq_true, ne_eq, or_self, or_true, true_or, or_false, false_or,
    gt_iff_lt, ge_iff_le]
  all_goals
    refine translated_append_open cs n h _ ?_
    simp [terminators_cons, terminators_nil, Inst.isTerminator]

theorem CompileLoadk_true_ok (cs : CompilerState) (n : Nat) (h : Ready cs n)
    (hc : cs.curr_ + 1 < cs.proto_.code.length) :
    ∃ cs', CompileLoadk true cs = some ((), cs') ∧ Translated cs cs' n ∧ Falls cs cs' := by
  have h3 := h.point
  have hx : True := trivial
  obtain ⟨i, hi⟩ := codeAt_apply cs (cs.curr_ + 1) hc
  simp only [CompileLoadk, hi, bind_eq, pure_eq, get_apply, modify_apply, emit_apply, GetValueR_apply, SetRegister_apply, CreateCall_apply, CreateBr_apply, CreateCondBr_apply, CreateRet_apply, ToBool_apply, LoadField_apply, SetField_apply, UpdateStack_apply, ReloadTop_apply, SetTop_apply, TopDiff_apply, CompileCheckcg_apply, emitAll_apply, SetInsertPoint_apply, addIncoming_apply, append_append, withPoint_withPoint, withPoint_append, withPoint_withBlock, withPoint_withIncoming, withBlock_append, withBlock_withIncoming, h3, 
    exists_eq_left', Option.some.injEq, Prod.mk.injEq, true_and, List.cons_append, List.nil_append,
    List.length_append, List.length_cons, List.length_nil, if_true, if_false, ite_not,
    append_proto_, append_values_, append_layout, append_insts, append_label, append_blocks_, append_insertPoint, append_curr_, append_instr_, withPoint_proto_, withPoint_values_, withPoint_layout, withPoint_insts, withPoint_label, withPoint_blocks_, withPoint_insertPoint, withPoint_curr_, withPoint_instr_, withIncoming_proto_, withIncoming_values_, withIncoming_layout, withIncoming_insts, withIncoming_label, withIncoming_blocks_, withIncoming_insertPoint, withIncoming_curr_, withIncoming_instr_, withBlock_proto_, withBlock_values_, withBlock_layout, withBlock_insts, withBlock_label, withBlock_blocks_, withBlock_insertPoint, withBlock_curr_, withBlock_instr_,
    Bool.false_eq_true, hx,
    Function.update_same, not_true_eq_false, not_false_eq_true, ne_eq, or_self, or_true, true_or, or_false, false_or,
    gt_iff_lt, ge_iff_le]
  all_goals
    refine translated_append_open cs n h _ ?_
    simp [terminators_cons, terminators_nil, Inst.isTerminator]

theorem CompileLoadbool_ok (cs : CompilerState) (n : Nat) (h : Ready cs n)
    (hc : GETARG_C cs.instr_ = 0) :
    ∃ cs', CompileLoadbool cs = some ((), cs') ∧ Translated cs cs' n ∧ Falls cs cs' := by
  have h3 := h.point
  have hx : True := trivial
  simp only [CompileLoadbool, hc, bind_eq, pure_eq, get_apply, modify_apply, emit_apply, GetValueR_apply, SetRegister_apply, CreateCall_apply, CreateBr_apply, CreateCondBr_apply, CreateRet_apply, ToBool_apply, LoadField_apply, SetField_apply, UpdateStack_apply, ReloadTop_apply, SetTop_apply, TopDiff_apply, CompileCheckcg_apply, emitAll_apply, SetInsertPoint_apply, addIncoming_apply, append_append, withPoint_withPoint, withPoint_append, withPoint_withBlock, withPoint_withIncoming, withBlock_append, withBlock_withIncoming, h3, 
    exists_eq_left', Option.some.injEq, Prod.mk.injEq, true_and, List.cons_append, List.nil_append,
    List.length_append, List.length_cons, List.length_nil, if_true, if_false, ite_not,
    append_proto_, append_values_, append_layout, append_insts, append_label, append_blocks_, append_insertPoint, append_curr_, append_instr_, withPoint_proto_, withPoint_values_, withPoint_layout, withPoint_insts, withPoint_label, withPoint_blocks_, withPoint_insertPoint, withPoint_curr_, withPoint_instr_, withIncoming_proto_, withIncoming_values_, withIncoming_layout, withIncoming_insts, withIncoming_label, withIncoming_blocks_, withIncoming_insertPoint, withIncoming_curr_, withIncoming_instr_, withBlock_proto_, withBlock_values_, withBlock_layout, withBlock_insts, withBlock_label, withBlock_blocks_, withBlock_insertPoint, withBlock_curr_, withBlock_instr_,
    Bool.false_eq_true, hx,
    Function.update_same, not_true_eq_false, not_false_eq_true, ne_eq, or_self, or_true, true_or, or_false, false_or,
    gt_iff_lt, ge_iff_le]
  all_goals
    refine translated_append_open cs n h _ ?_
    simp [terminators_cons, terminators_nil, Inst.isTerminator]

theorem CompileGetupval_ok (cs : CompilerState) (n : Nat) (h : Ready cs n) :
    ∃ cs', CompileGetupval cs = some ((), cs') ∧ Translated cs cs' n ∧ Falls cs cs' := by
  have h3 := h.point
  have hx : True := trivial
  simp only [CompileGetupval, bind_eq, pure_eq, get_apply, modify_apply, emit_apply, GetValueR_apply, SetRegister_apply, CreateCall_apply, CreateBr_apply, CreateCondBr_apply, CreateRet_apply, ToBool_apply, LoadField_apply, SetField_apply, UpdateStack_apply, ReloadTop_apply, SetTop_apply, TopDiff_apply, CompileCheckcg_apply, emitAll_apply, SetInsertPoint_apply, addIncoming_apply, append_append, withPoint_withPoint, withPoint_append, withPoint_withBlock, withPoint_withIncoming, withBlock_append, withBlock_withIncoming, h3, 
    exists_eq_left', Option.some.injEq, Prod.mk.injEq, true_and, List.cons_append, List.nil_append,
    List.length_append, List.length_cons, List.length_nil, if_true, if_false, ite_not,
    append_proto_, append_values_, append_layout, append_insts, append_label, append_blocks_, append_insertPoint, append_curr_, append_instr_, withPoint_proto_, withPoint_values_, withPoint_layout, withPoint_insts, withPoint_label, withPoint_blocks_, withPoint_insertPoint, withPoint_curr_, withPoint_instr_, withIncoming_proto_, withIncoming_values_, withIncoming_layout, withIncoming_insts, withIncoming_label, withIncoming_blocks_, withIncoming_insertPoint, withIncoming_curr_, withIncoming_instr_, withBlock_proto_, withBlock_values_, withBlock_layout, withBlock_insts, withBlock_label, withBlock_blocks_, withBlock_insertPoint, withBlock_curr_, withBlock_instr_,
    Bool.false_eq_true, hx,
    Function.update_same, not_true_eq_false, not_false_eq_true, ne_eq, or_self, or_true, true_or, or_false, false_or,
    gt_iff_lt, ge_iff_le]
  all_goals
    refine translated_append_open cs n h _ ?_
    simp [terminators_cons, terminators_nil, Inst.isTerminator]

theorem CompileSetupval_ok (cs : CompilerState) (n : Nat) (h : Ready cs n) :
    ∃ cs', CompileSetupval cs = some ((), cs') ∧ Translated cs cs' n ∧ Falls cs cs' := by
  have h3 := h.point
  have hx : True := trivial
  simp only [CompileSetupval, bind_eq, pure_eq, get_apply, modify_apply, emit_apply, GetValueR_apply, SetRegister_apply, CreateCall_apply, CreateBr_apply, CreateCondBr_apply, CreateRet_apply, ToBool_apply, LoadField_apply, SetField_apply, UpdateStack_apply, ReloadTop_apply, SetTop_apply, TopDiff_apply, CompileCheckcg_apply, emitAll_apply, SetInsertPoint_apply, addIncoming_apply, append_append, withPoint_withPoint, withPoint_append, withPoint_withBlock, withPoint_withIncoming, withBlock_append, withBlock_withIncoming, h3, 
    exists_eq_left', Option.some.injEq, Prod.mk.injEq, true_and, List.cons_append, List.nil_append,
    List.length_append, List.length_cons, List.length_nil, if_true, if_false, ite_not,
    append_proto_, append_values_, append_layout, append_insts, append_label, append_blocks_, append_insertPoint, append_curr_, append_instr_, withPoint_proto_, withPoint_values_, withPoint_layout, withPoint_insts, withPoint_label, withPoint_blocks_, withPoint_insertPoint, withPoint_curr_, withPoint_instr_, withIncoming_proto_, withIncoming_values_, withIncoming_layout, withIncoming_insts, withIncoming_label, withIncoming_blocks_, withIncoming_insertPoint, withIncoming_curr_, withIncoming_instr_, withBlock_proto_, withBlock_values_, withBlock_layout, withBlock_insts, withBlock_label, withBlock_blocks_, withBlock_insertPoint, withBlock_curr_, withBlock_instr_,
    Bool.false_eq_true, hx,
    Function.update_same, not_true_eq_false, not_false_eq_true, ne_eq, or_self, or_true, true_or, or_false, false_or,
    gt_iff_lt, ge_iff_le]
  all_goals
    refine translated_append_open cs n h _ ?_
    simp [terminators_cons, terminators_nil, Inst.isTerminator]

theorem CompileNewtable_ok (cs : CompilerState) (n : Nat) (h : Ready cs n) :
    ∃ cs', CompileNewtable cs = some ((), cs') ∧ Translated cs cs' n ∧ Falls cs cs' := by
  have h3 := h.point
  have hx : True := trivial
  by_cases hb : GETARG_B cs.instr_ = 0 <;> by_cases hc : GETARG_C cs.instr_ = 0 <;>
  simp only [CompileNewtable, bind_eq, pure_eq, get_apply, modify_apply, emit_apply, GetValueR_apply, SetRegister_apply, CreateCall_apply, CreateBr_apply, CreateCondBr_apply, CreateRet_apply, ToBool_apply, LoadField_apply, SetField_apply, UpdateStack_apply, ReloadTop_apply, SetTop_apply, TopDiff_apply, CompileCheckcg_apply, emitAll_apply, SetInsertPoint_apply, addIncoming_apply, append_append, withPoint_withPoint, withPoint_append, withPoint_withBlock, withPoint_withIncoming, withBlock_append, withBlock_withIncoming, h3, hb, hc, 
    exists_eq_left', Option.some.injEq, Prod.mk.injEq, true_and, List.cons_append, List.nil_append,
    List.length_append, List.length_cons, List.length_nil, if_true, if_false, ite_not,
    append_proto_, append_values_, append_layout, append_insts, append_label, append_blocks_, append_insertPoint, append_curr_, append_instr_, withPoint_proto_, withPoint_values_, withPoint_layout, withPoint_insts, withPoint_label, withPoint_blocks_, withPoint_insertPoint, withPoint_curr_, withPoint_instr_, withIncoming_proto_, withIncoming_values_, withIncoming_layout, withIncoming_insts, withIncoming_label, withIncoming_blocks_, withIncoming_insertPoint, withIncoming_curr_, withIncoming_instr_, withBlock_proto_, withBlock_values_, withBlock_layout, withBlock_insts, withBlock_label, withBlock_blocks_, withBlock_insertPoint, withBlock_curr_, withBlock_instr_,
    Bool.false_eq_true, hx,
    Function.update_same, not_true_eq_false, not_false_eq_true, ne_eq, or_self, or_true, true_or, or_false, false_or,
    gt_iff_lt, ge_iff_le]
  all_goals
    refine translated_append_open cs n h _ ?_
    simp [terminators_cons, terminators_nil, Inst.isTerminator]

theorem CompileUnop_ok (cs : CompilerState) (n : Nat) (h : Ready cs n) (f : RuntimeFn) :
    ∃ cs', CompileUnop f cs = some ((), cs') ∧ Translated cs cs' n ∧ Falls cs cs' := by
  have h3 := h.point
  have hx : True := trivial
  simp only [CompileUnop, bind_eq, pure_eq, get_apply, modify_apply, emit_apply, GetValueR_apply, SetRegister_apply, CreateCall_apply, CreateBr_apply, CreateCondBr_apply, CreateRet_apply, ToBool_apply, LoadField_apply, SetField_apply, UpdateStack_apply, ReloadTop_apply, SetTop_apply, TopDiff_apply, CompileCheckcg_apply, emitAll_apply, SetInsertPoint_apply, addIncoming_apply, append_append, withPoint_withPoint, withPoint_append, withPoint_withBlock, withPoint_withIncoming, withBlock_append, withBlock_withIncoming, h3, 
    exists_eq_left', Option.some.injEq, Prod.mk.injEq, true_and, List.cons_append, List.nil_append,
    List.length_append, List.length_cons, List.length_nil, if_true, if_false, ite_not,
    append_proto_, append_values_, append_layout, append_insts, append_label, append_blocks_, append_insertPoint, append_curr_, append_instr_, withPoint_proto_, withPoint_values_, withPoint_layout, withPoint_insts, withPoint_label, withPoint_blocks_, withPoint_insertPoint, withPoint_curr_, withPoint_instr_, withIncoming_proto_, withIncoming_values_, withIncoming_layout, withIncoming_insts, withIncoming_label, withIncoming_blocks_, withIncoming_insertPoint, withIncoming_curr_, withIncoming_instr_, withBlock_proto_, withBlock_values_, withBlock_layout, withBlock_insts, withBlock_label, withBlock_blocks_, withBlock_insertPoint, withBlock_curr_, withBlock_instr_,
    Bool.false_eq_true, hx,
    Function.update_same, not_true_eq_false, not_false_eq_true, ne_eq, or_self, or_true, true_or, or_false, false_or,
    gt_iff_lt, ge_iff_le]
  all_goals
    refine translated_append_open cs n h _ ?_
    simp [terminators_cons, terminators_nil, Inst.isTerminator]

theorem CompileConcat_ok (cs : CompilerState) (n : Nat) (h : Ready cs n) :
    ∃ cs', CompileConcat cs = some ((), cs') ∧ Translated cs cs' n ∧ Falls cs cs' := by
  have h3 := h.point
  have hx : True := trivial
  by_cases hab : GETARG_B cs.instr_ ≤ GETARG_A cs.instr_ <;>
  simp only [CompileConcat, bind_eq, pure_eq, get_apply, modify_apply, emit_apply, GetValueR_apply, SetRegister_apply, CreateCall_apply, CreateBr_apply, CreateCondBr_apply, CreateRet_apply, ToBool_apply, LoadField_apply, SetField_apply, UpdateStack_apply, ReloadTop_apply, SetTop_apply, TopDiff_apply, CompileCheckcg_apply, emitAll_apply, SetInsertPoint_apply, addIncoming_apply, append_append, withPoint_withPoint, withPoint_append, withPoint_withBlock, withPoint_withIncoming, withBlock_append, withBlock_withIncoming, h3, hab, 
    exists_eq_left', Option.some.injEq, Prod.mk.injEq, true_and, List.cons_append, List.nil_append,
    List.length_append, List.length_cons, List.length_nil, if_true, if_false, ite_not,
    append_proto_, append_values_, append_layout, append_insts, append_label, append_blocks_, append_insertPoint, append_curr_, append_instr_, withPoint_proto_, withPoint_values_, withPoint_layout, withPoint_insts, withPoint_label, withPoint_blocks_, withPoint_insertPoint, withPoint_curr_, withPoint_instr_, withIncoming_proto_, withIncoming_values_, withIncoming_layout, withIncoming_insts, withIncoming_label, withIncoming_blocks_, withIncoming_insertPoint, withIncoming_curr_, withIncoming_instr_, withBlock_proto_, withBlock_values_, withBlock_layout, withBlock_insts, withBlock_label, withBlock_blocks_, withBlock_insertPoint, withBlock_curr_, withBlock_instr_,
    Bool.false_eq_true, hx,
    Function.update_same, not_true_eq_false, not_false_eq_true, ne_eq, or_self, or_true, true_or, or_false, false_or,
    gt_iff_lt, ge_iff_le]
  all_goals
    refine translated_append_open cs n h _ ?_
    simp [terminators_cons, terminators_nil, Inst.isTerminator]

theorem CompileCall_ok (cs : CompilerState) (n : Nat) (h : Ready cs n) :
    ∃ cs', CompileCall cs = some ((), cs') ∧ Translated cs cs' n ∧ Falls cs cs' := by
  have h3 := h.point
  have hx : True := trivial
  by_cases hb : GETARG_B cs.instr_ = 0 <;>
  simp only [CompileCall, bind_eq, pure_eq, get_apply, modify_apply, emit_apply, GetValueR_apply, SetRegister_apply, CreateCall_apply, CreateBr_apply, CreateCondBr_apply, CreateRet_apply, ToBool_apply, LoadField_apply, SetField_apply, UpdateStack_apply, ReloadTop_apply, SetTop_apply, TopDiff_apply, CompileCheckcg_apply, emitAll_apply, SetInsertPoint_apply, addIncoming_apply, append_append, withPoint_withPoint, withPoint_append, withPoint_withBlock, withPoint_withIncoming, withBlock_append, withBlock_withIncoming, h3, hb, 
    exists_eq_left', Option.some.injEq, Prod.mk.injEq, true_and, List.cons_append, List.nil_append,
    List.length_append, List.length_cons, List.length_nil, if_true, if_false, ite_not,
    append_proto_, append_values_, append_layout, append_insts, append_label, append_blocks_, append_insertPoint, append_curr_, append_instr_, withPoint_proto_, withPoint_values_, withPoint_layout, withPoint_insts, withPoint_label, withPoint_blocks_, withPoint_insertPoint, withPoint_curr_, withPoint_instr_, withIncoming_proto_, withIncoming_values_, withIncoming_layout, withIncoming_insts, withIncoming_label, withIncoming_blocks_, withIncoming_insertPoint, withIncoming_curr_, withIncoming_instr_, withBlock_proto_, withBlock_values_, withBlock_layout, withBlock_insts, withBlock_label, withBlock_blocks_, withBlock_insertPoint, withBlock_curr_, withBlock_instr_,
    Bool.false_eq_true, hx,
    Function.update_same, not_true_eq_false, not_false_eq_true, ne_eq, or_self, or_true, true_or, or_false, false_or,
    gt_iff_lt, ge_iff_le]
  all_goals
    refine translated_append_open cs n h _ ?_
    simp [terminators_cons, terminators_nil, Inst.isTerminator]

theorem CompileTforcall_ok (cs : CompilerState) (n : Nat) (h : Ready cs n) :
    ∃ cs', CompileTforcall cs = some ((), cs') ∧ Translated cs cs' n ∧ Falls cs cs' := by
  have h3 := h.point
  have hx : True := trivial
  simp only [CompileTforcall, bind_eq, pure_eq, get_apply, modify_apply, emit_apply, GetValueR_apply, SetRegister_apply, CreateCall_apply, CreateBr_apply, CreateCondBr_apply, CreateRet_apply, ToBool_apply, LoadField_apply, SetField_apply, UpdateStack_apply, ReloadTop_apply, SetTop_apply, TopDiff_apply, CompileCheckcg_apply, emitAll_apply, SetInsertPoint_apply, addIncoming_apply, append_append, withPoint_withPoint, withPoint_append, withPoint_withBlock, withPoint_withIncoming, withBlock_append, withBlock_withIncoming, h3, 
    exists_eq_left', Option.some.injEq, Prod.mk.injEq, true_and, List.cons_append, List.nil_append,
    List.length_append, List.length_cons, List.length_nil, if_true, if_false, ite_not,
    append_proto_, append_values_, append_layout, append_insts, append_label, append_blocks_, append_insertPoint, append_curr_, append_instr_, withPoint_proto_, withPoint_values_, withPoint_layout, withPoint_insts, withPoint_label, withPoint_blocks_, withPoint_insertPoint, withPoint_curr_, withPoint_instr_, withIncoming_proto_, withIncoming_values_, withIncoming_layout, withIncoming_insts, withIncoming_label, withIncoming_blocks_, withIncoming_insertPoint, withIncoming_curr_, withIncoming_instr_, withBlock_proto_, withBlock_values_, withBlock_layout, withBlock_insts, withBlock_label, withBlock_blocks_, withBlock_insertPoint, withBlock_curr_, withBlock_instr_,
    Bool.false_eq_true, hx,
    Function.update_same, not_true_eq_false, not_false_eq_true, ne_eq, or_self, or_true, true_or, or_false, false_or,
    gt_iff_lt, ge_iff_le]
  all_goals
    refine translated_append_open cs n h _ ?_
    simp [terminators_cons, terminators_nil, Inst.isTerminator]

theorem CompileSetlist_ok (cs : CompilerState) (n : Nat) (h : Ready cs n)
    (hc : cs.curr_ + 1 < cs.proto_.code.length) :
    ∃ cs', CompileSetlist cs = some ((), cs') ∧ Translated cs cs' n ∧ Falls cs cs' := by
  have h3 := h.point
  have hx : True := trivial
  obtain ⟨i, hi⟩ := codeAt_apply cs (cs.curr_ + 1) hc
  by_cases hc0 : GETARG_C cs.instr_ = 0 <;> by_cases hb : GETARG_B cs.instr_ = 0 <;>
  simp only [CompileSetlist, hi, bind_eq, pure_eq, get_apply, modify_apply, emit_apply, GetValueR_apply, SetRegister_apply, CreateCall_apply, CreateBr_apply, CreateCondBr_apply, CreateRet_apply, ToBool_apply, LoadField_apply, SetField_apply, UpdateStack_apply, ReloadTop_apply, SetTop_apply, TopDiff_apply, CompileCheckcg_apply, emitAll_apply, SetInsertPoint_apply, addIncoming_apply, append_append, withPoint_withPoint, withPoint_append, withPoint_withBlock, withPoint_withIncoming, withBlock_append, withBlock_withIncoming, h3, hc0, hb, 
    exists_eq_left', Option.some.injEq, Prod.mk.injEq, true_and, List.cons_append, List.nil_append,
    List.length_append, List.length_cons, List.length_nil, if_true, if_false, ite_not,
    append_proto_, append_values_, append_layout, append_insts, append_label, append_blocks_, append_insertPoint, append_curr_, append_instr_, withPoint_proto_, withPoint_values_, withPoint_layout, withPoint_insts, withPoint_label, withPoint_blocks_, withPoint_insertPoint, withPoint_curr_, withPoint_instr_, withIncoming_proto_, withIncoming_values_, withIncoming_layout, withIncoming_insts, withIncoming_label, withIncoming_blocks_, withIncoming_insertPoint, withIncoming_curr_, withIncoming_instr_, withBlock_proto_, withBlock_values_, withBlock_layout, withBlock_insts, withBlock_label, withBlock_blocks_, withBlock_insertPoint, withBlock_curr_, withBlock_instr_,
    Bool.false_eq_true, hx,
    Function.update_same, not_true_eq_false, not_false_eq_true, ne_eq, or_self, or_true, true_or, or_false, false_or,
    gt_iff_lt, ge_iff_le]
  all_goals
    refine translated_append_open cs n h _ ?_
    simp [terminators_cons, terminators_nil, Inst.isTerminator]

theorem CompileClosure_ok (cs : CompilerState) (n : Nat) (h : Ready cs n) :
    ∃ cs', CompileClosure cs = some ((), cs') ∧ Translated cs cs' n ∧ Falls cs cs' := by
  have h3 := h.point
  have hx : True := trivial
  simp only [CompileClosure, bind_eq, pure_eq, get_apply, modify_apply, emit_apply, GetValueR_apply, SetRegister_apply, CreateCall_apply, CreateBr_apply, CreateCondBr_apply, CreateRet_apply, ToBool_apply, LoadField_apply, SetField_apply, UpdateStack_apply, ReloadTop_apply, SetTop_apply, TopDiff_apply, CompileCheckcg_apply, emitAll_apply, SetInsertPoint_apply, addIncoming_apply, append_append, withPoint_withPoint, withPoint_append, withPoint_withBlock, withPoint_withIncoming, withBlock_append, withBlock_withIncoming, h3, 
    exists_eq_left', Option.some.injEq, Prod.mk.injEq, true_and, List.cons_append, List.nil_append,
    List.length_append, List.length_cons, List.length_nil, if_true, if_false, ite_not,
    append_proto_, append_values_, append_layout, append_insts, append_label, append_blocks_, append_insertPoint, append_curr_, append_instr_, withPoint_proto_, withPoint_values_, withPoint_layout, withPoint_insts, withPoint_label, withPoint_blocks_, withPoint_insertPoint, withPoint_curr_, withPoint_instr_, withIncoming_proto_, withIncoming_values_, withIncoming_layout, withIncoming_insts, withIncoming_label, withIncoming_blocks_, withIncoming_insertPoint, withIncoming_curr_, withIncoming_instr_, withBlock_proto_, withBlock_values_, withBlock_layout, withBlock_insts, withBlock_label, withBlock_blocks_, withBlock_insertPoint, withBlock_curr_, withBlock_instr_,
    Bool.false_eq_true, hx,
    Function.update_same, not_true_eq_false, not_false_eq_true, ne_eq, or_self, or_true, true_or, or_false, false_or,
    gt_iff_lt, ge_iff_le]
  all_goals
    refine translated_append_open cs n h _ ?_
    simp [terminators_cons, terminators_nil, Inst.isTerminator]

theorem blockAt_inRange (n : Nat) (k : Int) (h0 : 0 ≤ k) (hn : k < n)
    (cs : CompilerState) (hb : cs.blocks_ = blockTable n) :
    blockAt k cs = some (.primary k.toNat, cs) :=
  blockAt_table n k.toNat (by omega) cs k hb (by omega)

theorem blockAt_one (n c : Nat) (h : c + 1 < n)
    (cs : CompilerState) (hb : cs.blocks_ = blockTable n) :
    blockAt ((c : Int) + 1) cs = some (.primary (c + 1), cs) :=
  blockAt_table n (c + 1) h cs _ hb (by push_cast; rfl)

theorem blockAt_two (n c : Nat) (h : c + 2 < n)
    (cs : CompilerState) (hb : cs.blocks_ = blockTable n) :
    blockAt ((c : Int) + 2) cs = some (.primary (c + 2), cs) :=
  blockAt_table n (c + 2) h cs _ hb (by push_cast; rfl)

theorem blockAt_curr (n c : Nat) (h : c < n)
    (cs : CompilerState) (hb : cs.blocks_ = blockTable n) :
    blockAt (c : Int) cs = some (.primary c, cs) :=
  blockAt_table n c h cs _ hb rfl

theorem translated_append_term (cs : CompilerState) (n : Nat) (h : Ready cs n)
    (l : List Inst) (hl : wellTerminated l = true)
    (ht : ∀ s ∈ successors l, s ∈ blockTable n) :
    Translated cs (cs.append (.primary cs.curr_) l) n ∧
      Closes cs (cs.append (.primary cs.curr_) l) := by
  refine ⟨translated_append cs n h l (Or.inl hl) ht, ?_⟩
  simpa [Closes] using wellTerminated_append _ _ h.open_ hl

theorem primary_mem_blockTable (n k : Nat) (h : k < n) :
    BlockId.primary k ∈ blockTable n :=
  (mem_blockTable _ _).2 ⟨k, h, rfl⟩

theorem CompileJmp_ok (cs : CompilerState) (n : Nat) (h : Ready cs n)
    (h0 : 0 ≤ (cs.curr_ : Int) + GETARG_sBx cs.instr_ + 1)
    (hn : (cs.curr_ : Int) + GETARG_sBx cs.instr_ + 1 < n) :
    ∃ cs', CompileJmp cs = some ((), cs') ∧ Translated cs cs' n ∧ Closes cs cs' := by
  have h1 := h.table
  have h3 := h.point
  simp [CompileJmp, blockAt_inRange n _ h0 hn, h1, bind_eq, pure_eq, get_apply, modify_apply, emit_apply, GetValueR_apply, SetRegister_apply, CreateCall_apply, CreateBr_apply, CreateCondBr_apply, CreateRet_apply, ToBool_apply, LoadField_apply, SetField_apply, UpdateStack_apply, ReloadTop_apply, SetTop_apply, TopDiff_apply, CompileCheckcg_apply, emitAll_apply, SetInsertPoint_apply, addIncoming_apply, append_append, withPoint_withPoint, withPoint_append, withPoint_withBlock, withPoint_withIncoming, withBlock_append, withBlock_withIncoming, h3]
  all_goals
    refine translated_append_term cs n h _ ?_ ?_
    · simp [wellTerminated, terminators_append, terminators_cons, terminators_nil, getTerminator_append_cons, getTerminator_cons_cons, getTerminator_singleton, Inst.isTerminator]
    · simp only [successors, Inst.targets, List.cons_append, List.nil_append, List.append_nil,
        List.mem_cons, List.mem_singleton, List.not_mem_nil, or_false, forall_eq_or_imp, forall_eq,
        IsEmpty.forall_iff, implies_true]
      exact primary_mem_blockTable _ _ (by omega)

theorem CompileForprep_ok (cs : CompilerState) (n : Nat) (h : Ready cs n)
    (h0 : 0 ≤ (cs.curr_ : Int) + 1 + GETARG_sBx cs.instr_)
    (hn : (cs.curr_ : Int) + 1 + GETARG_sBx cs.instr_ < n) :
    ∃ cs', CompileForprep cs = some ((), cs') ∧ Translated cs cs' n ∧ Closes cs cs' := by
  have h1 := h.table
  have h3 := h.point
  simp [CompileForprep, blockAt_inRange n _ h0 hn, h1, bind_eq, pure_eq, get_apply, modify_apply, emit_apply, GetValueR_apply, SetRegister_apply, CreateCall_apply, CreateBr_apply, CreateCondBr_apply, CreateRet_apply, ToBool_apply, LoadField_apply, SetField_apply, UpdateStack_apply, ReloadTop_apply, SetTop_apply, TopDiff_apply, CompileCheckcg_apply, emitAll_apply, SetInsertPoint_apply, addIncoming_apply, append_append, withPoint_withPoint, withPoint_append, withPoint_withBlock, withPoint_withIncoming, withBlock_append, withBlock_withIncoming, h3]
  all_goals
    refine translated_append_term cs n h _ ?_ ?_
    · simp [wellTerminated, terminators_append, terminators_cons, terminators_nil, getTerminator_append_cons, getTerminator_cons_cons, getTerminator_singleton, Inst.isTerminator]
    · simp only [successors, Inst.targets, List.cons_append, List.nil_append, List.append_nil,
        List.mem_cons, List.mem_singleton, List.not_mem_nil, or_false, forall_eq_or_imp, forall_eq,
        IsEmpty.forall_iff, implies_true]
      exact primary_mem_blockTable _ _ (by omega)

theorem CompileLoadbool_skip_ok (cs : CompilerState) (n : Nat) (h : Ready cs n)
    (hc : GETARG_C cs.instr_ ≠ 0) (hn : cs.curr_ + 2 < n) :
    ∃ cs', CompileLoadbool cs = some ((), cs') ∧ Translated cs cs' n ∧ Closes cs cs' := by
  have h1 := h.table
  have h3 := h.point
  simp [CompileLoadbool, hc, blockAt_two n cs.curr_ hn, h1, bind_eq, pure_eq, get_apply, modify_apply, emit_apply, GetValueR_apply, SetRegister_apply, CreateCall_apply, CreateBr_apply, CreateCondBr_apply, CreateRet_apply, ToBool_apply, LoadField_apply, SetField_apply, UpdateStack_apply, ReloadTop_apply, SetTop_apply, TopDiff_apply, CompileCheckcg_apply, emitAll_apply, SetInsertPoint_apply, addIncoming_apply, append_append, withPoint_withPoint, withPoint_append, withPoint_withBlock, withPoint_withIncoming, withBlock_append, withBlock_withIncoming, h3]
  all_goals
    refine translated_append_term cs n h _ ?_ ?_
    · simp [wellTerminated, terminators_append, terminators_cons, terminators_nil, getTerminator_append_cons, getTerminator_cons_cons, getTerminator_singleton, Inst.isTerminator]
    · simp only [successors, Inst.targets, List.cons_append, List.nil_append, List.append_nil,
        List.mem_cons, List.mem_singleton, List.not_mem_nil, or_false, forall_eq_or_imp, forall_eq,
        IsEmpty.forall_iff, implies_true]
      exact primary_mem_blockTable _ _ (by omega)

theorem CompileReturn_ok (cs : CompilerState) (n : Nat) (h : Ready cs n) :
    ∃ cs', CompileReturn cs = some ((), cs') ∧ Translated cs cs' n ∧ Closes cs cs' := by
  have h1 := h.table
  have h3 := h.point
  by_cases hp : 0 < cs.proto_.sizep <;> by_cases hb0 : GETARG_B cs.instr_ = 0 <;> by_cases hb1 : GETARG_B cs.instr_ = 1 <;>
  simp [CompileReturn, h1, h1, hp, hb0, hb1, bind_eq, pure_eq, get_apply, modify_apply, emit_apply, GetValueR_apply, SetRegister_apply, CreateCall_apply, CreateBr_apply, CreateCondBr_apply, CreateRet_apply, ToBool_apply, LoadField_apply, SetField_apply, UpdateStack_apply, ReloadTop_apply, SetTop_apply, TopDiff_apply, CompileCheckcg_apply, emitAll_apply, SetInsertPoint_apply, addIncoming_apply, append_append, withPoint_withPoint, withPoint_append, withPoint_withBlock, withPoint_withIncoming, withBlock_append, withBlock_withIncoming, h3]
  all_goals
    refine translated_append_term cs n h _ ?_ ?_
    · simp [wellTerminated, terminators_append, terminators_cons, terminators_nil, getTerminator_append_cons, getTerminator_cons_cons, getTerminator_singleton, Inst.isTerminator]
    · simp only [successors, Inst.targets, List.cons_append, List.nil_append, List.append_nil,
        List.mem_cons, List.mem_singleton, List.not_mem_nil, or_false, forall_eq_or_imp, forall_eq,
        IsEmpty.forall_iff, implies_true]

theorem CompileTailcall_ok (cs : CompilerState) (n : Nat) (h : Ready cs n) :
    ∃ cs', CompileTailcall cs = some ((), cs') ∧ Translated cs cs' n ∧ Closes cs cs' := by
  have h1 := h.table
  have h3 := h.point
  by_cases hp : 0 < cs.proto_.sizep <;> by_cases hb0 : GETARG_B cs.instr_ = 0 <;>
  simp [CompileTailcall, h1, h1, hp, hb0, bind_eq, pure_eq, get_apply, modify_apply, emit_apply, GetValueR_apply, SetRegister_apply, CreateCall_apply, CreateBr_apply, CreateCondBr_apply, CreateRet_apply, ToBool_apply, LoadField_apply, SetField_apply, UpdateStack_apply, ReloadTop_apply, SetTop_apply, TopDiff_apply, CompileCheckcg_apply, emitAll_apply, SetInsertPoint_apply, addIncoming_apply, append_append, withPoint_withPoint, withPoint_append, withPoint_withBlock, withPoint_withIncoming, withBlock_append, withBlock_withIncoming, h3]
  all_goals
    refine translated_append_term cs n h _ ?_ ?_
    · simp [wellTerminated, terminators_append, terminators_cons, terminators_nil, getTerminator_append_cons, getTerminator_cons_cons, getTerminator_singleton, Inst.isTerminator]
    · simp only [successors, Inst.targets, List.cons_append, List.nil_append, List.append_nil,
        List.mem_cons, List.mem_singleton, List.not_mem_nil, or_false, forall_eq_or_imp, forall_eq,
        IsEmpty.forall_iff, implies_true]

theorem CompileCmp_ok (cs : CompilerState) (n : Nat) (h : Ready cs n) (f : RuntimeFn)
    (hn : cs.curr_ + 2 < n) :
    ∃ cs', CompileCmp f cs = some ((), cs') ∧ Translated cs cs' n ∧ Falls cs cs' := by
  have h1 := h.table
  have h3 := h.point
  simp [CompileCmp, blockAt_two n cs.curr_ hn, blockAt_one n cs.curr_ (by omega), h1, bind_eq, pure_eq, get_apply, modify_apply, emit_apply, GetValueR_apply, SetRegister_apply, CreateCall_apply, CreateBr_apply, CreateCondBr_apply, CreateRet_apply, ToBool_apply, LoadField_apply, SetField_apply, UpdateStack_apply, ReloadTop_apply, SetTop_apply, TopDiff_apply, CompileCheckcg_apply, emitAll_apply, SetInsertPoint_apply, addIncoming_apply, append_append, withPoint_withPoint, withPoint_append, withPoint_withBlock, withPoint_withIncoming, withBlock_append, withBlock_withIncoming, h3]
  all_goals
    refine translated_append_falls cs n h _ ?_ ?_ ?_
    · simp [wellTerminated, terminators_append, terminators_cons, terminators_nil, getTerminator_append_cons, getTerminator_cons_cons, getTerminator_singleton, Inst.isTerminator]
    · simp only [successors, Inst.targets, List.cons_append, List.nil_append, List.append_nil,
        List.mem_cons, List.mem_singleton, List.not_mem_nil, or_false, forall_eq_or_imp, forall_eq]
      exact ⟨primary_mem_blockTable _ _ (by omega), primary_mem_blockTable _ _ (by omega)⟩
    · simp [successors, Inst.targets]

theorem CompileTest_ok (cs : CompilerState) (n : Nat) (h : Ready cs n)
    (hn : cs.curr_ + 2 < n) :
    ∃ cs', CompileTest cs = some ((), cs') ∧ Translated cs cs' n ∧ Falls cs cs' := by
  have h1 := h.table
  have h3 := h.point
  simp [CompileTest, blockAt_two n cs.curr_ hn, blockAt_one n cs.curr_ (by omega), h1, bind_eq, pure_eq, get_apply, modify_apply, emit_apply, GetValueR_apply, SetRegister_apply, CreateCall_apply, CreateBr_apply, CreateCondBr_apply, CreateRet_apply, ToBool_apply, LoadField_apply, SetField_apply, UpdateStack_apply, ReloadTop_apply, SetTop_apply, TopDiff_apply, CompileCheckcg_apply, emitAll_apply, SetInsertPoint_apply, addIncoming_apply, append_append, withPoint_withPoint, withPoint_append, withPoint_withBlock, withPoint_withIncoming, withBlock_append, withBlock_withIncoming, h3]
  all_goals
    refine translated_append_falls cs n h _ ?_ ?_ ?_
    · simp [wellTerminated, terminators_append, terminators_cons, terminators_nil, getTerminator_append_cons, getTerminator_cons_cons, getTerminator_singleton, Inst.isTerminator]
    · simp only [successors, Inst.targets, List.cons_append, List.nil_append, List.append_nil,
        List.mem_cons, List.mem_singleton, List.not_mem_nil, or_false, forall_eq_or_imp, forall_eq]
      exact ⟨primary_mem_blockTable _ _ (by omega), primary_mem_blockTable _ _ (by omega)⟩
    · simp [successors, Inst.targets]

theorem CompileForloop_ok (cs : CompilerState) (n : Nat) (h : Ready cs n)
    (h0 : 0 ≤ (cs.curr_ : Int) + 1 + GETARG_sBx cs.instr_)
    (hn : (cs.curr_ : Int) + 1 + GETARG_sBx cs.instr_ < n) (hn1 : cs.curr_ + 1 < n) :
    ∃ cs', CompileForloop cs = some ((), cs') ∧ Translated cs cs' n ∧ Falls cs cs' := by
  have h1 := h.table
  have h3 := h.point
  simp [CompileForloop, blockAt_inRange n _ h0 hn, blockAt_one n cs.curr_ hn1, h1, bind_eq, pure_eq, get_apply, modify_apply, emit_apply, GetValueR_apply, SetRegister_apply, CreateCall_apply, CreateBr_apply, CreateCondBr_apply, CreateRet_apply, ToBool_apply, LoadField_apply, SetField_apply, UpdateStack_apply, ReloadTop_apply, SetTop_apply, TopDiff_apply, CompileCheckcg_apply, emitAll_apply, SetInsertPoint_apply, addIncoming_apply, append_append, withPoint_withPoint, withPoint_append, withPoint_withBlock, withPoint_withIncoming, withBlock_append, withBlock_withIncoming, h3]
  all_goals
    refine translated_append_falls cs n h _ ?_ ?_ ?_
    · simp [wellTerminated, terminators_append, terminators_cons, terminators_nil, getTerminator_append_cons, getTerminator_cons_cons, getTerminator_singleton, Inst.isTerminator]
    · simp only [successors, Inst.targets, List.cons_append, List.nil_append, List.append_nil,
        List.mem_cons, List.mem_singleton, List.not_mem_nil, or_false, forall_eq_or_imp, forall_eq]
      exact ⟨primary_mem_blockTable _ _ (by omega), primary_mem_blockTable _ _ (by omega)⟩
    · simp [successors, Inst.targets]

theorem CompileTestset_ok (cs : CompilerState) (n : Nat) (h : Ready cs n)
    (hn : cs.curr_ + 2 < n) :
    ∃ cs', CompileTestset cs = some ((), cs') ∧ Translated cs cs' n ∧ Falls cs cs' := by
  have ⟨h1, h2, h3, h4, h5, h6, h7⟩ := h
  have hs := subCount_of_fresh _ _ h5
  simp [CompileTestset, phiAdd,
    bind_eq, pure_eq, get_apply, modify_apply, emit_apply, GetValueR_apply, SetRegister_apply, CreateCall_apply, CreateBr_apply, CreateCondBr_apply, CreateRet_apply, ToBool_apply, LoadField_apply, SetField_apply, UpdateStack_apply, ReloadTop_apply, SetTop_apply, TopDiff_apply, CompileCheckcg_apply, emitAll_apply, SetInsertPoint_apply, addIncoming_apply, append_append, withPoint_withPoint, withPoint_append, withPoint_withBlock, withPoint_withIncoming, withBlock_append, withBlock_withIncoming, CreateSubBlock_apply n, subCount_insertAfter, hs, h1, h2, h3, h6,
    blockAt_two n cs.curr_ hn, blockAt_one n cs.curr_ (by omega), append_withIncoming]
  refine ⟨translated_intro cs _ n 1 h (by simp) (by simp) (by simp) ?_ ?_ ?_ ?_ ?_ ?_ ?_, ?_⟩
  · intro b
    simp only [withPoint_layout, withBlock_layout, append_layout, mem_insertAfter]
    constructor
    · rintro (rfl|hb)
      · exact Or.inr ⟨_, by norm_num, rfl⟩
      · exact Or.inl hb
    · rintro (hb|⟨j, hj, rfl⟩)
      · simp [hb]
      · interval_cases j
        simp
  · intro b hb1 hb2
    simp [Function.update_apply, hb1, hb2]
  · intro j hj
    interval_cases j
    simp [wellTerminated, terminators_append, terminators_cons, terminators_nil, getTerminator_append_cons, getTerminator_cons_cons, getTerminator_singleton, Inst.isTerminator, h6]
  · intro j hj
    have e0 : j ≠ 0 := by omega
    simp [Function.update_apply, e0, h6]
  · left
    simp [wellTerminated, terminators_append, terminators_cons, terminators_nil, getTerminator_append_cons, getTerminator_cons_cons, getTerminator_singleton, Inst.isTerminator, h4]
  · simp only [withPoint_insts, withBlock_insts, append_insts, Function.update_apply]
    simp [successors_append, successors_of_open _ h4, successors, Inst.targets, mem_blockTable]
    omega
  · intro j hj
    interval_cases j
    simp [successors, Inst.targets, h6, mem_blockTable]
    omega
  · refine Or.inr ⟨.sub cs.curr_ 0, by simp [ownedBy], ?_, ?_⟩
    · simp [mem_insertAfter, h7]
    · simp [successors_append, successors, Inst.targets, h6]

theorem CompileTforloop_ok (cs : CompilerState) (n : Nat) (h : Ready cs n)
    (h0 : 0 ≤ (cs.curr_ : Int) + 1 + GETARG_sBx cs.instr_)
    (hn : (cs.curr_ : Int) + 1 + GETARG_sBx cs.instr_ < n) (hn1 : cs.curr_ + 1 < n) :
    ∃ cs', CompileTforloop cs = some ((), cs') ∧ Translated cs cs' n ∧ Falls cs cs' := by
  have ⟨h1, h2, h3, h4, h5, h6, h7⟩ := h
  have hs := subCount_of_fresh _ _ h5
  simp [CompileTforloop, phiAdd,
    bind_eq, pure_eq, get_apply, modify_apply, emit_apply, GetValueR_apply, SetRegister_apply, CreateCall_apply, CreateBr_apply, CreateCondBr_apply, CreateRet_apply, ToBool_apply, LoadField_apply, SetField_apply, UpdateStack_apply, ReloadTop_apply, SetTop_apply, TopDiff_apply, CompileCheckcg_apply, emitAll_apply, SetInsertPoint_apply, addIncoming_apply, append_append, withPoint_withPoint, withPoint_append, withPoint_withBlock, withPoint_withIncoming, withBlock_append, withBlock_withIncoming, CreateSubBlock_apply n, subCount_insertAfter, hs, h1, h2, h3, h6,
    blockAt_inRange n _ h0 hn, blockAt_one n cs.curr_ hn1, append_withIncoming]
  refine ⟨translated_intro cs _ n 1 h (by simp) (by simp) (by simp) ?_ ?_ ?_ ?_ ?_ ?_ ?_, ?_⟩
  · intro b
    simp only [withPoint_layout, withBlock_layout, append_layout, mem_insertAfter]
    constructor
    · rintro (rfl|hb)
      · exact Or.inr ⟨_, by norm_num, rfl⟩
      · exact Or.inl hb
    · rintro (hb|⟨j, hj, rfl⟩)
      · simp [hb]
      · interval_cases j
        simp
  · intro b hb1 hb2
    simp [Function.update_apply, hb1, hb2]
  · intro j hj
    interval_cases j
    simp [wellTerminated, terminators_append, terminators_cons, terminators_nil, getTerminator_append_cons, getTerminator_cons_cons, getTerminator_singleton, Inst.isTerminator, h6]
  · intro j hj
    have e0 : j ≠ 0 := by omega
    simp [Function.update_apply, e0, h6]
  · left
    simp [wellTerminated, terminators_append, terminators_cons, terminators_nil, getTerminator_append_cons, getTerminator_cons_cons, getTerminator_singleton, Inst.isTerminator, h4]
  · simp only [withPoint_insts, withBlock_insts, append_insts, Function.update_apply]
    simp [successors_append, successors_of_open _ h4, successors, Inst.targets, mem_blockTable]
    omega
  · intro j hj
    interval_cases j
    simp [successors, Inst.targets, h6, mem_blockTable]
    omega
  · refine Or.inr ⟨.primary cs.curr_, by simp [ownedBy], ?_, ?_⟩
    · simp [mem_insertAfter, h7]
    · simp [successors_append, successors, Inst.targets, h6]

theorem Vararg_Compile_eq (cs : CompilerState) (n : Nat) (h : Ready cs n)
    (he : cs.insts (.primary cs.curr_) = []) (hn : cs.curr_ + 1 < n) :
    Vararg.Compile cs = some ((), Vararg.result cs) := by
  have ⟨h1, h2, h3, h4, h5, h6, h7⟩ := h
  have hs := subCount_of_fresh _ _ h5
  by_cases hb : GETARG_B cs.instr_ = 0
  ·
    simp [Vararg.Compile, Vararg.ComputeAvailableArgs, Vararg.ComputeRequiredArgs, Vararg.ComputeNMoves,
      Vararg.MoveAvailable, Vararg.FillRequired, Vararg.GetRegisterFromA, phiAdd,
      bind_eq, pure_eq, get_apply, modify_apply, emit_apply, GetValueR_apply, SetRegister_apply, CreateCall_apply, CreateBr_apply, CreateCondBr_apply, CreateRet_apply, ToBool_apply, LoadField_apply, SetField_apply, UpdateStack_apply, ReloadTop_apply, SetTop_apply, TopDiff_apply, CompileCheckcg_apply, emitAll_apply, SetInsertPoint_apply, addIncoming_apply, append_append, withPoint_withPoint, withPoint_append, withPoint_withBlock, withPoint_withIncoming, withBlock_append, withBlock_withIncoming, CreateSubBlock_apply n, subCount_insertAfter, hs, h1, h2, h3, h6, he,
      blockAt_one n cs.curr_ hn, append_withIncoming, hb,
      Vararg.result, Vararg.entryCode, Vararg.subCode, Vararg.availableCode, Vararg.openCode,
      Vararg.required, Vararg.available, Vararg.nmoves, MakeInt]
  ·
    simp [Vararg.Compile, Vararg.ComputeAvailableArgs, Vararg.ComputeRequiredArgs, Vararg.ComputeNMoves,
      Vararg.MoveAvailable, Vararg.FillRequired, Vararg.GetRegisterFromA, phiAdd,
      bind_eq, pure_eq, get_apply, modify_apply, emit_apply, GetValueR_apply, SetRegister_apply, CreateCall_apply, CreateBr_apply, CreateCondBr_apply, CreateRet_apply, ToBool_apply, LoadField_apply, SetField_apply, UpdateStack_apply, ReloadTop_apply, SetTop_apply, TopDiff_apply, CompileCheckcg_apply, emitAll_apply, SetInsertPoint_apply, addIncoming_apply, append_append, withPoint_withPoint, withPoint_append, withPoint_withBlock, withPoint_withIncoming, withBlock_append, withBlock_withIncoming, CreateSubBlock_apply n, subCount_insertAfter, hs, h1, h2, h3, h6, he,
      blockAt_one n cs.curr_ hn, append_withIncoming, hb,
      Vararg.result, Vararg.entryCode, Vararg.subCode, Vararg.availableCode, Vararg.openCode,
      Vararg.required, Vararg.available, Vararg.nmoves, MakeInt]

theorem Vararg.entryCode_wellTerminated (st : Values) (numparams a b c : Nat) :
    wellTerminated (Vararg.entryCode st numparams a b c) = true := by
  by_cases hb : b = 0 <;>
    simp [Vararg.entryCode, Vararg.availableCode, Vararg.openCode, hb, wellTerminated, terminators_append, terminators_cons, terminators_nil, getTerminator_append_cons, getTerminator_cons_cons, getTerminator_singleton, Inst.isTerminator]

theorem Vararg.entryCode_successors (st : Values) (numparams a b c : Nat) :
    successors (Vararg.entryCode st numparams a b c) = [.sub c 0, .sub c 1] := by
  by_cases hb : b = 0 <;>
    simp [Vararg.entryCode, Vararg.availableCode, Vararg.openCode, hb, successors,
      Inst.targets]

theorem Vararg_result_ok (cs : CompilerState) (n : Nat) (h : Ready cs n)
    (he : cs.insts (.primary cs.curr_) = []) (hn : cs.curr_ + 1 < n) :
    Translated cs (Vararg.result cs) n ∧ Falls cs (Vararg.result cs) := by
  have ⟨h1, h2, h3, h4, h5, h6, h7⟩ := h
  have hw := Vararg.entryCode_wellTerminated cs.values_ cs.proto_.numparams
    (GETARG_A cs.instr_) (GETARG_B cs.instr_) cs.curr_
  have hsucc := Vararg.entryCode_successors cs.values_ cs.proto_.numparams
    (GETARG_A cs.instr_) (GETARG_B cs.instr_) cs.curr_
  simp only [Vararg.result]
  generalize Vararg.entryCode cs.values_ cs.proto_.numparams
    (GETARG_A cs.instr_) (GETARG_B cs.instr_) cs.curr_ = L at hw hsucc ⊢
  refine ⟨translated_intro cs _ n 8 h (by simp) (by simp) (by simp) ?_ ?_ ?_ ?_ ?_ ?_ ?_, ?_⟩
  · intro b
    simp only [withPoint_layout, withBlock_layout, append_layout, mem_insertAfter]
    constructor
    · rintro (rfl|rfl|rfl|rfl|rfl|rfl|rfl|rfl|hb)
      all_goals first
        | exact Or.inl hb
        | exact Or.inr ⟨_, by norm_num, rfl⟩
    · rintro (hb|⟨j, hj, rfl⟩)
      · simp [hb]
      · interval_cases j <;> simp
  · intro b hb1 hb2
    simp [Function.update_apply, hb1, hb2]
  · intro j hj
    interval_cases j <;>
      simp [Vararg.subCode, wellTerminated, terminators_append, terminators_cons, terminators_nil, getTerminator_append_cons, getTerminator_cons_cons, getTerminator_singleton, Inst.isTerminator, h6]
  · intro j hj
    have e0 : j ≠ 0 := by omega
    have e1 : j ≠ 1 := by omega
    have e2 : j ≠ 2 := by omega
    have e3 : j ≠ 3 := by omega
    have e4 : j ≠ 4 := by omega
    have e5 : j ≠ 5 := by omega
    have e6 : j ≠ 6 := by omega
    have e7 : j ≠ 7 := by omega
    simp [Function.update_apply, e0, e1, e2, e3, e4, e5, e6, e7, h6]
  · left
    simp [he, hw]
  · simp [he, hsucc]
  · intro j hj
    interval_cases j <;>
      simp [Vararg.subCode, successors, Inst.targets, h6, mem_blockTable, hn]
  · refine Or.inr ⟨.sub cs.curr_ 6, by simp [ownedBy], ?_, ?_⟩
    · simp [mem_insertAfter]
    · simp [Vararg.subCode, successors, Inst.targets, h6]

theorem Vararg_Compile_ok (cs : CompilerState) (n : Nat) (h : Ready cs n)
    (he : cs.insts (.primary cs.curr_) = []) (hn : cs.curr_ + 1 < n) :
    ∃ cs', Vararg.Compile cs = some ((), cs') ∧ Translated cs cs' n ∧
      Falls cs cs' :=
  ⟨_, Vararg_Compile_eq cs n h he hn, Vararg_result_ok cs n h he hn⟩

theorem falls_outcome {m : Build Unit} {cs : CompilerState} {n : Nat}
    (hx : ∃ cs', m cs = some ((), cs') ∧ Translated cs cs' n ∧ Falls cs cs')
    (hn : cs.curr_ + 1 < n) :
    ∃ cs', m cs = some ((), cs') ∧ Outcome false cs cs' n := by
  obtain ⟨cs', e, ht, hf⟩ := hx
  exact ⟨cs', e, ht, hf, hn⟩

theorem append_nil (cs : CompilerState) (b : BlockId) : cs.append b [] = cs := by
  cases cs
  simp [CompilerState.append]

theorem pure_ok (cs : CompilerState) (n : Nat) (h : Ready cs n) :
    ∃ cs', (pure () : Build Unit) cs = some ((), cs') ∧ Translated cs cs' n ∧
      Falls cs cs' := by
  refine ⟨cs, rfl, ?_⟩
  have := translated_append_open cs n h [] rfl
  rwa [append_nil] at this

theorem ready_append (cs : CompilerState) (n : Nat) (h : Ready cs n)
    (l : List Inst) (hl : terminators l = []) :
    Ready (cs.append (.primary cs.curr_) l) n := by
  obtain ⟨h1, h2, h3, h4, h5, h6, h7⟩ := h
  refine ⟨by simpa using h1, by simpa using h2, by simpa using h3, ?_,
    by simpa using h5, ?_, by simpa using h7⟩
  · simp [terminators_append, h4, hl]
  · intro j
    simp [h6]

theorem translated_of_append (cs cs' : CompilerState) (n : Nat) (l : List Inst)
    (h : Translated (cs.append (.primary cs.curr_) l) cs' n) :
    Translated cs cs' n := by
  obtain ⟨a1, a2, a3, a4, a5, a6, a7, a8, a9, a10⟩ := h
  refine ⟨by simpa using a1, by simpa using a2, by simpa using a3,
    by simpa using a4, by simpa using a5, ?_, by simpa using a7,
    by simpa using a8, by simpa using a9, by simpa using a10⟩
  intro b hb
  have hne : b ≠ .primary cs.curr_ := ((ownedBy_false_iff _ _).1 hb).1
  have := a6 b (by simpa using hb)
  simpa [Function.update_apply, hne] using this

theorem CompileSelf_ok (T : Translators) (hT : T.Respectful)
    (cs : CompilerState) (n : Nat) (h : Ready cs n) (hn : cs.curr_ + 1 < n) :
    ∃ cs', CompileSelf T cs = some ((), cs') ∧ Translated cs cs' n ∧
      Falls cs cs' := by
  have h3 := h.point
  have hr := ready_append cs n h
    [.setValue (.register (GETARG_A cs.instr_ + 1))
      (.register (GETARG_B cs.instr_))] (by simp [terminators_cons, terminators_nil, Inst.isTerminator])
  obtain ⟨cs', e, ht, hf⟩ := (hT _ n hr (by simpa using hn)).2.2.1
    (.register (GETARG_B cs.instr_)) (.byArg (GETARG_C cs.instr_))
    (.register (GETARG_A cs.instr_))
  refine ⟨cs', ?_, translated_of_append cs cs' n _ ht, ?_⟩
  · simp only [CompileSelf, bind_eq, get_apply, emit_apply, h3]
    exact e
  · simpa [Falls] using hf

theorem CompileLoadnil_ok (cs : CompilerState) (n : Nat) (h : Ready cs n) :
    ∃ cs', CompileLoadnil cs = some ((), cs') ∧ Translated cs cs' n ∧
      Falls cs cs' := by
  have h3 := h.point
  refine ⟨_, ?_, translated_append_open cs n h
    ((List.range (GETARG_B cs.instr_ + 1)).map
      (fun k => Inst.setTag (.register (GETARG_A cs.instr_ + k)) LUA_TNIL)) ?_⟩
  · simp only [CompileLoadnil, bind_eq, get_apply, emitAll_apply, h3]
  · apply terminators_eq_nil
    intro a ha
    obtain ⟨k, _, rfl⟩ := List.mem_map.1 ha
    rfl

/-- Every handler of the `switch`, under the contract of the absent
translators, translates its instruction locally. -/
theorem dispatch_ok (T : Translators) (hT : T.Respectful) (cs : CompilerState)
    (n : Nat) (h : Ready cs n) (he : cs.insts (.primary cs.curr_) = [])
    (hlen : cs.proto_.code.length = n) (op : Option OpCode)
    (hneeds : Needs cs.curr_ cs.instr_ n op) :
    ∃ cs', dispatch T op cs = some ((), cs') ∧
      Outcome (endsFlow cs.instr_ op) cs cs' n := by
  cases op with
  | none => exact falls_outcome (pure_ok cs n h) hneeds
  | some o =>
    cases o with
    | OP_MOVE => exact falls_outcome (CompileMove_ok cs n h) hneeds
    | OP_LOADK => exact falls_outcome (CompileLoadk_false_ok cs n h) hneeds
    | OP_LOADKX => exact falls_outcome (CompileLoadk_true_ok cs n h (by rw [hlen]; exact hneeds)) hneeds
    | OP_LOADBOOL =>
      by_cases hc : GETARG_C cs.instr_ = 0
      · have hn1 : cs.curr_ + 1 < n := by simpa [Needs, hc] using hneeds
        have he' : endsFlow cs.instr_ (some OP_LOADBOOL) = false := by
          simp [endsFlow, hc]
        rw [he']
        exact falls_outcome (CompileLoadbool_ok cs n h hc) hn1
      · have hn2 : cs.curr_ + 2 < n := by simpa [Needs, hc] using hneeds
        have he' : endsFlow cs.instr_ (some OP_LOADBOOL) = true := by
          simp [endsFlow, hc]
        rw [he']
        exact CompileLoadbool_skip_ok cs n h hc hn2
    | OP_LOADNIL => exact falls_outcome (CompileLoadnil_ok cs n h) hneeds
    | OP_GETUPVAL => exact falls_outcome (CompileGetupval_ok cs n h) hneeds
    | OP_GETTABUP => exact falls_outcome ((hT cs n h hneeds).2.2.1 _ _ _) hneeds
    | OP_GETTABLE => exact falls_outcome ((hT cs n h hneeds).2.2.1 _ _ _) hneeds
    | OP_SETTABUP => exact falls_outcome ((hT cs n h hneeds).2.2.2 _ _ _) hneeds
    | OP_SETUPVAL => exact falls_outcome (CompileSetupval_ok cs n h) hneeds
    | OP_SETTABLE => exact falls_outcome ((hT cs n h hneeds).2.2.2 _ _ _) hneeds
    | OP_NEWTABLE => exact falls_outcome (CompileNewtable_ok cs n h) hneeds
    | OP_SELF => exact falls_outcome (CompileSelf_ok T hT cs n h hneeds) hneeds
    | OP_ADD => exact falls_outcome ((hT cs n h hneeds).1) hneeds
    | OP_SUB => exact falls_outcome ((hT cs n h hneeds).1) hneeds
    | OP_MUL => exact falls_outcome ((hT cs n h hneeds).1) hneeds
    | OP_MOD => exact falls_outcome ((hT cs n h hneeds).1) hneeds
    | OP_POW => exact falls_outcome ((hT cs n h hneeds).1) hneeds
    | OP_DIV => exact falls_outcome ((hT cs n h hneeds).1) hneeds
    | OP_IDIV => exact falls_outcome ((hT cs n h hneeds).1) hneeds
    | OP_BAND => exact falls_outcome ((hT cs n h hneeds).2.1) hneeds
    | OP_BOR => exact falls_outcome ((hT cs n h hneeds).2.1) hneeds
    | OP_BXOR => exact falls_outcome ((hT cs n h hneeds).2.1) hneeds
    | OP_SHL => exact falls_outcome ((hT cs n h hneeds).2.1) hneeds
    | OP_SHR => exact falls_outcome ((hT cs n h hneeds).2.1) hneeds
    | OP_UNM => exact falls_outcome (CompileUnop_ok cs n h _) hneeds
    | OP_BNOT => exact falls_outcome (CompileUnop_ok cs n h _) hneeds
    | OP_NOT => exact falls_outcome (CompileUnop_ok cs n h _) hneeds
    | OP_LEN => exact falls_outcome (CompileUnop_ok cs n h _) hneeds
    | OP_CONCAT => exact falls_outcome (CompileConcat_ok cs n h) hneeds
    | OP_JMP => exact CompileJmp_ok cs n h hneeds.1 hneeds.2
    | OP_EQ => exact falls_outcome (CompileCmp_ok cs n h _ hneeds) (by have := hneeds; simp only [Needs] at this; omega)
    | OP_LT => exact falls_outcome (CompileCmp_ok cs n h _ hneeds) (by have := hneeds; simp only [Needs] at this; omega)
    | OP_LE => exact falls_outcome (CompileCmp_ok cs n h _ hneeds) (by have := hneeds; simp only [Needs] at this; omega)
    | OP_TEST => exact falls_outcome (CompileTest_ok cs n h hneeds) (by have := hneeds; simp only [Needs] at this; omega)
    | OP_TESTSET => exact falls_outcome (CompileTestset_ok cs n h hneeds) (by have := hneeds; simp only [Needs] at this; omega)
    | OP_CALL => exact falls_outcome (CompileCall_ok cs n h) hneeds
    | OP_TAILCALL => exact CompileTailcall_ok cs n h
    | OP_RETURN => exact CompileReturn_ok cs n h
    | OP_FORLOOP => exact falls_outcome (CompileForloop_ok cs n h hneeds.1.1 hneeds.1.2 hneeds.2) hneeds.2
    | OP_FORPREP => exact CompileForprep_ok cs n h hneeds.1 hneeds.2
    | OP_TFORCALL => exact falls_outcome (CompileTforcall_ok cs n h) hneeds
    | OP_TFORLOOP => exact falls_outcome (CompileTforloop_ok cs n h hneeds.1.1 hneeds.1.2 hneeds.2) hneeds.2
    | OP_SETLIST => exact falls_outcome (CompileSetlist_ok cs n h (by rw [hlen]; exact hneeds)) hneeds
    | OP_CLOSURE => exact falls_outcome (CompileClosure_ok cs n h) hneeds
    | OP_VARARG => exact falls_outcome (Vararg_Compile_ok cs n h he hneeds) hneeds
    | OP_EXTRAARG => exact falls_outcome (pure_ok cs n h) hneeds

theorem wellTerminated_getTerminator (l : List Inst)
    (h : wellTerminated l = true) : (getTerminator l).isSome = true := by
  simp only [wellTerminated, Bool.and_eq_true] at h
  exact h.2

theorem wellTerminated_not_open (l : List Inst) (h : wellTerminated l = true) :
    terminators l ≠ [] := by
  intro h0
  simp [wellTerminated, h0] at h

theorem fallThrough_closed (cs : CompilerState) (n : Nat)
    (hb : cs.blocks_ = blockTable n) (hc : cs.curr_ < n)
    (ht : (getTerminator (cs.insts (.primary cs.curr_))).isSome = true) :
    fallThrough cs = some ((), cs) := by
  have hne : getTerminator (cs.insts (.primary cs.curr_)) ≠ none := by
    intro h0
    simp [h0] at ht
  simp [fallThrough, bind_eq, get_apply, pure_eq, blockAt_curr n cs.curr_ hc cs hb, hne]

theorem fallThrough_open (cs : CompilerState) (n : Nat)
    (hb : cs.blocks_ = blockTable n)
    (ht : getTerminator (cs.insts (.primary cs.curr_)) = none)
    (hn : cs.curr_ + 1 < n) :
    fallThrough cs =
      some ((), cs.append cs.insertPoint [.br (.primary (cs.curr_ + 1))]) := by
  simp [fallThrough, bind_eq, get_apply, blockAt_curr n cs.curr_ (by omega) cs hb,
    blockAt_one n cs.curr_ hn cs hb, ht, CreateBr_apply]

theorem translated_close (cs cs' : CompilerState) (n : Nat)
    (ht : Translated cs cs' n)
    (hopen : terminators (cs'.insts (.primary cs.curr_)) = [])
    (hn : cs.curr_ + 1 < n) :
    Translated cs (cs'.append (.primary cs.curr_)
      [.br (.primary (cs.curr_ + 1))]) n := by
  obtain ⟨a1, a2, a3, a4, a5, a6, a7, a8, a9, a10⟩ := ht
  refine ⟨by simpa using a1, by simpa using a2, by simpa using a3,
    by simpa using a4, by simpa using a5, ?_, ?_, ?_, ?_, ?_⟩
  · intro b hb
    have hne : b ≠ .primary cs.curr_ := ((ownedBy_false_iff _ _).1 hb).1
    simpa [Function.update_apply, hne] using a6 b hb
  · intro j hj
    simpa [Function.update_apply] using a7 j (by simpa using hj)
  · intro j hj
    simpa [Function.update_apply] using a8 j (by simpa using hj)
  · left
    simpa using wellTerminated_append _ [.br (.primary (cs.curr_ + 1))] hopen
      (by simp [wellTerminated, terminators_cons, terminators_nil,
        getTerminator_singleton, Inst.isTerminator])
  · intro b hb s hs
    by_cases hbp : b = .primary cs.curr_
    · subst hbp
      simp only [append_insts, Function.update_same, successors_append,
        successors_of_open _ hopen, List.nil_append, successors, Inst.targets,
        List.append_nil, List.mem_singleton] at hs
      subst hs
      exact Or.inl (primary_mem_blockTable _ _ hn)
    · have := a10 b hb s (by simpa [Function.update_apply, hbp] using hs)
      simpa using this

/-- After the handler, the driver's fall-through leaves the primary block with
exactly one terminator at its end. -/
theorem fallThrough_ok (cs cs' : CompilerState) (n : Nat) (ends : Bool)
    (h : Ready cs n) (ho : Outcome ends cs cs' n) :
    ∃ cs'', fallThrough cs' = some ((), cs'') ∧ Translated cs cs'' n ∧
      wellTerminated (cs''.insts (.primary cs.curr_)) = true ∧
      (ends = false → Reaches cs.curr_ cs'') := by
  obtain ⟨ht, hend⟩ := ho
  have hb : cs'.blocks_ = blockTable n := ht.table.trans h.table
  have hc : cs'.curr_ = cs.curr_ := ht.curr
  rcases ht.primary with hw | ⟨hopen, hip⟩
  · refine ⟨cs', ?_, ht, hw, ?_⟩
    · apply fallThrough_closed cs' n hb (by rw [hc]; exact h.inRange)
      rw [hc]
      exact wellTerminated_getTerminator _ hw
    · intro he
      subst he
      rcases hend.1 with hopen | hr
      · exact absurd hopen (wellTerminated_not_open _ hw)
      · exact hr
  · have hn : cs.curr_ + 1 < n := by
      cases ends with
      | true => exact absurd hopen (wellTerminated_not_open _ hend)
      | false => exact hend.2
    refine ⟨cs'.append (.primary cs.curr_) [.br (.primary (cs.curr_ + 1))], ?_,
      translated_close cs cs' n ht hopen hn, ?_, ?_⟩
    · have := fallThrough_open cs' n hb
        (by rw [hc]; exact getTerminator_of_open _ hopen) (by rw [hc]; exact hn)
      rw [this, hip, hc]
    · simpa using wellTerminated_append _ [.br (.primary (cs.curr_ + 1))] hopen
        (by simp [wellTerminated, terminators_cons, terminators_nil,
          getTerminator_singleton, Inst.isTerminator])
    · intro _
      refine ⟨.primary cs.curr_, by simp [ownedBy], ?_, ?_⟩
      · simpa using ht.keeps _ h.present
      · simp [successors_append, successors, Inst.targets]

theorem ownedBy_other (i k : Nat) (b : BlockId) (h : ownedBy i b = true)
    (hik : i ≠ k) : ownedBy k b = false := by
  cases b <;> simp_all [ownedBy]

theorem compileOne_ok (T : Translators) (hT : T.Respectful) (p : Proto)
    (cs : CompilerState) (hinv : DriverInv p cs) (hk : cs.curr_ < p.sizecode)
    (hneeds : p.Translatable) :
    ∃ cs', compileOne T cs = some ((), cs') ∧ cs'.curr_ = cs.curr_ ∧
      DriverInv p (cs'.withCurr (cs.curr_ + 1)) := by
  obtain ⟨i1, i2, i3, i4, ib, i5, i6, i7, i8, i9, i10, i11⟩ := hinv
  have hlen : cs.proto_.code.length = p.sizecode := by rw [i1]; rfl
  have hcode : cs.proto_.code[cs.curr_]? = some (p.instrAt cs.curr_) := by
    rw [i1]
    simp [Proto.instrAt, List.getD_eq_getElem?_getD, List.getElem?_eq_getElem hk]
  have hready : Ready ((cs.withPoint (.primary cs.curr_)).withInstr
      (p.instrAt cs.curr_)) p.sizecode := by
    refine ⟨by simpa using i2, by simpa using hk, by simp, ?_, ?_, ?_,
      by simpa using i5 _ hk⟩
    · simp [(i7 cs.curr_ (le_refl _)).1, terminators_nil]
    · intro j hj
      rcases i6 _ (by simpa using hj) with h | ⟨i, _, h⟩ | ⟨i, j', hi, h⟩
      · cases h
      · cases h
      · simp only [withInstr_curr_, withPoint_curr_, BlockId.sub.injEq] at h
        omega
    · intro j
      simpa using (i7 cs.curr_ (le_refl _)).2 j
  obtain ⟨cs2, e2, ho⟩ := dispatch_ok T hT _ p.sizecode hready
    (by simpa using (i7 cs.curr_ (le_refl _)).1) (by simpa using hlen)
    (GET_OPCODE (p.instrAt cs.curr_)) (by simpa using hneeds cs.curr_ hk)
  obtain ⟨cs3, e3, ht, hw, hr⟩ := fallThrough_ok _ cs2 p.sizecode _ hready ho
  simp only [withInstr_curr_, withPoint_curr_, withInstr_instr_] at hw hr
  refine ⟨cs3, ?_, by simpa using ht.curr, ?_⟩
  · simp only [compileOne, bind_eq, get_apply, blockAt_curr p.sizecode cs.curr_ hk cs i2,
      SetInsertPoint_apply, codeAt, withPoint_proto_, hcode, Option.map_some',
      modify_apply, e2, e3]
  · obtain ⟨a1, a2, a3, a4, a5, a6, a7, a8, a9, a10⟩ := ht
    simp only [withInstr_curr_, withPoint_curr_, withInstr_layout, withPoint_layout,
      withInstr_insts, withPoint_insts, withInstr_proto_, withPoint_proto_,
      withInstr_blocks_, withPoint_blocks_] at a1 a2 a3 a4 a5 a6 a7 a8 a9 a10
    refine ⟨by simpa [i1] using a1, by simpa [i2] using a2, by simpa using hk,
      by simpa using a4 _ i4, ?_, ?_, ?_, ?_, ?_, ?_, ?_, ?_⟩
    · have := a6 .entry (by simp [ownedBy])
      simpa [this] using ib
    · intro i hi
      simpa using a4 _ (i5 i hi)
    · intro b hb
      rcases a5 b (by simpa using hb) with hb' | ⟨j, rfl⟩
      · rcases i6 b hb' with h | h | ⟨i, j, hi, h⟩
        · exact Or.inl h
        · exact Or.inr (Or.inl h)
        · exact Or.inr (Or.inr ⟨i, j, by simp; omega, h⟩)
      · exact Or.inr (Or.inr ⟨cs.curr_, j, by simp, rfl⟩)
    · intro i hi
      have hi' : cs.curr_ < i := by simpa using hi
      refine ⟨?_, fun j => ?_⟩
      · have := a6 (.primary i) (by simp [ownedBy]; omega)
        simpa [this] using (i7 i (by omega)).1
      · have := a6 (.sub i j) (by simp [ownedBy]; omega)
        simpa [this] using (i7 i (by omega)).2 j
    · intro b hb hcond
      have hb' : b ∈ cs3.layout := by simpa using hb
      by_cases hown : ownedBy cs.curr_ b = true
      · cases b with
        | entry => simp [ownedBy] at hown
        | primary k =>
          have hk' : k = cs.curr_ := by simpa [ownedBy] using hown
          subst hk'
          simpa using hw
        | sub k j =>
          have hk' : k = cs.curr_ := by simpa [ownedBy] using hown
          subst hk'
          simpa using a7 j hb'
      · simp only [Bool.not_eq_true] at hown
        have hfr := a6 b hown
        have hold : b ∈ cs.layout := by
          rcases a5 b hb' with h | ⟨j, rfl⟩
          · exact h
          · simp [ownedBy] at hown
        have := i8 b hold (by
          intro i hbi
          have h1 := hcond i hbi
          have h2 : i ≠ cs.curr_ := by
            rintro rfl
            subst hbi
            simp [ownedBy] at hown
          simp only [withCurr_curr_] at h1
          omega)
        simpa [hfr] using this
    · intro i hi hends
      have hi' : i < cs.curr_ + 1 := by simpa using hi
      by_cases hik : i = cs.curr_
      · subst hik
        obtain ⟨b, hb1, hb2, hb3⟩ := hr hends
        exact ⟨b, hb1, by simpa using hb2, by simpa using hb3⟩
      · obtain ⟨b, hb1, hb2, hb3⟩ := i9 i (by omega) hends
        have hfr := a6 b (ownedBy_other i cs.curr_ b hb1 hik)
        exact ⟨b, hb1, by simpa using a4 b hb2, by simpa [hfr] using hb3⟩
    · have := a6 .entry (by simp [ownedBy])
      simpa [this] using i10
    · intro b hb s hs
      have hb' : b ∈ cs3.layout := by simpa using hb
      have hs' : s ∈ successors (cs3.insts b) := by simpa using hs
      by_cases hown : ownedBy cs.curr_ b = true
      · rcases a10 b hown s hs' with h | ⟨_, j, rfl⟩
        · exact Or.inl h
        · exact Or.inr ⟨cs.curr_, j, rfl, hown⟩
      · simp only [Bool.not_eq_true] at hown
        have hfr := a6 b hown
        have hold : b ∈ cs.layout := by
          rcases a5 b hb' with h | ⟨j, rfl⟩
          · exact h
          · simp [ownedBy] at hown
        exact i11 b hold s (by rw [← hfr]; exact hs')

theorem compileLoop_ok (T : Translators) (hT : T.Respectful) (p : Proto)
    (hneeds : p.Translatable) :
    ∀ (fuel : Nat) (cs : CompilerState), DriverInv p cs →
      cs.curr_ + fuel = p.sizecode →
      ∃ cs', compileLoop T fuel cs = some ((), cs') ∧ DriverInv p cs' ∧
        cs'.curr_ = p.sizecode := by
  intro fuel
  induction fuel with
  | zero =>
    intro cs hinv hk
    refine ⟨cs, ?_, hinv, by simpa using hk⟩
    have : ¬ cs.curr_ < cs.proto_.sizecode := by
      rw [hinv.proto]; omega
    simp [compileLoop, this]
  | succ fuel ih =>
    intro cs hinv hk
    have hlt : cs.curr_ < p.sizecode := by omega
    obtain ⟨cs1, e1, hc1, hinv1⟩ := compileOne_ok T hT p cs hinv hlt hneeds
    obtain ⟨cs2, e2, hinv2, hc2⟩ := ih (cs1.withCurr (cs.curr_ + 1)) hinv1
      (by simp; omega)
    refine ⟨cs2, ?_, hinv2, hc2⟩
    have hlt' : cs.curr_ < cs.proto_.sizecode := by rw [hinv.proto]; exact hlt
    simp only [compileLoop, bind_eq, get_apply, hlt', if_true, e1, modify_apply, hc1]
    exact e2

/-! ## The constructor and the whole translation -/

theorem createBlockLoop_apply (code : List Instruction) :
    ∀ (i : Nat) (cs : CompilerState),
      ∃ cs', createBlockLoop code i cs = some ((), cs') ∧
        cs'.layout = cs.layout ++ (List.range' i code.length).map .primary ∧
        cs'.blocks_ = cs.blocks_ ++ (List.range' i code.length).map .primary ∧
        cs'.insts = cs.insts ∧ cs'.proto_ = cs.proto_ ∧
        cs'.insertPoint = cs.insertPoint ∧ cs'.curr_ = cs.curr_ ∧
        cs'.values_ = cs.values_ := by
  induction code with
  | nil =>
    intro i cs
    exact ⟨cs, rfl, by simp, by simp, rfl, rfl, rfl, rfl, rfl⟩
  | cons instr rest ih =>
    intro i cs
    obtain ⟨cs', e, h1, h2, h3, h4, h5, h6, h7⟩ := ih (i + 1)
      ((cs.pushBlock (BlockId.primary i)
        ("block." ++ toString i ++ "." ++ opname instr)).pushSlot
        (BlockId.primary i))
    refine ⟨cs', ?_, ?_, ?_, by simpa using h3, by simpa using h4,
      by simpa using h5, by simpa using h6, by simpa using h7⟩
    · simp only [createBlockLoop, bind_eq, modify_apply]
      exact e
    · simp [h1, List.range'_succ]
    · simp [h2, List.range'_succ]

theorem init_insts (p : Proto) (b : BlockId) : (CompilerState.init p).insts b = [] :=
  byUnfold rfl

theorem init_values (p : Proto) :
    (CompilerState.init p).values_ = ⟨.null, .null, .null, .null, .null, .null⟩ :=
  byUnfold rfl

theorem init_proto (p : Proto) : (CompilerState.init p).proto_ = p := byUnfold rfl

theorem init_layout (p : Proto) : (CompilerState.init p).layout = [] := byUnfold rfl

theorem init_blocks (p : Proto) : (CompilerState.init p).blocks_ = [] := byUnfold rfl

theorem init_curr (p : Proto) : (CompilerState.init p).curr_ = 0 := byUnfold rfl

theorem withValues_comm_append (cs : CompilerState) (v : Values) (b : BlockId)
    (l : List Inst) :
    (cs.withValues v).append b l = (cs.append b l).withValues v := byUnfold rfl

theorem withValues_comm_pushBlock (cs : CompilerState) (v : Values) (b : BlockId)
    (name : String) :
    (cs.withValues v).pushBlock b name = (cs.pushBlock b name).withValues v :=
  byUnfold rfl

theorem withValues_comm_withPoint (cs : CompilerState) (v : Values) (b : BlockId) :
    (cs.withValues v).withPoint b = (cs.withPoint b).withValues v := byUnfold rfl

theorem withValues_withValues (cs : CompilerState) (v w : Values) :
    (cs.withValues v).withValues w = cs.withValues w := byUnfold rfl

theorem CreateBlocks_init (p : Proto) :
    CreateBlocks (CompilerState.init p) = createTail p.code (skeleton p) := by
  simp only [CreateBlocks, createTail, skeleton, entryCode, entryValues, bind_eq,
    modify_apply, SetInsertPoint_apply, LoadField_apply, emit_apply,
    UpdateStack_apply, get_apply,
    pushBlock_insertPoint, withValues_insertPoint, withPoint_insertPoint,
    append_insertPoint, pushBlock_insts, withValues_insts, withPoint_insts,
    append_insts, pushBlock_values_, withValues_values_, withPoint_values_,
    append_values_, pushBlock_proto_, withValues_proto_, withPoint_proto_,
    append_proto_, Function.update_same, List.length_append, List.length_cons,
    List.length_nil, List.nil_append, init_insts, init_values, init_proto,
    withValues_comm_append, withValues_comm_pushBlock, withValues_comm_withPoint,
    withValues_withValues, append_append, List.cons_append, Nat.zero_add,
    Nat.reduceAdd]

/-- The constructor succeeds on a non-empty program: the entry block holds the
set-up code and the branch to the block of offset 0, the table holds one
block per offset and those blocks are empty. -/
theorem create_eq (p : Proto) (hp : 0 < p.sizecode) :
    ∃ cs, CompilerState.create p = some cs ∧ cs.proto_ = p ∧
      cs.blocks_ = blockTable p.sizecode ∧
      cs.layout = .entry :: blockTable p.sizecode ∧
      cs.insts = Function.update (fun _ => []) .entry
        (entryCode ++ [.br (.primary 0)]) ∧
      cs.values_ = entryValues ∧ cs.curr_ = 0 ∧ cs.insertPoint = .entry := by
  obtain ⟨cs1, e, h1, h2, h3, h4, h5, h6, h7⟩ :=
    createBlockLoop_apply p.code 0 (skeleton p)
  have hb : cs1.blocks_ = blockTable p.sizecode := by
    simpa [skeleton, init_blocks, blockTable, List.range_eq_range', Proto.sizecode]
      using h2
  refine ⟨cs1.append .entry [.br (.primary 0)], ?_, ?_, ?_, ?_, ?_, ?_, ?_, ?_⟩
  · have hpt : cs1.insertPoint = .entry := by simpa [skeleton] using h5
    simp only [CompilerState.create, CreateBlocks_init, createTail, bind_eq, e,
      blockAt_table p.sizecode 0 hp cs1 0 hb rfl, CreateBr_apply, hpt,
      Option.map_some']
  · simpa [skeleton, init_proto] using h4
  · simpa using hb
  · simpa [skeleton, init_layout, blockTable, List.range_eq_range', Proto.sizecode]
      using h1
  · funext b
    by_cases hbe : b = .entry
    · subst hbe
      simp [h3, skeleton, init_insts]
    · simp [h3, skeleton, init_insts, Function.update_apply, hbe]
  · simpa [skeleton] using h7
  · simpa [skeleton, init_curr] using h6
  · simpa [skeleton] using h5

theorem create_inv (p : Proto) (hp : 0 < p.sizecode) :
    ∃ cs, CompilerState.create p = some cs ∧ DriverInv p cs ∧ cs.curr_ = 0 := by
  obtain ⟨cs, e, h1, h2, h3, h4, h5, h6, h7⟩ := create_eq p hp
  refine ⟨cs, e, ⟨h1, h2, by omega, by simp [h3], ?_, ?_, ?_, ?_, ?_, ?_, ?_, ?_⟩, h6⟩
  · simp [h4, successors_append, successors, Inst.targets]
  · intro i hi
    simp [h3, mem_blockTable, hi]
  · intro b hb
    rw [h3, List.mem_cons, mem_blockTable] at hb
    rcases hb with hb | hb
    · exact Or.inl hb
    · exact Or.inr (Or.inl hb)
  · intro i _
    simp [h4]
  · intro b hb hcond
    rw [h3, List.mem_cons, mem_blockTable] at hb
    rcases hb with rfl | ⟨i, _, rfl⟩
    · simp [h4, entryCode, wellTerminated, terminators_cons, terminators_nil,
        getTerminator_cons_cons, getTerminator_singleton, Inst.isTerminator]
    · have := hcond i rfl
      omega
  · intro i hi
    omega
  · simp [h4, successors_append, successors, Inst.targets, entryCode]
  · intro b hb s hs
    rw [h3, List.mem_cons, mem_blockTable] at hb
    rcases hb with rfl | ⟨i, _, rfl⟩
    · simp only [h4, Function.update_same, successors_append, successors, Inst.targets,
        entryCode, List.nil_append, List.append_nil, List.mem_singleton] at hs
      subst hs
      exact Or.inl (primary_mem_blockTable _ _ hp)
    · simp [h4, successors] at hs

theorem driverInv_withCurr (p : Proto) (cs : CompilerState) (h : DriverInv p cs) :
    DriverInv p (cs.withCurr cs.curr_) := by
  obtain ⟨i1, i2, i3, i4, ib, i5, i6, i7, i8, i9, i10, i11⟩ := h
  exact ⟨by simpa using i1, by simpa using i2, by simpa using i3,
    by simpa using i4, by simpa using ib, by simpa using i5, by simpa using i6,
    by simpa using i7, by simpa using i8,
    fun i hi he => by
      obtain ⟨b, hb1, hb2, hb3⟩ := i9 i (by simpa using hi) he
      exact ⟨b, hb1, by simpa using hb2, by simpa using hb3⟩,
    by simpa using i10, by simpa using i11⟩

/-- The driver completes on every translatable program, and its final state
satisfies the invariant with every instruction translated. -/
theorem translate_ok (T : Translators) (hT : T.Respectful) (p : Proto)
    (hp : 0 < p.sizecode) (hneeds : p.Translatable) :
    ∃ cs, translate T p = some cs ∧ DriverInv p cs ∧ cs.curr_ = p.sizecode := by
  obtain ⟨cs0, e0, hinv0, hc0⟩ := create_inv p hp
  have hinv0' : DriverInv p (cs0.withCurr 0) := by
    have := driverInv_withCurr p cs0 hinv0
    rwa [hc0] at this
  obtain ⟨cs1, e1, hinv1, hc1⟩ := compileLoop_ok T hT p hneeds p.sizecode
    (cs0.withCurr 0) hinv0' (by simp)
  refine ⟨cs1, ?_, hinv1, hc1⟩
  have hproto : cs0.proto_ = p := hinv0.proto
  simp only [translate, e0, CompileInstructions, bind_eq, modify_apply, get_apply,
    withCurr_proto_, hproto, e1, pure_eq, Option.map_some']

theorem translatable_of (p : Proto) (hl : lastTerminates p = true)
    (hr : targetsInRange p = true) : p.Translatable := by
  intro i hi
  have hbt : ∀ t ∈ branchTargets i (p.instrAt i), 0 ≤ t ∧ t < p.sizecode := by
    intro t ht
    simp only [targetsInRange, List.all_eq_true, List.mem_range, Bool.and_eq_true,
      decide_eq_true_eq] at hr
    exact hr i hi t ht
  have hlast : i + 1 < p.sizecode ∨
      (GET_OPCODE (p.instrAt i) = some OP_RETURN ∨
        GET_OPCODE (p.instrAt i) = some OP_TAILCALL ∨
        GET_OPCODE (p.instrAt i) = some OP_JMP) := by
    by_cases h : i + 1 < p.sizecode
    · exact Or.inl h
    · have hi' : i = p.sizecode - 1 := by omega
      simp only [lastTerminates, Bool.and_eq_true, Bool.or_eq_true,
        decide_eq_true_eq] at hl
      rw [hi']
      right
      rcases hl.2 with (h1 | h1) | h1
      · exact Or.inl h1
      · exact Or.inr (Or.inl h1)
      · exact Or.inr (Or.inr h1)
  revert hbt hlast
  generalize p.instrAt i = instr
  intro hbt hlast
  rcases hop : GET_OPCODE instr with _ | o
  · simpa [Needs, hop] using hlast
  · cases o <;>
      simp only [Needs, branchTargets, hop, List.mem_cons, List.mem_singleton,
        List.not_mem_nil, or_false, forall_eq_or_imp, forall_eq, reduceCtorEq,
        Option.some.injEq, false_or, or_self, or_false, IsEmpty.forall_iff,
        implies_true, and_true, or_true] at hbt hlast ⊢ <;>
      first
        | exact trivial
        | exact hlast
        | omega
        | (split at hbt <;> simp_all; omega)

/-! ## Claims about the control-flow graph -/

theorem silent_respectful : Translators.silent.Respectful := by
  intro cs n h _
  exact ⟨pure_ok cs n h, pure_ok cs n h, fun _ _ _ => pure_ok cs n h,
    fun _ _ _ => pure_ok cs n h⟩

/-- C2: for every program whose last instruction is a `RETURN`, `TAILCALL` or
`JMP` and whose branch targets are in range (and composite translators that
keep their contract), the driver completes and every block of the function,
the entry block, the block of each offset and every sub-block, ends with
exactly one terminator; the driver's fall-through adds the branch to the next
block exactly when the block of the current instruction has no terminator,
and adds nothing otherwise. -/
theorem C2_every_block_has_one_terminator (T : Translators)
    (hT : T.Respectful) (p : Proto) (hlast : lastTerminates p = true)
    (hrange : targetsInRange p = true) :
    (∃ cs, translate T p = some cs ∧
      BlockId.entry ∈ cs.layout ∧
      (∀ i, i < p.sizecode → BlockId.primary i ∈ cs.layout) ∧
      (∀ b ∈ cs.layout, wellTerminated (cs.insts b) = true)) ∧
    (∀ (cs : CompilerState) (n : Nat), cs.blocks_ = blockTable n →
      cs.curr_ + 1 < n →
      ((getTerminator (cs.insts (.primary cs.curr_))).isSome = true →
        fallThrough cs = some ((), cs)) ∧
      (getTerminator (cs.insts (.primary cs.curr_)) = none →
        fallThrough cs = some ((),
          cs.append cs.insertPoint [.br (.primary (cs.curr_ + 1))]))) := by
  have hp : 0 < p.sizecode := by
    simp only [lastTerminates, Bool.and_eq_true, decide_eq_true_eq] at hlast
    exact hlast.1
  obtain ⟨cs, e, hinv, hc⟩ := translate_ok T hT p hp (translatable_of p hlast hrange)
  refine ⟨⟨cs, e, hinv.entryIn, hinv.primaryIn, ?_⟩, ?_⟩
  · intro b hb
    apply hinv.done b hb
    intro i hbi
    rcases hinv.only b hb with h | ⟨k, hk, h⟩ | ⟨k, j, _, h⟩
    · rw [h] at hbi; cases hbi
    · rw [h] at hbi; cases hbi; omega
    · rw [h] at hbi; cases hbi
  · intro cs n hb hn
    exact ⟨fun ht => fallThrough_closed cs n hb (by omega) ht,
      fun ht => fallThrough_open cs n hb ht hn⟩

theorem C2_witness :
    ∃ cs, translate Translators.silent loadkReturn = some cs ∧
      BlockId.entry ∈ cs.layout ∧
      (∀ i, i < loadkReturn.sizecode → BlockId.primary i ∈ cs.layout) ∧
      (∀ b ∈ cs.layout, wellTerminated (cs.insts b) = true) :=
  (C2_every_block_has_one_terminator Translators.silent silent_respectful
    loadkReturn (by decide) (by decide)).1

theorem ready_handlerState (p : Proto) (c : Nat) (hc : c < p.sizecode) :
    Ready (handlerState p c) p.sizecode := by
  refine ⟨rfl, hc, rfl, ?_, ?_, ?_, ?_⟩
  · simp [handlerState, terminators_nil]
  · intro j hj
    simp [handlerState, mem_blockTable] at hj
  · intro j
    simp [handlerState]
  · simp [handlerState, mem_blockTable, hc]

/-- C1: every jump-type instruction at offset `i` with signed displacement
`sBx` branches to the primary block of offset `t = i + sBx + 1`: the block of
a `JMP` and of a `FORPREP` ends with the branch to it, the block of a
`FORLOOP` ends with a conditional branch whose taken edge is it, and the
taken edge of a `TFORLOOP` leads to the sub-block `continue`, which ends with
the branch to it.  The `JMP` at offset 2 with displacement -3 branches to the
block of offset 0. -/
theorem C1_jump_targets (cs : CompilerState) (n t : Nat) (h : Ready cs n)
    (ht : (cs.curr_ : Int) + GETARG_sBx cs.instr_ + 1 = t) (htn : t < n) :
    (∃ cs', CompileJmp cs = some ((), cs') ∧
      getTerminator (cs'.insts (.primary cs.curr_)) = some (.br (.primary t))) ∧
    (∃ cs', CompileForprep cs = some ((), cs') ∧
      getTerminator (cs'.insts (.primary cs.curr_)) = some (.br (.primary t))) ∧
    (cs.curr_ + 1 < n →
      (∃ cs' jump, CompileForloop cs = some ((), cs') ∧
        getTerminator (cs'.insts (.primary cs.curr_)) =
          some (.condBr jump (.primary t) (.primary (cs.curr_ + 1)))) ∧
      (∃ cs' notnil, CompileTforloop cs = some ((), cs') ∧
        getTerminator (cs'.insts (.primary cs.curr_)) =
          some (.condBr notnil (.sub cs.curr_ 0) (.primary (cs.curr_ + 1))) ∧
        getTerminator (cs'.insts (.sub cs.curr_ 0)) = some (.br (.primary t)))) ∧
    (translate Translators.silent jumpBack).map (fun cs' => cs'.insts (.primary 2)) =
      some [.br (.primary 0)] := by
  have ⟨h1, h2, h3, h4, h5, h6, h7⟩ := h
  have hs := subCount_of_fresh _ _ h5
  have h0 : 0 ≤ (cs.curr_ : Int) + GETARG_sBx cs.instr_ + 1 := by omega
  have hn : (cs.curr_ : Int) + GETARG_sBx cs.instr_ + 1 < n := by omega
  have h0' : 0 ≤ (cs.curr_ : Int) + 1 + GETARG_sBx cs.instr_ := by omega
  have hn' : (cs.curr_ : Int) + 1 + GETARG_sBx cs.instr_ < n := by omega
  have e1 : ((cs.curr_ : Int) + GETARG_sBx cs.instr_ + 1).toNat = t := by omega
  have e2 : ((cs.curr_ : Int) + 1 + GETARG_sBx cs.instr_).toNat = t := by omega
  refine ⟨?_, ?_, fun hn1 => ⟨?_, ?_⟩, by decide!⟩
  · simp [CompileJmp, blockAt_inRange n _ h0 hn, h1, bind_eq, pure_eq, get_apply,
      emit_apply, CreateBr_apply, h3, getTerminator_append_cons, getTerminator_singleton,
      Inst.isTerminator, e1]
  · simp [CompileForprep, blockAt_inRange n _ h0' hn', h1, bind_eq, pure_eq, get_apply,
      emit_apply, GetValueR_apply, CreateCall_apply, CreateBr_apply, append_append, h3,
      getTerminator_append_cons, getTerminator_cons_cons, getTerminator_singleton,
      Inst.isTerminator, e2]
  · simp [CompileForloop, blockAt_inRange n _ h0' hn', blockAt_one n cs.curr_ hn1, h1,
      bind_eq, pure_eq, get_apply, emit_apply, GetValueR_apply, CreateCall_apply,
      CreateCondBr_apply, ToBool_apply, append_append, h3, getTerminator_append_cons,
      getTerminator_cons_cons, getTerminator_singleton, Inst.isTerminator, e2]
  · simp [CompileTforloop, bind_eq, pure_eq, get_apply, modify_apply, emit_apply,
      GetValueR_apply, SetRegister_apply, CreateCall_apply, CreateBr_apply,
      CreateCondBr_apply, LoadField_apply, SetInsertPoint_apply, append_append,
      withPoint_withPoint, withPoint_append, withPoint_withBlock, withBlock_append,
      CreateSubBlock_apply n, subCount_insertAfter, hs, h1, h2, h3, h6,
      blockAt_inRange n _ h0' hn', blockAt_one n cs.curr_ hn1, getTerminator_append_cons,
      getTerminator_cons_cons, getTerminator_singleton, Inst.isTerminator, e2]

theorem C1_witness :
    ∃ cs', CompileJmp (handlerState jumpBack 2) = some ((), cs') ∧
      getTerminator (cs'.insts (.primary 2)) = some (.br (.primary 0)) :=
  (C1_jump_targets (handlerState jumpBack 2) 3 0
    (ready_handlerState jumpBack 2 (by decide)) (by decide) (by decide)).1

/-! ## Stack-top publishes of `CALL`, `TAILCALL` and `RETURN` -/

set_option maxHeartbeats 1000000 in
theorem CompileCall_publishes (cs : CompilerState) (n : Nat) (h : Ready cs n)
    (he : cs.insts (.primary cs.curr_) = []) (hv : cs.values_ = entryValues) :
    ∃ cs', CompileCall cs = some ((), cs') ∧
      topPublishes cs' (.primary cs.curr_) =
        if GETARG_B cs.instr_ = 0 then []
        else [some (.getValueR ((GETARG_A cs.instr_ : Int) + GETARG_B cs.instr_))] := by
  have h3 := h.point
  by_cases hb : GETARG_B cs.instr_ = 0 <;>
    simp [CompileCall, bind_eq, pure_eq, get_apply, GetValueR_apply, CreateCall_apply,
      UpdateStack_apply, SetTop_apply, emit_apply, append_append, h3, he, hb,
      topPublishes, storesTo, fieldOf, defOf, hv, entryValues]

set_option maxHeartbeats 1000000 in
theorem CompileTailcall_publishes (cs : CompilerState) (n : Nat) (h : Ready cs n)
    (he : cs.insts (.primary cs.curr_) = []) (hv : cs.values_ = entryValues) :
    ∃ cs', CompileTailcall cs = some ((), cs') ∧
      topPublishes cs' (.primary cs.curr_) =
        if GETARG_B cs.instr_ = 0 then []
        else [some (.getValueR ((GETARG_A cs.instr_ : Int) + GETARG_B cs.instr_))] := by
  have h3 := h.point
  by_cases hb : GETARG_B cs.instr_ = 0 <;> by_cases hp : 0 < cs.proto_.sizep <;>
    simp [CompileTailcall, bind_eq, pure_eq, get_apply, GetValueR_apply, CreateCall_apply,
      CreateRet_apply, TopDiff_apply, SetTop_apply, emit_apply, append_append, h3, he, hb,
      hp, topPublishes, storesTo, fieldOf, defOf, hv, entryValues]

set_option maxHeartbeats 1000000 in
theorem CompileReturn_publishes (cs : CompilerState) (n : Nat) (h : Ready cs n)
    (he : cs.insts (.primary cs.curr_) = []) (hv : cs.values_ = entryValues) :
    ∃ cs', CompileReturn cs = some ((), cs') ∧
      topPublishes cs' (.primary cs.curr_) =
        if GETARG_B cs.instr_ ≤ 1 then []
        else [some (.getValueR ((GETARG_A cs.instr_ : Int) + GETARG_B cs.instr_ - 1))] := by
  have h3 := h.point
  by_cases hp : 0 < cs.proto_.sizep <;>
    rcases Nat.lt_trichotomy (GETARG_B cs.instr_) 1 with hb | hb | hb
  · have hb0 : GETARG_B cs.instr_ = 0 := by omega
    simp [CompileReturn, bind_eq, pure_eq, get_apply, GetValueR_apply, CreateCall_apply,
      CreateRet_apply, TopDiff_apply, SetTop_apply, emit_apply, append_append, h3, he, hb0,
      hp, topPublishes, storesTo, fieldOf, defOf, hv, entryValues]
  · simp [CompileReturn, bind_eq, pure_eq, get_apply, GetValueR_apply, CreateCall_apply,
      CreateRet_apply, TopDiff_apply, SetTop_apply, emit_apply, append_append, h3, he, hb,
      hp, topPublishes, storesTo, fieldOf, defOf, hv, entryValues]
  · have hb0 : GETARG_B cs.instr_ ≠ 0 := by omega
    have hb1 : GETARG_B cs.instr_ ≠ 1 := by omega
    have hb2 : ¬ GETARG_B cs.instr_ ≤ 1 := by omega
    simp [CompileReturn, bind_eq, pure_eq, get_apply, GetValueR_apply, CreateCall_apply,
      CreateRet_apply, TopDiff_apply, SetTop_apply, emit_apply, append_append, h3, he, hb0,
      hb1, hb2, hp, topPublishes, storesTo, fieldOf, defOf, hv, entryValues]
  · have hb0 : GETARG_B cs.instr_ = 0 := by omega
    simp [CompileReturn, bind_eq, pure_eq, get_apply, GetValueR_apply, CreateCall_apply,
      CreateRet_apply, TopDiff_apply, SetTop_apply, emit_apply, append_append, h3, he, hb0,
      hp, topPublishes, storesTo, fieldOf, defOf, hv, entryValues]
  · simp [CompileReturn, bind_eq, pure_eq, get_apply, GetValueR_apply, CreateCall_apply,
      CreateRet_apply, TopDiff_apply, SetTop_apply, emit_apply, append_append, h3, he, hb,
      hp, topPublishes, storesTo, fieldOf, defOf, hv, entryValues]
  · have hb0 : GETARG_B cs.instr_ ≠ 0 := by omega
    have hb1 : GETARG_B cs.instr_ ≠ 1 := by omega
    have hb2 : ¬ GETARG_B cs.instr_ ≤ 1 := by omega
    simp [CompileReturn, bind_eq, pure_eq, get_apply, GetValueR_apply, CreateCall_apply,
      CreateRet_apply, TopDiff_apply, SetTop_apply, emit_apply, append_append, h3, he, hb0,
      hb1, hb2, hp, topPublishes, storesTo, fieldOf, defOf, hv, entryValues]

/-- C4, as the claim states it, fails: the `CALL` with the fixed argument
count `B = 2` (one argument) at offset 0 emits one stack-top publish, the
store of the address of register 2. -/
theorem C4_counterexample :
    (translate Translators.silent callTwo).map
      (fun cs => topPublishes cs (.primary 0)) = some [some (.getValueR 2)] := by
  decide!

/-- C4, amended: `CALL` and `TAILCALL` emit a stack-top publish exactly when
the count field `B` is not 0, and it stores the address of `R(A+B)`;
`RETURN` emits one exactly when `B` is at least 2, and it stores the address
of `R(A+B-1)`; when `B` is 0 none of the three emits a store to the top. -/
theorem C4_top_published_for_fixed_count (cs : CompilerState) (n : Nat)
    (h : Ready cs n) (he : cs.insts (.primary cs.curr_) = [])
    (hv : cs.values_ = entryValues) :
    (∃ cs', CompileCall cs = some ((), cs') ∧
      topPublishes cs' (.primary cs.curr_) =
        if GETARG_B cs.instr_ = 0 then []
        else [some (.getValueR ((GETARG_A cs.instr_ : Int) + GETARG_B cs.instr_))]) ∧
    (∃ cs', CompileTailcall cs = some ((), cs') ∧
      topPublishes cs' (.primary cs.curr_) =
        if GETARG_B cs.instr_ = 0 then []
        else [some (.getValueR ((GETARG_A cs.instr_ : Int) + GETARG_B cs.instr_))]) ∧
    (∃ cs', CompileReturn cs = some ((), cs') ∧
      topPublishes cs' (.primary cs.curr_) =
        if GETARG_B cs.instr_ ≤ 1 then []
        else [some (.getValueR ((GETARG_A cs.instr_ : Int) + GETARG_B cs.instr_ - 1))]) :=
  ⟨CompileCall_publishes cs n h he hv, CompileTailcall_publishes cs n h he hv,
    CompileReturn_publishes cs n h he hv⟩

theorem C4_witness :
    ∃ cs', CompileCall (handlerState callTwo 0) = some ((), cs') ∧
      topPublishes cs' (.primary 0) = [some (.getValueR 2)] :=
  (C4_top_published_for_fixed_count (handlerState callTwo 0) 2
    (ready_handlerState callTwo 0 (by decide)) (by decide) rfl).1

/-! ## The code of `RETURN` and `TAILCALL` -/

theorem CompileReturn_eq (cs : CompilerState) (n : Nat) (h : Ready cs n)
    (he : cs.insts (.primary cs.curr_) = []) :
    CompileReturn cs = some ((), cs.append (.primary cs.curr_)
      (returnCode cs.values_ cs.proto_.sizep (GETARG_A cs.instr_) (GETARG_B cs.instr_)
        (.primary cs.curr_))) := by
  have h3 := h.point
  by_cases hp : 0 < cs.proto_.sizep <;>
    rcases Nat.lt_trichotomy (GETARG_B cs.instr_) 1 with hb | hb | hb
  · have hb0 : GETARG_B cs.instr_ = 0 := by omega
    simp [CompileReturn, bind_eq, pure_eq, get_apply, GetValueR_apply, CreateCall_apply,
      CreateRet_apply, TopDiff_apply, SetTop_apply, emit_apply, append_append, h3, he, hb0,
      hp, returnCode, returnTail, closeCode, topDiffCode, setTopCode, MakeInt]
  · simp [CompileReturn, bind_eq, pure_eq, get_apply, GetValueR_apply, CreateCall_apply,
      CreateRet_apply, TopDiff_apply, SetTop_apply, emit_apply, append_append, h3, he, hb,
      hp, returnCode, returnTail, closeCode, topDiffCode, setTopCode, MakeInt]
  · have hb0 : GETARG_B cs.instr_ ≠ 0 := by omega
    have hb1 : GETARG_B cs.instr_ ≠ 1 := by omega
    simp [CompileReturn, bind_eq, pure_eq, get_apply, GetValueR_apply, CreateCall_apply,
      CreateRet_apply, TopDiff_apply, SetTop_apply, emit_apply, append_append, h3, he, hb0,
      hb1, hp, returnCode, returnTail, closeCode, topDiffCode, setTopCode, MakeInt]
  · have hb0 : GETARG_B cs.instr_ = 0 := by omega
    simp [CompileReturn, bind_eq, pure_eq, get_apply, GetValueR_apply, CreateCall_apply,
      CreateRet_apply, TopDiff_apply, SetTop_apply, emit_apply, append_append, h3, he, hb0,
      hp, returnCode, returnTail, closeCode, topDiffCode, setTopCode, MakeInt]
  · simp [CompileReturn, bind_eq, pure_eq, get_apply, GetValueR_apply, CreateCall_apply,
      CreateRet_apply, TopDiff_apply, SetTop_apply, emit_apply, append_append, h3, he, hb,
      hp, returnCode, returnTail, closeCode, topDiffCode, setTopCode, MakeInt]
  · have hb0 : GETARG_B cs.instr_ ≠ 0 := by omega
    have hb1 : GETARG_B cs.instr_ ≠ 1 := by omega
    simp [CompileReturn, bind_eq, pure_eq, get_apply, GetValueR_apply, CreateCall_apply,
      CreateRet_apply, TopDiff_apply, SetTop_apply, emit_apply, append_append, h3, he, hb0,
      hb1, hp, returnCode, returnTail, closeCode, topDiffCode, setTopCode, MakeInt]

theorem CompileTailcall_eq (cs : CompilerState) (n : Nat) (h : Ready cs n)
    (he : cs.insts (.primary cs.curr_) = []) :
    CompileTailcall cs = some ((), cs.append (.primary cs.curr_)
      (tailcallCode cs.values_ cs.proto_.sizep (GETARG_A cs.instr_) (GETARG_B cs.instr_)
        (.primary cs.curr_))) := by
  have h3 := h.point
  by_cases hb : GETARG_B cs.instr_ = 0 <;> by_cases hp : 0 < cs.proto_.sizep <;>
    simp [CompileTailcall, bind_eq, pure_eq, get_apply, GetValueR_apply, CreateCall_apply,
      CreateRet_apply, TopDiff_apply, SetTop_apply, emit_apply, append_append, h3, he, hb,
      hp, tailcallCode, tailcallTail, closeCode, topDiffCode, setTopCode]

theorem append_insts_self (cs : CompilerState) (b : BlockId) (l : List Inst) :
    (cs.append b l).insts b = cs.insts b ++ l := by
  simp

/-! ## Running blocks -/

@[simp] theorem bind_env (m : Machine) (at_ : BlockId × Nat) (v : RVal) :
    (m.bind at_ v).env = Function.update m.env at_ v := byUnfold rfl

@[simp] theorem bind_mem (m : Machine) (at_ : BlockId × Nat) (v : RVal) :
    (m.bind at_ v).mem = m.mem := byUnfold rfl

@[simp] theorem bind_trace (m : Machine) (at_ : BlockId × Nat) (v : RVal) :
    (m.bind at_ v).trace = m.trace := byUnfold rfl

@[simp] theorem log_env (m : Machine) (e : Event) : (m.log e).env = m.env := byUnfold rfl

@[simp] theorem log_mem (m : Machine) (e : Event) : (m.log e).mem = m.mem := byUnfold rfl

@[simp] theorem log_trace (m : Machine) (e : Event) :
    (m.log e).trace = m.trace ++ [e] := byUnfold rfl

theorem execFrom_nil (W : World) (m0 : Machine) (pred cur : BlockId) (k : Nat)
    (m : Machine) : execFrom W m0 pred cur [] k m = (m, none) := by
  simp [execFrom]

theorem execFrom_phi (W : World) (m0 : Machine) (pred cur : BlockId)
    (inc : List (Value × BlockId)) (rest : List Inst) (k : Nat) (m : Machine) :
    execFrom W m0 pred cur (.phi inc :: rest) k m =
      execFrom W m0 pred cur rest (k + 1) (m.bind (cur, k) (phiValue m0 pred inc)) := by
  simp [execFrom]

theorem execFrom_term (W : World) (m0 : Machine) (pred cur : BlockId) (i : Inst)
    (rest : List Inst) (k : Nat) (m : Machine) (hi : i.isTerminator = true) :
    execFrom W m0 pred cur (i :: rest) k m = (m, some i) := by
  cases i <;> first
    | exact Bool.noConfusion hi
    | simp [execFrom, Inst.isTerminator]

theorem execFrom_step (W : World) (m0 : Machine) (pred cur : BlockId) (i : Inst)
    (rest : List Inst) (k : Nat) (m : Machine) (hi : i.isTerminator = false)
    (hphi : ∀ inc, i ≠ .phi inc) :
    execFrom W m0 pred cur (i :: rest) k m =
      execFrom W m0 pred cur rest (k + 1) (execInst W (cur, k) m i) := by
  cases i <;> first
    | exact Bool.noConfusion hi
    | exact absurd rfl (hphi _)
    | simp [execFrom, Inst.isTerminator]

theorem toU_natCast (bits n : Nat) (h : n < 2 ^ bits) : toU bits (n : Int) = n := by
  unfold toU
  have : ((n : Int) % 2 ^ bits) = n := by
    rw [Int.emod_eq_of_lt (by omega) (by exact_mod_cast h)]
  rw [this]
  simp

theorem sval_toU (bits : Nat) (z : Int) (hb : 0 < bits)
    (h1 : -(2 : Int) ^ (bits - 1) ≤ z) (h2 : z < 2 ^ (bits - 1)) :
    sval bits (toU bits z) = z := by
  obtain ⟨k, rfl⟩ : ∃ k, bits = k + 1 := ⟨bits - 1, by omega⟩
  simp only [Nat.add_sub_cancel] at h1 h2
  unfold sval toU
  simp only [Nat.add_sub_cancel]
  have hp : (2 : Int) ^ (k + 1) = 2 * 2 ^ k := by ring
  have hk : (0 : Int) < 2 ^ k := by positivity
  by_cases hz : 0 ≤ z
  · have e : z % 2 ^ (k + 1) = z := Int.emod_eq_of_lt hz (by omega)
    rw [e]
    have : (z.toNat : Int) = z := Int.toNat_of_nonneg hz
    have hlt : z.toNat < 2 ^ k := by
      have : ((z.toNat : Nat) : Int) < ((2 ^ k : Nat) : Int) := by push_cast; omega
      exact_mod_cast this
    simp [hlt, this]
  · have e : z % 2 ^ (k + 1) = z + 2 ^ (k + 1) := by
      have := Int.add_mul_emod_self (a := z) (b := 1) (c := 2 ^ (k + 1))
      rw [← this, one_mul]
      exact Int.emod_eq_of_lt (by omega) (by omega)
    rw [e]
    have hnn : 0 ≤ z + 2 ^ (k + 1) := by omega
    have hc : ((z + 2 ^ (k + 1)).toNat : Int) = z + 2 ^ (k + 1) := Int.toNat_of_nonneg hnn
    have hge : ¬ (z + 2 ^ (k + 1)).toNat < 2 ^ k := by
      intro hlt
      have : (((z + 2 ^ (k + 1)).toNat : Nat) : Int) < ((2 ^ k : Nat) : Int) := by
        exact_mod_cast hlt
      push_cast at this
      omega
    simp only [hge, if_false, hc]
    ring

/-! ## What `RETURN` and `TAILCALL` return -/

theorem toU_trunc_pos (z : Int) :
    ((toU 64 z : Nat) % 4294967296 : Nat) = toU 32 z := by
  unfold toU
  norm_num
  omega

theorem return_open (W : World) (F : BlockId → List Inst) (st : Values) (sizep a : Nat)
    (p pred : BlockId) (m : Machine) (t : Int) (hs : st.state = .state)
    (hF : F p = returnCode st sizep a 0 p)
    (ht : closedMem W sizep m topField = .reg t)
    (h1 : -(2 : Int) ^ 31 ≤ t - a) (h2 : t - a < 2 ^ 31) :
    (stepBlock W F pred p m).result = some (t - a) := by
  have hv : sval 32 (toU 32 (t - a)) = t - a :=
    sval_toU 32 _ (by norm_num) (by norm_num; omega) (by norm_num; omega)
  by_cases hp : 0 < sizep
  all_goals
    simp [closedMem, hp, topField] at ht
    simp [stepBlock, hF, returnCode, returnTail, closeCode, setTopCode, topDiffCode, hp, hs,
      execFrom_step, execFrom_term, Inst.isTerminator, execInst, evalValue, ptrDistance,
      Control.result, Control.final, topField, sizeof_int, toU_trunc_pos, hv, ht]

theorem return_fixed (W : World) (F : BlockId → List Inst) (st : Values) (sizep a b : Nat)
    (p pred : BlockId) (m : Machine)
    (hF : F p = returnCode st sizep a b p) (hb : 1 ≤ b) (hb2 : b ≤ 2 ^ 31) :
    (stepBlock W F pred p m).result = some ((b : Int) - 1) := by
  have hb0 : b ≠ 0 := by omega
  have hs : sval 32 (toU 32 ((b : Int) - 1)) = (b : Int) - 1 :=
    sval_toU 32 _ (by norm_num) (by norm_num; omega) (by norm_num; omega)
  by_cases hp : 0 < sizep <;> by_cases hb1 : b = 1
  all_goals
    simp [stepBlock, hF, returnCode, returnTail, closeCode, setTopCode, topDiffCode, hb0, hb1, hp,
      execFrom_step, execFrom_term, Inst.isTerminator, execInst, evalValue, ptrDistance, Control.result, sizeof_int]
  all_goals first
    | exact hs
    | (subst hb1; decide)

/-! ## Results of `RETURN` and `TAILCALL` -/

theorem GETARG_B_lt (i : Instruction) : GETARG_B i < 512 := by
  unfold GETARG_B
  omega

theorem loadkReturn_code :
    (translate Translators.silent loadkReturn).map
      (fun cs => [cs.insts .entry, cs.insts (.primary 0), cs.insts (.primary 1)]) =
    some [entryCode ++ [.br (.primary 0)],
      [.assign (.register 0) (.constant 0), .br (.primary 1)],
      returnCode entryValues 0 0 2 (.primary 1)] := by
  decide!

theorem callsOf_nil (f : RuntimeFn) : callsOf f [] = [] := byUnfold rfl

theorem callsOf_cons (f : RuntimeFn) (i : Inst) (l : List Inst) :
    callsOf f (i :: l) =
      (match i with
        | .call g args => if g = f then [args] else []
        | _ => []) ++ callsOf f l := by
  cases i <;> simp [callsOf, List.filterMap_cons]
  split_ifs <;> simp

theorem callsOf_append (f : RuntimeFn) (l₁ l₂ : List Inst) :
    callsOf f (l₁ ++ l₂) = callsOf f l₁ ++ callsOf f l₂ := by
  simp [callsOf, List.filterMap_append]

theorem callsOf_topDiffCode (f : RuntimeFn) (st : Values) (n : Int) (p : BlockId)
    (k : Nat) : callsOf f (topDiffCode st n p k) = [] := by
  simp [topDiffCode, callsOf_cons, callsOf_nil]

theorem callsOf_setTopCode (f : RuntimeFn) (st : Values) (n : Int) (p : BlockId)
    (k : Nat) : callsOf f (setTopCode st n p k) = [] := by
  simp [setTopCode, callsOf_cons, callsOf_nil]

theorem callsOf_returnTail (f : RuntimeFn) (st : Values) (a b : Nat) (p : BlockId)
    (k : Nat) : callsOf f (returnTail st a b p k) = [] := by
  unfold returnTail
  split_ifs <;>
    simp [callsOf_append, callsOf_topDiffCode, callsOf_setTopCode, callsOf_cons,
      callsOf_nil]

theorem callsOf_tailcallTail (f : RuntimeFn) (st : Values) (a b : Nat) (p : BlockId)
    (k : Nat) : callsOf f (tailcallTail st a b p k) = [] := by
  unfold tailcallTail
  split_ifs <;>
    simp [callsOf_append, callsOf_topDiffCode, callsOf_setTopCode, callsOf_cons,
      callsOf_nil]

/-- C6: a `RETURN A B` with `B >= 1` makes the function return `B - 1`, which is
not negative; with `B = 0` the function returns the distance from `R(A)` to
the published top, read from `lua_State::top` when the block runs.  In the
translation of `LOADK r0,k0; RETURN r0,2` block 0 ends with the branch to
block 1 and the function, run from its entry, returns 1. -/
theorem C6_return_result_count (cs : CompilerState) (n : Nat) (h : Ready cs n)
    (he : cs.insts (.primary cs.curr_) = []) (hs : cs.values_.state = .state) :
    (∃ cs', CompileReturn cs = some ((), cs') ∧
      ∀ (W : World) (pred : BlockId) (m : Machine),
        (1 ≤ GETARG_B cs.instr_ →
          (stepBlock W cs'.insts pred (.primary cs.curr_) m).result =
            some ((GETARG_B cs.instr_ : Int) - 1) ∧
          0 ≤ (GETARG_B cs.instr_ : Int) - 1) ∧
        (GETARG_B cs.instr_ = 0 → ∀ t : Int,
          closedMem W cs.proto_.sizep m topField = .reg t →
          -(2 : Int) ^ 31 ≤ t - GETARG_A cs.instr_ → t - GETARG_A cs.instr_ < 2 ^ 31 →
          (stepBlock W cs'.insts pred (.primary cs.curr_) m).result =
            some (t - GETARG_A cs.instr_))) ∧
    ∃ cs', translate Translators.silent loadkReturn = some cs' ∧
      getTerminator (cs'.insts (.primary 0)) = some (.br (.primary 1)) ∧
      ∀ (W : World) (m : Machine),
        (run W cs'.insts (fun _ => false) 3 .entry .entry m).bind Control.result =
          some 1 := by
  refine ⟨⟨_, CompileReturn_eq cs n h he, fun W pred m => ⟨fun hb => ⟨?_, by omega⟩,
    fun hb t ht h1 h2 => ?_⟩⟩, ?_⟩
  · exact return_fixed W _ cs.values_ cs.proto_.sizep (GETARG_A cs.instr_)
      (GETARG_B cs.instr_) _ pred m (by simp [he]) hb
      (by have := GETARG_B_lt cs.instr_; omega)
  · refine return_open W _ cs.values_ cs.proto_.sizep (GETARG_A cs.instr_) _ pred m t hs
      (by simp [he, hb]) ht h1 h2
  · obtain ⟨cs', e, hc⟩ := Option.map_eq_some'.1 loadkReturn_code
    simp only [List.cons.injEq, and_true] at hc
    obtain ⟨h0, h1, h2⟩ := hc
    refine ⟨cs', e, by simp [h1, getTerminator, Inst.isTerminator], fun W m => ?_⟩
    simp [run, stepBlock, h0, h1, h2, entryCode, returnCode, returnTail, closeCode,
      setTopCode, execFrom_step, execFrom_term, Inst.isTerminator, execInst, evalValue,
      Control.result, sizeof_int, toU, sval]

theorem C6_witness :
    ∃ cs', CompileReturn (handlerState loadkReturn 1) = some ((), cs') ∧
      (stepBlock World.quiet cs'.insts .entry (.primary 1) Machine.blank).result =
        some ((2 : Int) - 1) :=
  (C6_return_result_count (handlerState loadkReturn 1) 2
    (ready_handlerState loadkReturn 1 (by decide)) (by decide) rfl).1.elim
    fun cs' hc => ⟨cs', hc.1,
      ((hc.2 World.quiet .entry Machine.blank).1 (by decide)).1⟩

/-- C7: `RETURN` and `TAILCALL` emit the call `luaF_close(state, R(0))` exactly
when the function has nested prototypes (`sizep > 0`); the block starts with
the address of `R(0)`, the call when there is one comes next, and everything
that computes the result count or publishes the top comes after it. -/
theorem C7_close_iff_nested_prototypes (cs : CompilerState) (n : Nat)
    (h : Ready cs n) (he : cs.insts (.primary cs.curr_) = []) :
    (∃ cs', CompileReturn cs = some ((), cs') ∧
      (∃ k, cs'.insts (.primary cs.curr_) = .getValueR 0 ::
        ((if 0 < cs.proto_.sizep then
            [.call .luaF_close [cs.values_.state, .inst (.primary cs.curr_) 0]]
          else []) ++
        returnTail cs.values_ (GETARG_A cs.instr_) (GETARG_B cs.instr_)
          (.primary cs.curr_) k)) ∧
      callsOf .luaF_close (cs'.insts (.primary cs.curr_)) =
        (if 0 < cs.proto_.sizep then
          [[cs.values_.state, .inst (.primary cs.curr_) 0]] else [])) ∧
    (∃ cs', CompileTailcall cs = some ((), cs') ∧
      (∃ k, cs'.insts (.primary cs.curr_) = .getValueR 0 ::
        ((if 0 < cs.proto_.sizep then
            [.call .luaF_close [cs.values_.state, .inst (.primary cs.curr_) 0]]
          else []) ++
        tailcallTail cs.values_ (GETARG_A cs.instr_) (GETARG_B cs.instr_)
          (.primary cs.curr_) k)) ∧
      callsOf .luaF_close (cs'.insts (.primary cs.curr_)) =
        (if 0 < cs.proto_.sizep then
          [[cs.values_.state, .inst (.primary cs.curr_) 0]] else [])) := by
  refine ⟨⟨_, CompileReturn_eq cs n h he,
      ⟨1 + (closeCode cs.values_ cs.proto_.sizep (.primary cs.curr_)).length, ?_⟩, ?_⟩,
    ⟨_, CompileTailcall_eq cs n h he,
      ⟨1 + (closeCode cs.values_ cs.proto_.sizep (.primary cs.curr_)).length, ?_⟩, ?_⟩⟩
  · simp only [append_insts, Function.update_same, he, List.nil_append, returnCode,
      closeCode]
  · by_cases hp : 0 < cs.proto_.sizep <;>
      simp [he, returnCode, closeCode, hp, callsOf_append, callsOf_returnTail,
        callsOf_cons, callsOf_nil]
  · simp only [append_insts, Function.update_same, he, List.nil_append, tailcallCode,
      closeCode]
  · by_cases hp : 0 < cs.proto_.sizep <;>
      simp [he, tailcallCode, closeCode, hp, callsOf_append, callsOf_tailcallTail,
        callsOf_cons, callsOf_nil]

theorem C7_witness :
    ∃ cs', CompileTailcall (handlerState tailcallThree 0) = some ((), cs') ∧
      (∃ k, cs'.insts (.primary 0) = .getValueR 0 ::
        ([] ++ tailcallTail entryValues 1 3 (.primary 0) k)) ∧
      callsOf .luaF_close (cs'.insts (.primary 0)) = [] :=
  (C7_close_iff_nested_prototypes (handlerState tailcallThree 0) 2
    (ready_handlerState tailcallThree 0 (by decide)) (by decide)).2

theorem CompileNewtable_eq (cs : CompilerState) (n : Nat) (h : Ready cs n)
    (he : cs.insts (.primary cs.curr_) = []) :
    CompileNewtable cs = some ((), cs.append (.primary cs.curr_)
      (([.getTValue (.register (GETARG_A cs.instr_)),
         .call .lll_newtable [cs.values_.state, .inst (.primary cs.curr_) 0]] ++
        (if GETARG_B cs.instr_ ≠ 0 ∨ GETARG_C cs.instr_ ≠ 0 then
          [.call .luaH_resize [cs.values_.state, .inst (.primary cs.curr_) 1,
            .int (luaO_fb2int (GETARG_B cs.instr_)),
            .int (luaO_fb2int (GETARG_C cs.instr_))]]
        else [])) ++
       [.getTValue (.register (GETARG_A cs.instr_ + 1)),
        .call .lll_checkcg [cs.values_.state, cs.values_.ci,
          .inst (.primary cs.curr_)
            (if GETARG_B cs.instr_ ≠ 0 ∨ GETARG_C cs.instr_ ≠ 0 then 3 else 2)]])) := by
  have h3 := h.point
  by_cases hbc : GETARG_B cs.instr_ ≠ 0 ∨ GETARG_C cs.instr_ ≠ 0
  · simp only [CompileNewtable, bind_eq, pure_eq, get_apply, emit_apply, CreateCall_apply,
      CompileCheckcg_apply, append_append, h3, he, if_pos hbc, append_insts,
      append_insertPoint, append_values_, append_instr_, Function.update_same, MakeInt,
      List.nil_append, List.length_cons, List.length_nil, List.cons_append,
      List.length_append]
  · simp only [CompileNewtable, bind_eq, pure_eq, get_apply, emit_apply, CreateCall_apply,
      CompileCheckcg_apply, append_append, h3, he, if_neg hbc, append_insts,
      append_insertPoint, append_values_, append_instr_, Function.update_same, MakeInt,
      List.nil_append, List.length_cons, List.length_nil, List.cons_append,
      List.length_append, List.append_nil]

theorem CompileConcat_eq (cs : CompilerState) (n : Nat) (h : Ready cs n)
    (he : cs.insts (.primary cs.curr_) = []) :
    CompileConcat cs = some ((), cs.append (.primary cs.curr_)
      ((setTopCode cs.values_ ((GETARG_C cs.instr_ : Int) + 1) (.primary cs.curr_) 0 ++
        [.call .luaV_concat [cs.values_.state,
          .int ((GETARG_C cs.instr_ : Int) - GETARG_B cs.instr_ + 1)]] ++
        updateStackCode cs.values_ (.primary cs.curr_) 6 ++
        [.assign (.register (GETARG_A cs.instr_)) (.register (GETARG_B cs.instr_))]) ++
       [.getTValue (.register
          (if GETARG_A cs.instr_ ≥ GETARG_B cs.instr_ then GETARG_A cs.instr_ + 1
           else GETARG_B cs.instr_)),
        .call .lll_checkcg [cs.values_.state, cs.values_.ci,
          .inst (.primary cs.curr_) 12]] ++
       reloadTopCode cs.values_ (.primary cs.curr_) 14)) := by
  have h3 := h.point
  by_cases hab : GETARG_A cs.instr_ ≥ GETARG_B cs.instr_ <;>
    simp [CompileConcat, bind_eq, pure_eq, get_apply, emit_apply, CreateCall_apply,
      CompileCheckcg_apply, SetTop_apply, UpdateStack_apply, ReloadTop_apply, GetValueR_apply,
      append_append, h3, he, hab, MakeInt, setTopCode, updateStackCode, reloadTopCode]

theorem CompileClosure_eq (cs : CompilerState) (n : Nat) (h : Ready cs n)
    (he : cs.insts (.primary cs.curr_) = []) :
    CompileClosure cs = some ((), cs.append (.primary cs.curr_)
      ([.getValueR 0,
        .getValueR (GETARG_A cs.instr_),
        .call .lll_closure [cs.values_.state, cs.values_.closure,
          .inst (.primary cs.curr_) 0, .inst (.primary cs.curr_) 1,
          .int (GETARG_Bx cs.instr_)]] ++
       [.getValueR ((GETARG_A cs.instr_ : Int) + 1),
        .call .lll_checkcg [cs.values_.state, cs.values_.ci,
          .inst (.primary cs.curr_) 3]])) := by
  have h3 := h.point
  simp [CompileClosure, bind_eq, pure_eq, get_apply, emit_apply, CreateCall_apply,
    CompileCheckcg_apply, GetValueR_apply, append_append, h3, he, MakeInt]

/-- The handlers of `NEWTABLE`, `CONCAT` and `CLOSURE` emit, after the
instruction that writes the destination register (the call of
`lll_newtable`, the assignment of `R(B)` to `R(A)`, the call of
`lll_closure`), the address of a register (`R(A+1)`; for `CONCAT`, `R(B)` when
`A < B`) and the call `lll_checkcg(state, ci, address)`.  The handler of
`SELF` emits the copy of `R(B)` into `R(A+1)` and hands the rest to the
table-get translator: whether a call of `lll_checkcg` ends the code of a
`SELF` is decided by that translator alone. -/
theorem gc_check_after_write (T : Translators) (cs : CompilerState) (n : Nat)
    (h : Ready cs n) (he : cs.insts (.primary cs.curr_) = []) :
    (∃ cs' pre, CompileNewtable cs = some ((), cs') ∧
      cs'.insts (.primary cs.curr_) = pre ++
        [.getTValue (.register (GETARG_A cs.instr_ + 1)),
         .call .lll_checkcg [cs.values_.state, cs.values_.ci,
           .inst (.primary cs.curr_) pre.length]] ∧
      Inst.call .lll_newtable [cs.values_.state, .inst (.primary cs.curr_) 0] ∈ pre) ∧
    (∃ cs' pre post, CompileConcat cs = some ((), cs') ∧
      cs'.insts (.primary cs.curr_) = pre ++
        [.getTValue (.register
          (if GETARG_A cs.instr_ ≥ GETARG_B cs.instr_ then GETARG_A cs.instr_ + 1
           else GETARG_B cs.instr_)),
         .call .lll_checkcg [cs.values_.state, cs.values_.ci,
           .inst (.primary cs.curr_) pre.length]] ++ post ∧
      Inst.assign (.register (GETARG_A cs.instr_)) (.register (GETARG_B cs.instr_)) ∈ pre ∧
      post = reloadTopCode cs.values_ (.primary cs.curr_) (pre.length + 2)) ∧
    (∃ cs' pre, CompileClosure cs = some ((), cs') ∧
      cs'.insts (.primary cs.curr_) = pre ++
        [.getValueR ((GETARG_A cs.instr_ : Int) + 1),
         .call .lll_checkcg [cs.values_.state, cs.values_.ci,
           .inst (.primary cs.curr_) pre.length]] ∧
      Inst.call .lll_closure [cs.values_.state, cs.values_.closure,
        .inst (.primary cs.curr_) 0, .inst (.primary cs.curr_) 1,
        .int (GETARG_Bx cs.instr_)] ∈ pre) ∧
    CompileSelf T cs =
      T.TableGet (.register (GETARG_B cs.instr_)) (.byArg (GETARG_C cs.instr_))
        (.register (GETARG_A cs.instr_))
        (cs.append (.primary cs.curr_)
          [.setValue (.register (GETARG_A cs.instr_ + 1))
            (.register (GETARG_B cs.instr_))]) := by
  refine ⟨⟨_, [.getTValue (.register (GETARG_A cs.instr_)),
         .call .lll_newtable [cs.values_.state, .inst (.primary cs.curr_) 0]] ++
        (if GETARG_B cs.instr_ ≠ 0 ∨ GETARG_C cs.instr_ ≠ 0 then
          [.call .luaH_resize [cs.values_.state, .inst (.primary cs.curr_) 1,
            .int (luaO_fb2int (GETARG_B cs.instr_)),
            .int (luaO_fb2int (GETARG_C cs.instr_))]]
        else []), CompileNewtable_eq cs n h he, ?_, ?_⟩,
    ⟨_, setTopCode cs.values_ ((GETARG_C cs.instr_ : Int) + 1) (.primary cs.curr_) 0 ++
        [.call .luaV_concat [cs.values_.state,
          .int ((GETARG_C cs.instr_ : Int) - GETARG_B cs.instr_ + 1)]] ++
        updateStackCode cs.values_ (.primary cs.curr_) 6 ++
        [.assign (.register (GETARG_A cs.instr_)) (.register (GETARG_B cs.instr_))],
      reloadTopCode cs.values_ (.primary cs.curr_) 14,
      CompileConcat_eq cs n h he, ?_, ?_, ?_⟩,
    ⟨_, [.getValueR 0,
        .getValueR (GETARG_A cs.instr_),
        .call .lll_closure [cs.values_.state, cs.values_.closure,
          .inst (.primary cs.curr_) 0, .inst (.primary cs.curr_) 1,
          .int (GETARG_Bx cs.instr_)]], CompileClosure_eq cs n h he, ?_, ?_⟩, ?_⟩
  · by_cases hbc : GETARG_B cs.instr_ ≠ 0 ∨ GETARG_C cs.instr_ ≠ 0
    · simp [he, if_pos hbc]
    · simp [he, if_neg hbc]
  · simp
  · simp [he, setTopCode, updateStackCode]
  · simp
  · simp [setTopCode, updateStackCode]
  · simp [he]
  · simp
  · simp [CompileSelf, bind_eq, get_apply, emit_apply, h.point]

theorem gc_check_newtable :
    ∃ cs' pre, CompileNewtable (handlerState selfReturn 0) = some ((), cs') ∧
      cs'.insts (.primary 0) = pre ++
        [.getTValue (.register 1),
         .call .lll_checkcg [.state, .inst .entry 3, .inst (.primary 0) pre.length]] ∧
      Inst.call .lll_newtable [.state, .inst (.primary 0) 0] ∈ pre :=
  (gc_check_after_write Translators.silent (handlerState selfReturn 0) 2
    (ready_handlerState selfReturn 0 (by decide)) (by decide)).1

/-! ## `LOADBOOL` and the comparisons -/

/-- C14: a `LOADBOOL` never leaves two terminators in its block.  With the
skip flag `C` set the handler ends the block with the branch to block `i+2`,
the driver's fall-through then adds nothing, and that branch is the only
terminator; with `C = 0` the handler emits no terminator and the driver's
fall-through, the branch to block `i+1`, is the only one. -/
theorem C14_loadbool_single_terminator (T : Translators) (cs : CompilerState) (n : Nat)
    (h : Ready cs n) :
    dispatch T (some OP_LOADBOOL) = CompileLoadbool ∧
    (GETARG_C cs.instr_ ≠ 0 → cs.curr_ + 2 < n →
      ∃ cs₁, CompileLoadbool cs = some ((), cs₁) ∧
        fallThrough cs₁ = some ((), cs₁) ∧
        cs₁.insts (.primary cs.curr_) = cs.insts (.primary cs.curr_) ++
          [.setBoolean (.register (GETARG_A cs.instr_)) (.int (GETARG_B cs.instr_)),
           .br (.primary (cs.curr_ + 2))] ∧
        terminators (cs₁.insts (.primary cs.curr_)) = [.br (.primary (cs.curr_ + 2))]) ∧
    (GETARG_C cs.instr_ = 0 → cs.curr_ + 1 < n →
      ∃ cs₁ cs₂, CompileLoadbool cs = some ((), cs₁) ∧
        terminators (cs₁.insts (.primary cs.curr_)) = [] ∧
        fallThrough cs₁ = some ((), cs₂) ∧
        cs₂.insts (.primary cs.curr_) = cs.insts (.primary cs.curr_) ++
          [.setBoolean (.register (GETARG_A cs.instr_)) (.int (GETARG_B cs.instr_)),
           .br (.primary (cs.curr_ + 1))] ∧
        terminators (cs₂.insts (.primary cs.curr_)) = [.br (.primary (cs.curr_ + 1))]) ∧
    (translate Translators.silent loadboolBoth).map
        (fun cs' => [cs'.insts (.primary 0), cs'.insts (.primary 1)]) =
      some [[.setBoolean (.register 0) (.int 1), .br (.primary 2)],
            [.setBoolean (.register 0) (.int 0), .br (.primary 2)]] := by
  have h1 := h.table
  have h3 := h.point
  have h4 := h.open_
  refine ⟨rfl, fun hc hn => ?_, fun hc hn => ?_, by decide!⟩
  · have e : CompileLoadbool cs = some ((), cs.append (.primary cs.curr_)
        [.setBoolean (.register (GETARG_A cs.instr_)) (.int (GETARG_B cs.instr_)),
         .br (.primary (cs.curr_ + 2))]) := by
      simp [CompileLoadbool, hc, blockAt_two n cs.curr_ hn, h1, bind_eq, pure_eq,
        get_apply, emit_apply, CreateBr_apply, append_append, h3, MakeInt]
    refine ⟨_, e, ?_, by simp, ?_⟩
    · refine fallThrough_closed _ n (by simpa using h1) (by simpa using h.inRange) ?_
      simp [getTerminator_append_cons, getTerminator_cons_cons, getTerminator_singleton,
        Inst.isTerminator]
    · simp [terminators_append, terminators_cons, terminators_nil, Inst.isTerminator, h4]
  · have e : CompileLoadbool cs = some ((), cs.append (.primary cs.curr_)
        [.setBoolean (.register (GETARG_A cs.instr_)) (.int (GETARG_B cs.instr_))]) := by
      simp [CompileLoadbool, hc, bind_eq, pure_eq, get_apply, emit_apply, h3, MakeInt]
    have hopen : terminators ((cs.append (.primary cs.curr_)
        [.setBoolean (.register (GETARG_A cs.instr_))
          (.int (GETARG_B cs.instr_))]).insts (.primary cs.curr_)) = [] := by
      simp [terminators_append, terminators_cons, terminators_nil, Inst.isTerminator, h4]
    have hf := fallThrough_open (cs.append (.primary cs.curr_)
        [.setBoolean (.register (GETARG_A cs.instr_)) (.int (GETARG_B cs.instr_))]) n
        (by simpa using h1) (getTerminator_of_open _ hopen) (by simpa using hn)
    refine ⟨_, _, e, hopen, hf, ?_, ?_⟩
    · simp [h3]
    · simp [terminators_append, terminators_cons, terminators_nil, Inst.isTerminator, h4,
        h3]

theorem C14_witness :
    ∃ cs₁, CompileLoadbool (handlerState loadboolBoth 0) = some ((), cs₁) ∧
      fallThrough cs₁ = some ((), cs₁) ∧
      cs₁.insts (.primary 0) = [] ++
        [.setBoolean (.register 0) (.int (1 : Nat)), .br (.primary (0 + 2))] ∧
      terminators (cs₁.insts (.primary 0)) = [.br (.primary (0 + 2))] :=
  (C14_loadbool_single_terminator Translators.silent (handlerState loadboolBoth 0) 3
    (ready_handlerState loadboolBoth 0 (by decide))).2.1 (by decide) (by decide)

/-- C15: the block of a comparison (`EQ`, `LT`, `LE`) at offset `i` calls the
comparison function, reloads the stack base, compares the result of the call
with the operand `A` and ends with the conditional branch; when it runs,
control enters block `i+2` exactly when the result of the call differs from
`A` and block `i+1` exactly when it equals `A`. -/
theorem C15_comparison_branch (T : Translators) (f : RuntimeFn) (cs : CompilerState)
    (n : Nat) (h : Ready cs n) (he : cs.insts (.primary cs.curr_) = [])
    (hv : cs.values_ = entryValues) (hn : cs.curr_ + 2 < n) :
    (dispatch T (some OP_EQ) = CompileCmp .luaV_equalobj ∧
      dispatch T (some OP_LT) = CompileCmp .luaV_lessthan ∧
      dispatch T (some OP_LE) = CompileCmp .luaV_lessequal) ∧
    ∃ cs', CompileCmp f cs = some ((), cs') ∧
      cs'.insts (.primary cs.curr_) =
        [.getTValue (.byArg (GETARG_B cs.instr_)),
         .getTValue (.byArg (GETARG_C cs.instr_)),
         .call f [.state, .inst (.primary cs.curr_) 0, .inst (.primary cs.curr_) 1]] ++
        updateStackCode entryValues (.primary cs.curr_) 3 ++
        [.icmpNE (.inst (.primary cs.curr_) 2) (.int (GETARG_A cs.instr_)),
         .condBr (.inst (.primary cs.curr_) 8) (.primary (cs.curr_ + 2))
           (.primary (cs.curr_ + 1))] ∧
      ∀ (W : World) (pred : BlockId) (m : Machine) (u : Nat),
        (W.call f [.state, .tvalue (.byArg (GETARG_B cs.instr_)),
          .tvalue (.byArg (GETARG_C cs.instr_))] m.mem).1 = .int 32 u →
        (stepBlock W cs'.insts pred (.primary cs.curr_) m).next =
          some (if u ≠ GETARG_A cs.instr_ then .primary (cs.curr_ + 2)
            else .primary (cs.curr_ + 1)) := by
  have h1 := h.table
  have h3 := h.point
  have e : CompileCmp f cs = some ((), cs.append (.primary cs.curr_)
      ([.getTValue (.byArg (GETARG_B cs.instr_)),
         .getTValue (.byArg (GETARG_C cs.instr_)),
         .call f [.state, .inst (.primary cs.curr_) 0, .inst (.primary cs.curr_) 1]] ++
        updateStackCode entryValues (.primary cs.curr_) 3 ++
        [.icmpNE (.inst (.primary cs.curr_) 2) (.int (GETARG_A cs.instr_)),
         .condBr (.inst (.primary cs.curr_) 8) (.primary (cs.curr_ + 2))
           (.primary (cs.curr_ + 1))])) := by
    simp [CompileCmp, blockAt_two n cs.curr_ hn, blockAt_one n cs.curr_ (by omega), h1,
      bind_eq, pure_eq, get_apply, emit_apply, CreateCall_apply, CreateCondBr_apply,
      UpdateStack_apply, append_append, h3, he, hv, entryValues, updateStackCode, MakeInt]
  refine ⟨⟨rfl, rfl, rfl⟩, _, e, by simp [he], fun W pred m u hu => ?_⟩
  have hA : toU 32 (GETARG_A cs.instr_ : Int) = GETARG_A cs.instr_ :=
    toU_natCast 32 _ (by unfold GETARG_A; omega)
  by_cases hne : u = GETARG_A cs.instr_ <;>
    simp [stepBlock, he, updateStackCode, entryValues, execFrom_step, execFrom_term,
      Inst.isTerminator, execInst, evalValue, Control.next, sizeof_int, hu, hA, hne]

theorem C15_witness :
    ∃ cs', CompileCmp .luaV_equalobj (handlerState eqJump 0) = some ((), cs') ∧
      (stepBlock World.quiet cs'.insts .entry (.primary 0) Machine.blank).next =
        some (.primary 2) :=
  (C15_comparison_branch Translators.silent .luaV_equalobj (handlerState eqJump 0) 3
    (ready_handlerState eqJump 0 (by decide)) (by decide) rfl (by decide)).2.elim
    fun cs' hc => ⟨cs', hc.1, hc.2.2 World.quiet .entry Machine.blank 0 rfl⟩

/-! ## The stages of `Compile` -/

theorem CompileInstructions_true (T : Translators) (cs cs1 : CompilerState) (b : Bool)
    (h : CompileInstructions T cs = some (b, cs1)) : b = true := by
  simp only [CompileInstructions, bind_eq, modify_apply, get_apply, pure_eq] at h
  split at h
  · cases h
  · simp only [Option.some.injEq, Prod.mk.injEq] at h
    exact h.1.symm

/-- C12: `Compile` translates, verifies the translated module, optimises it
and hands the optimised module to the engine builder, and it stops at the
first stage that fails.  It returns true exactly when the verifier reports no
error and the builder makes an engine.  When the verifier reports an error
the module is neither optimised nor released and the verifier's text is in
`error_`; when the builder fails its message is in `error_`.  Whenever
`Compile` returns false, `GetEngine` returns null; after it returned true the
first `GetEngine` returns the engine and a second one returns null. -/
theorem C12_compile_stops_at_first_failure (T : Translators) (B : Backend)
    (c : Compiler) (h0 : c.engine_ = none)
    (hci : (CompileInstructions T c.cs_).isSome = true) :
    ∃ cs1 r c', CompileInstructions T c.cs_ = some (true, cs1) ∧
      c.Compile T B = some (r, c') ∧
      (r = true ↔
        (B.verifyModule cs1).1 = false ∧ ∃ e, B.create (B.promote cs1) = .ok e) ∧
      (r = false → c'.GetEngine.1 = none) ∧
      ((B.verifyModule cs1).1 = true →
        r = false ∧ c'.cs_ = cs1 ∧ c'.moduleHeld = c.moduleHeld ∧
        c'.GetErrorMessage = c.error_ ++ (B.verifyModule cs1).2) ∧
      ((B.verifyModule cs1).1 = false →
        c'.cs_ = B.promote cs1 ∧ c'.moduleHeld = false) ∧
      (∀ msg, (B.verifyModule cs1).1 = false →
        B.create (B.promote cs1) = .error msg → r = false ∧ c'.GetErrorMessage = msg) ∧
      (r = true → ∃ e, B.create (B.promote cs1) = .ok e ∧
        c'.GetEngine.1 = some ⟨e⟩ ∧ c'.GetEngine.2.GetEngine.1 = none) := by
  obtain ⟨⟨b, cs1⟩, e⟩ := Option.isSome_iff_exists.1 hci
  have hb := CompileInstructions_true T _ _ _ e
  subst hb
  refine ⟨cs1, ?_⟩
  cases hv : (B.verifyModule cs1).1 with
  | true =>
    refine ⟨false, ⟨cs1, c.moduleHeld, c.error_ ++ (B.verifyModule cs1).2, c.engine_,
      true⟩, e, ?_, ?_⟩
    · simp [Compiler.Compile, Compiler.CompileInstructions, e, Compiler.VerifyModule, hv]
    · simp [Compiler.GetEngine, Compiler.GetErrorMessage, h0]
  | false =>
    cases hc : B.create (B.promote cs1) with
    | ok eng =>
      refine ⟨true, ⟨B.promote cs1, false, c.error_ ++ (B.verifyModule cs1).2,
        some ⟨eng⟩, c.dumped⟩, e, ?_, ?_⟩
      · simp [Compiler.Compile, Compiler.CompileInstructions, e, Compiler.VerifyModule, hv,
          Compiler.OptimizeModule, Compiler.CreateEngine, hc]
      · simp [Compiler.GetEngine]
    | error msg =>
      refine ⟨false, ⟨B.promote cs1, false, msg, c.engine_, c.dumped⟩, e, ?_, ?_⟩
      · simp [Compiler.Compile, Compiler.CompileInstructions, e, Compiler.VerifyModule, hv,
          Compiler.OptimizeModule, Compiler.CreateEngine, hc]
      · simp [Compiler.GetEngine, Compiler.GetErrorMessage, h0]

theorem C12_witness :
    ∃ cs1 r c', CompileInstructions Translators.silent (handlerState loadkReturn 0) =
        some (true, cs1) ∧
      (Compiler.mk (handlerState loadkReturn 0) true "" none false).Compile
        Translators.silent Backend.rejecting = some (r, c') ∧
      r = false ∧ c'.GetEngine.1 = none :=
  (C12_compile_stops_at_first_failure Translators.silent Backend.rejecting
    ⟨handlerState loadkReturn 0, true, "", none, false⟩ rfl (by decide!)).elim
    fun cs1 h1 => h1.elim fun r h2 => h2.elim fun c' h3 =>
      ⟨cs1, r, c', h3.1, h3.2.1, (h3.2.2.2.2.1 rfl).1,
        h3.2.2.2.1 ((h3.2.2.2.2.1 rfl).1)⟩

/-! ## The block table throughout the translation -/

theorem stepsFrom_ok (T : Translators) (hT : T.Respectful) (p : Proto)
    (hneeds : p.Translatable) :
    ∀ (k : Nat) (cs : CompilerState), DriverInv p cs → cs.curr_ + k ≤ p.sizecode →
      ∃ cs', stepsFrom T k cs = some ((), cs') ∧ DriverInv p cs' ∧
        cs'.curr_ = cs.curr_ + k := by
  intro k
  induction k with
  | zero =>
    intro cs hinv _
    exact ⟨cs, rfl, hinv, rfl⟩
  | succ k ih =>
    intro cs hinv hk
    obtain ⟨cs1, e1, hc1, hinv1⟩ := compileOne_ok T hT p cs hinv (by omega) hneeds
    obtain ⟨cs2, e2, hinv2, hc2⟩ := ih (cs1.withCurr (cs.curr_ + 1)) hinv1
      (by simp; omega)
    refine ⟨cs2, ?_, hinv2, by simpa [Nat.add_assoc, Nat.add_comm 1 k] using hc2⟩
    simp only [stepsFrom, bind_eq, e1, modify_apply, hc1]
    exact e2

theorem compileLoop_eq_stepsFrom (T : Translators) (hT : T.Respectful) (p : Proto)
    (hneeds : p.Translatable) :
    ∀ (fuel : Nat) (cs : CompilerState), DriverInv p cs →
      cs.curr_ + fuel = p.sizecode → compileLoop T fuel cs = stepsFrom T fuel cs := by
  intro fuel
  induction fuel with
  | zero =>
    intro cs hinv hk
    have : ¬ cs.curr_ < cs.proto_.sizecode := by
      rw [hinv.proto]; omega
    simp [compileLoop, stepsFrom, this, pure_eq]
  | succ fuel ih =>
    intro cs hinv hk
    have hlt : cs.curr_ < p.sizecode := by omega
    obtain ⟨cs1, e1, hc1, hinv1⟩ := compileOne_ok T hT p cs hinv hlt hneeds
    have hlt' : cs.curr_ < cs.proto_.sizecode := by rw [hinv.proto]; exact hlt
    simp only [compileLoop, stepsFrom, bind_eq, get_apply, hlt', if_true, e1,
      modify_apply, hc1]
    exact ih _ hinv1 (by simp; omega)

theorem blockTable_nodup (n : Nat) : (blockTable n).Nodup := by
  unfold blockTable
  exact (List.nodup_range n).map (fun a b h => by cases h; rfl)

/-- C13: at every iteration of the driver's loop, from before the first to
after the last, the table `blocks_` holds the primary blocks of the offsets
`0 .. sizecode - 1`, in order and pairwise distinct, all of them blocks of the
function; the entry block branches to the block of offset 0 and nowhere else;
and every branch in a block of the function goes to a block of the table or
to a sub-block allocated for the instruction the branching block belongs to,
so a sub-block is never the target of a block of another instruction. -/
theorem C13_block_table_invariant (T : Translators) (hT : T.Respectful) (p : Proto)
    (hlast : lastTerminates p = true) (hrange : targetsInRange p = true) :
    translatePrefix T p p.sizecode = translate T p ∧
    ∀ k, k ≤ p.sizecode → ∃ cs, translatePrefix T p k = some cs ∧
      cs.blocks_ = (List.range p.sizecode).map BlockId.primary ∧
      cs.blocks_.length = p.sizecode ∧ cs.blocks_.Nodup ∧
      (∀ b ∈ cs.blocks_, b ∈ cs.layout) ∧
      successors (cs.insts .entry) = [.primary 0] ∧
      (∀ b ∈ cs.layout, ∀ s ∈ successors (cs.insts b),
        s ∈ cs.blocks_ ∨ ∃ i j, s = .sub i j ∧ ownedBy i b = true) ∧
      (∀ b ∈ cs.layout, ∀ i j, BlockId.sub i j ∈ successors (cs.insts b) →
        ownedBy i b = true) := by
  have hp : 0 < p.sizecode := by
    simp only [lastTerminates, Bool.and_eq_true, decide_eq_true_eq] at hlast
    exact hlast.1
  have hneeds := translatable_of p hlast hrange
  obtain ⟨cs0, e0, hinv0, hc0⟩ := create_inv p hp
  have hinv0' : DriverInv p (cs0.withCurr 0) := by
    have := driverInv_withCurr p cs0 hinv0
    rwa [hc0] at this
  have hproto : cs0.proto_ = p := hinv0.proto
  refine ⟨?_, fun k hk => ?_⟩
  · have := compileLoop_eq_stepsFrom T hT p hneeds p.sizecode (cs0.withCurr 0) hinv0'
      (by simp)
    simp only [translatePrefix, translate, e0, CompileInstructions, bind_eq, modify_apply,
      get_apply, withCurr_proto_, hproto, this, pure_eq]
    cases stepsFrom T p.sizecode (cs0.withCurr 0) <;> rfl
  · obtain ⟨cs, e, hinv, _⟩ := stepsFrom_ok T hT p hneeds k (cs0.withCurr 0) hinv0'
      (by simpa using hk)
    have htab : cs.blocks_ = blockTable p.sizecode := hinv.table
    refine ⟨cs, by simp [translatePrefix, e0, e], htab, by simp [htab, blockTable],
      by rw [htab]; exact blockTable_nodup _, ?_, hinv.entryTo, ?_, ?_⟩
    · intro b hb
      rw [htab, mem_blockTable] at hb
      obtain ⟨i, hi, rfl⟩ := hb
      exact hinv.primaryIn i hi
    · intro b hb s hs
      rw [htab]
      exact hinv.targets b hb s hs
    · intro b hb i j hs
      rcases hinv.targets b hb _ hs with h | ⟨i', j', h, ho⟩
      · rw [mem_blockTable] at h
        obtain ⟨_, _, h⟩ := h
        cases h
      · cases h
        exact ho

theorem C13_witness :
    ∃ cs, translatePrefix Translators.silent loadkReturn 1 = some cs ∧
      cs.blocks_ = (List.range 2).map BlockId.primary ∧
      cs.blocks_.length = 2 ∧ cs.blocks_.Nodup ∧
      (∀ b ∈ cs.blocks_, b ∈ cs.layout) ∧
      successors (cs.insts .entry) = [.primary 0] ∧
      (∀ b ∈ cs.layout, ∀ s ∈ successors (cs.insts b),
        s ∈ cs.blocks_ ∨ ∃ i j, s = .sub i j ∧ ownedBy i b = true) ∧
      (∀ b ∈ cs.layout, ∀ i j, BlockId.sub i j ∈ successors (cs.insts b) →
        ownedBy i b = true) :=
  (C13_block_table_invariant Translators.silent silent_respectful loadkReturn
    (by decide) (by decide)).2 1 (by decide)

/-! ## Running the code of `VARARG` -/

theorem toU_sub_trunc (d x : Int) :
    toU 32 (((toU 64 d % 4294967296 : Nat) : Int) - ((toU 32 x : Nat) : Int)) =
      toU 32 (d - x) := by
  unfold toU
  norm_num
  omega

theorem toU_lt (z : Int) : toU 32 z < 4294967296 := by
  unfold toU
  norm_num
  omega

theorem execFrom_plain (W : World) (m0 : Machine) (pred cur : BlockId) (rest : List Inst) :
    ∀ (l : List Inst) (k : Nat) (m : Machine), l.all Inst.isPlain = true →
      execFrom W m0 pred cur (l ++ rest) k m =
        execFrom W m0 pred cur rest (k + l.length) (execList W cur l k m) := by
  intro l
  induction l with
  | nil => intro k m _; rfl
  | cons i l ih =>
    intro k m hl
    simp only [List.all_cons, Bool.and_eq_true] at hl
    have hi : i.isTerminator = false ∧ ∀ inc, i ≠ .phi inc := by
      cases i <;> first
        | exact ⟨rfl, fun _ h => Inst.noConfusion h⟩
        | exact Bool.noConfusion hl.1
    rw [List.cons_append, execFrom_step W m0 pred cur i _ k m hi.1 hi.2, ih (k + 1) _ hl.2]
    simp only [execList, List.length_cons]
    congr 1
    omega

theorem ComputeAvailableArgs_eq (v : Vararg) (cs : CompilerState) (n : Nat)
    (h : Ready cs n) (he : cs.insts (.primary cs.curr_) = []) :
    Vararg.ComputeAvailableArgs v cs =
      some ({ v with available_ := .inst (.primary cs.curr_) 9 },
        cs.append (.primary cs.curr_)
          (Vararg.availableCode cs.values_ cs.proto_.numparams (.primary cs.curr_))) := by
  have h3 := h.point
  simp [Vararg.ComputeAvailableArgs, bind_eq, pure_eq, get_apply, emit_apply, LoadField_apply,
    append_append, h3, he, Vararg.availableCode, MakeInt]

theorem available_value (W : World) (m : Machine) (p : BlockId) (np : Nat)
    (hp : p ≠ .entry) :
    (execList W p (Vararg.availableCode entryValues np p) 0 m).env (p, 9) = .int 32
        (if 0 ≤ sval 32 (toU 32 (Vararg.vadiff W m - (np + 1)))
          then toU 32 (Vararg.vadiff W m - (np + 1)) else 0) := by
  have hp' : BlockId.entry ≠ p := hp.symm
  have e0 : sval 32 (toU 32 0) = 0 := by decide
  simp only [execList, Vararg.availableCode, entryValues]
  simp only [execInst, evalValue, bind_env, bind_mem, Function.update_same, sizeof_int,
    Function.update_apply, Prod.mk.injEq, hp, hp', reduceCtorEq, and_false, false_and,
    and_true, true_and, if_false, if_true, ↓reduceIte, Bool.false_eq_true, Nat.reduceAdd,
    Nat.reduceMul, Nat.reducePow, Nat.reduceEqDiff, Nat.cast_ofNat,
    e0, Vararg.vadiff, Nat.cast_ite, Nat.cast_one, Nat.cast_zero]
  rw [toU_sub_trunc]
  have hlt := toU_lt (ptrDistance W (m.env (BlockId.entry, 6))
    (m.mem ((m.env (BlockId.entry, 3)).field Field.CallInfo_func)) - ((np : Int) + 1))
  congr 1
  split_ifs with h1
  · simp [Nat.mod_eq_of_lt hlt]
  · simp

theorem available_frame (W : World) (m : Machine) (p : BlockId) (np : Nat) :
    (execList W p (Vararg.availableCode entryValues np p) 0 m).mem = m.mem ∧
    (execList W p (Vararg.availableCode entryValues np p) 0 m).trace = m.trace ∧
    ∀ q k, q ≠ p →
      (execList W p (Vararg.availableCode entryValues np p) 0 m).env (q, k) =
        m.env (q, k) := by
  refine ⟨?_, ?_, fun q k hq => ?_⟩
  · simp only [execList, Vararg.availableCode, execInst, bind_mem]
  · simp only [execList, Vararg.availableCode, execInst, bind_trace]
  · simp only [execList, Vararg.availableCode, execInst, bind_env, Function.update_apply,
      Prod.mk.injEq, hq, false_and, if_false]

theorem clamp_count (z : Int) (h1 : -(2 : Int) ^ 31 ≤ z) (h2 : z < 2 ^ 31) :
    (if 0 ≤ sval 32 (toU 32 z) then toU 32 z else 0) = (max 0 z).toNat := by
  rw [sval_toU 32 z (by norm_num) (by simpa using h1) (by simpa using h2)]
  split_ifs with h
  · rw [max_eq_right h]
    unfold toU
    rw [Int.emod_eq_of_lt h (by norm_num at h2 ⊢; omega)]
  · rw [max_eq_left (by omega)]
    rfl

/-- The value `available_` that `ComputeAvailableArgs` emits is, when the
block runs, `n` multiplied by the zero-extended result of the signed test
`n >= 0`: `n` itself when `n >= 0` and 0 when `n < 0`.  Here `n` is the
32-bit difference between `Vararg.vadiff`, the distance from the function
record to the address `values_.base` names (the slot that holds the stack
base, not the base), and `numparams + 1`. -/
theorem available_is_clamped_distance (v : Vararg) (cs : CompilerState) (n : Nat)
    (h : Ready cs n) (he : cs.insts (.primary cs.curr_) = [])
    (hv : cs.values_ = entryValues) :
    ∃ v' cs', Vararg.ComputeAvailableArgs v cs = some (v', cs') ∧
      ∀ (W : World) (m0 m : Machine) (pred : BlockId),
        evalValue (execFrom W m0 pred (.primary cs.curr_)
            (cs'.insts (.primary cs.curr_)) 0 m).1 v'.available_ =
          .int 32
            (if 0 ≤ sval 32 (toU 32 (Vararg.vadiff W m - (cs.proto_.numparams + 1)))
              then toU 32 (Vararg.vadiff W m - (cs.proto_.numparams + 1)) else 0) ∧
        (-(2 : Int) ^ 31 ≤ Vararg.vadiff W m - (cs.proto_.numparams + 1) →
          Vararg.vadiff W m - (cs.proto_.numparams + 1) < 2 ^ 31 →
          evalValue (execFrom W m0 pred (.primary cs.curr_)
              (cs'.insts (.primary cs.curr_)) 0 m).1 v'.available_ =
            .int 32 (Vararg.availableCount W cs.proto_.numparams m) ∧
          (Vararg.availableCount W cs.proto_.numparams m : Int) =
            max 0 (Vararg.vadiff W m - (cs.proto_.numparams + 1))) := by
  refine ⟨_, _, ComputeAvailableArgs_eq v cs n h he, fun W m0 m pred => ?_⟩
  have hrun : (execFrom W m0 pred (.primary cs.curr_)
      ((cs.append (.primary cs.curr_) (Vararg.availableCode cs.values_
        cs.proto_.numparams (.primary cs.curr_))).insts (.primary cs.curr_)) 0 m).1 =
      execList W (.primary cs.curr_)
        (Vararg.availableCode entryValues cs.proto_.numparams (.primary cs.curr_)) 0 m := by
    have := execFrom_plain W m0 pred (.primary cs.curr_) []
      (Vararg.availableCode entryValues cs.proto_.numparams (.primary cs.curr_)) 0 m
      (by simp [Vararg.availableCode, Inst.isPlain, Inst.isTerminator])
    simp only [List.append_nil] at this
    simp only [append_insts, Function.update_same, he, List.nil_append, hv, this,
      execFrom_nil]
  have hval := available_value W m (.primary cs.curr_) cs.proto_.numparams
    (by intro hc; cases hc)
  rw [hrun]
  refine ⟨hval, fun h1 h2 => ?_⟩
  have hc := clamp_count _ h1 h2
  refine ⟨?_, ?_⟩
  · simp only [evalValue] at hval ⊢
    rw [hval, hc]
    rfl
  · unfold Vararg.availableCount
    exact Int.toNat_of_nonneg (le_max_left _ _)

/-! ## The loops of `VARARG` -/

theorem leads_refl (W : World) (F : BlockId → List Inst) (stop : BlockId → Bool)
    (pred cur : BlockId) (m : Machine) : Leads W F stop pred cur m pred cur m :=
  fun _ f h => ⟨f, h⟩

theorem leads_trans {W : World} {F : BlockId → List Inst} {stop : BlockId → Bool}
    {p₁ c₁ p₂ c₂ p₃ c₃ : BlockId} {m₁ m₂ m₃ : Machine}
    (h₁ : Leads W F stop p₁ c₁ m₁ p₂ c₂ m₂) (h₂ : Leads W F stop p₂ c₂ m₂ p₃ c₃ m₃) :
    Leads W F stop p₁ c₁ m₁ p₃ c₃ m₃ :=
  fun R f h => by
    obtain ⟨f', h'⟩ := h₂ R f h
    exact h₁ R f' h'

theorem leads_step {W : World} {F : BlockId → List Inst} {stop : BlockId → Bool}
    {pred cur p' c' : BlockId} {m m' : Machine} (hs : stop cur = false)
    (h : stepBlock W F pred cur m = .enter p' c' m') :
    Leads W F stop pred cur m p' c' m' :=
  fun R f hr => ⟨f + 1, by simp only [run, hs, h]; exact hr⟩

theorem leads_run {W : World} {F : BlockId → List Inst} {stop : BlockId → Bool}
    {pred cur p' c' : BlockId} {m m' : Machine}
    (h : Leads W F stop pred cur m p' c' m') (hs : stop c' = true) :
    ∃ f, run W F stop f pred cur m = some (.enter p' c' m') :=
  h _ 1 (by simp [run, hs])

theorem sval_small (u : Nat) (h : u < 2 ^ 31) : sval 32 u = u := by
  unfold sval
  simp only [Nat.add_one_sub_one, Nat.reduceSub]
  rw [if_pos h]

theorem toU_small (u : Nat) (h : u < 2 ^ 31) : toU 32 (u : Int) = u :=
  toU_natCast 32 u (by omega)

namespace Vararg

theorem copies_zero (base : RVal) (a av i : Nat) : copies base a av i 0 = [] := rfl

theorem copies_succ (base : RVal) (a av i r : Nat) :
    copies base a av i (r + 1) =
      .setRegister (.elem base ((a : Int) + i)) (.elem base ((i : Int) - av)) ::
        copies base a av (i + 1) r := by
  simp only [copies, List.range_succ_eq_map, List.map_cons, List.map_map, Nat.add_zero]
  congr 1
  apply List.map_congr_left
  intro k _
  simp only [Function.comp, Nat.succ_eq_add_one]
  have : i + (k + 1) = i + 1 + k := by omega
  rw [this]

theorem fills_zero (base : RVal) (a j : Nat) : fills base a j 0 = [] := rfl

theorem fills_succ (base : RVal) (a j r : Nat) :
    fills base a j (r + 1) =
      .store (.int 32 0) (.field (.elem base ((a : Int) + j)) .TValue_tt) ::
        fills base a (j + 1) r := by
  simp only [fills, List.range_succ_eq_map, List.map_cons, List.map_map, Nat.add_zero]
  congr 1
  apply List.map_congr_left
  intro k _
  simp only [Function.comp, Nat.succ_eq_add_one]
  have : j + (k + 1) = j + 1 + k := by omega
  rw [this]

end Vararg

theorem step_requiredmin (W : World) (F : BlockId → List Inst) (c a b : Nat)
    (hF : ∀ k, F (.sub c k) = Vararg.subCode entryValues a b c k)
    (pred : BlockId) (m : Machine) :
    stepBlock W F pred (.sub c 0) m = .enter (.sub c 0) (.sub c 2) m := by
  simp [stepBlock, hF, Vararg.subCode, execFrom_term, Inst.isTerminator]

theorem step_availablemin (W : World) (F : BlockId → List Inst) (c a b : Nat)
    (hF : ∀ k, F (.sub c k) = Vararg.subCode entryValues a b c k)
    (pred : BlockId) (m : Machine) :
    stepBlock W F pred (.sub c 1) m = .enter (.sub c 1) (.sub c 2) m := by
  simp [stepBlock, hF, Vararg.subCode, execFrom_term, Inst.isTerminator]

theorem step_moveend (W : World) (F : BlockId → List Inst) (c a b : Nat)
    (hF : ∀ k, F (.sub c k) = Vararg.subCode entryValues a b c k)
    (pred : BlockId) (m : Machine) :
    stepBlock W F pred (.sub c 5) m = .enter (.sub c 5) (.sub c 6) m := by
  simp [stepBlock, hF, Vararg.subCode, execFrom_term, Inst.isTerminator]

theorem step_computenmoves (W : World) (F : BlockId → List Inst) (c a b : Nat)
    (hF : ∀ k, F (.sub c k) = Vararg.subCode entryValues a b c k)
    (pred : BlockId) (m : Machine) :
    stepBlock W F pred (.sub c 2) m = .enter (.sub c 2) (.sub c 3)
      (m.bind (.sub c 2, 0) (phiValue m pred
        [(Vararg.required b (.primary c), .sub c 0),
         (Vararg.available (.primary c), .sub c 1)])) := by
  simp [stepBlock, hF, Vararg.subCode, execFrom_phi, execFrom_term, Inst.isTerminator]

theorem stepBlock_enter (W : World) (F : BlockId → List Inst) {pred cur d : BlockId} {m : Machine}
    (h : (stepBlock W F pred cur m).next = some d) :
    stepBlock W F pred cur m = .enter cur d (execFrom W m pred cur (F cur) 0 m).1 := by
  unfold stepBlock at h ⊢
  rcases hx : execFrom W m pred cur (F cur) 0 m with ⟨m', t⟩
  rw [hx] at h
  rcases t with _ | t
  · simp [Control.next] at h
  · cases t <;> simp only [Control.next, reduceCtorEq] at h ⊢
    · simp only [Option.some.injEq] at h
      rw [h]
    · revert h
      cases evalValue m' ‹Value› <;> simp only [Control.next, reduceCtorEq, imp_false,
        not_false_eq_true, implies_true]
      split_ifs <;> simp only [Control.next, Option.some.injEq] <;> intro h <;> rw [h]

theorem step_movecheck (W : World) (F : BlockId → List Inst) (c a b : Nat)
    (hF : ∀ k, F (.sub c k) = Vararg.subCode entryValues a b c k)
    (pred : BlockId) (m : Machine) (i mv : Nat)
    (hphi : phiValue m pred [(.int 0, .sub c 2), (.inst (.sub c 3) 1, .sub c 4)] =
      .int 32 i)
    (hmv : m.env (.sub c 2, 0) = .int 32 mv) (hi : i ≤ mv) (hm : mv < 2 ^ 31) :
    ∃ m', stepBlock W F pred (.sub c 3) m =
        .enter (.sub c 3) (if i < mv then .sub c 4 else .sub c 5) m' ∧
      m'.env (.sub c 3, 0) = .int 32 i ∧ m'.env (.sub c 3, 1) = .int 32 (i + 1) ∧
      m'.mem = m.mem ∧ m'.trace = m.trace ∧
      ∀ q k, q ≠ .sub c 3 → m'.env (q, k) = m.env (q, k) := by
  have h1 : (i + 1) % 4294967296 = i + 1 := Nat.mod_eq_of_lt (by omega)
  have hsi : sval 32 i = i := sval_small i (by omega)
  have hsm : sval 32 mv = mv := sval_small mv hm
  have e1 : toU 32 1 = 1 := by decide
  refine ⟨((m.bind (.sub c 3, 0) (.int 32 i)).bind (.sub c 3, 1) (.int 32 (i + 1))).bind
    (.sub c 3, 2) (.int 1 (if i < mv then 1 else 0)), ?_, ?_⟩
  · by_cases hlt : i < mv <;>
      simp [stepBlock, hF, Vararg.subCode, Vararg.nmoves, execFrom_phi, execFrom_step,
        execFrom_term, Inst.isTerminator, hphi, execInst, evalValue, hmv, hsi, hsm, hlt,
        sizeof_int, e1, h1]
  · refine ⟨by simp, by simp, by simp, by simp, fun q k hq => ?_⟩
    simp [hq]

theorem step_move (W : World) (F : BlockId → List Inst) (c a b : Nat)
    (hF : ∀ k, F (.sub c k) = Vararg.subCode entryValues a b c k)
    (pred : BlockId) (m : Machine) (i av : Nat) (Bv : RVal)
    (hi : m.env (.sub c 3, 0) = .int 32 i) (hav : m.env (.primary c, 9) = .int 32 av)
    (hB : m.env (.entry, 6) = Bv) (hia : i < av) (ha : av < 2 ^ 31)
    (hai : a + i < 2 ^ 31) :
    ∃ m', stepBlock W F pred (.sub c 4) m = .enter (.sub c 4) (.sub c 3) m' ∧
      m'.trace = m.trace ++
        [.setRegister (.elem Bv ((a : Int) + i)) (.elem Bv ((i : Int) - av))] ∧
      m'.mem = m.mem ∧ ∀ q k, q ≠ .sub c 4 → m'.env (q, k) = m.env (q, k) := by
  have h1 : (a + i) % 4294967296 = a + i := Nat.mod_eq_of_lt (by omega)
  have hs1 : sval 32 (a + i) = (a : Int) + i := by
    rw [sval_small (a + i) hai]; push_cast; rfl
  have hs2 : sval 32 (toU 32 ((i : Int) - av)) = (i : Int) - av :=
    sval_toU 32 _ (by norm_num) (by norm_num; omega) (by norm_num; omega)
  have ea : toU 32 (a : Int) = a := toU_small a (by omega)
  refine ⟨((((m.bind (.sub c 4, 0) (.int 32 (toU 32 ((i : Int) - av)))).bind (.sub c 4, 1)
    (.elem Bv ((i : Int) - av))).bind (.sub c 4, 2) (.int 32 (a + i))).bind (.sub c 4, 3)
    (.elem Bv ((a : Int) + i))).log
      (.setRegister (.elem Bv ((a : Int) + i)) (.elem Bv ((i : Int) - av))), ?_, ?_⟩
  · simp [stepBlock, hF, Vararg.subCode, Vararg.available, entryValues, execFrom_step,
      execFrom_term, Inst.isTerminator, execInst, evalValue, hi, hav, hB, sizeof_int, h1,
      hs1, hs2, ea]
  · refine ⟨by simp, by simp, fun q k hq => ?_⟩
    simp [hq]

theorem step_fillcheck (W : World) (F : BlockId → List Inst) (c a b : Nat)
    (hF : ∀ k, F (.sub c k) = Vararg.subCode entryValues a b c k)
    (pred : BlockId) (m : Machine) (j rq : Nat)
    (hphi : phiValue m pred
      [(Vararg.nmoves c, .sub c 5), (.inst (.sub c 6) 1, .sub c 7)] = .int 32 j)
    (hrq : evalValue m (Vararg.required b (.primary c)) = .int 32 rq)
    (hj : j ≤ rq) (hr : rq < 2 ^ 31) :
    ∃ m', stepBlock W F pred (.sub c 6) m =
        .enter (.sub c 6) (if j < rq then .sub c 7 else .primary (c + 1)) m' ∧
      m'.env (.sub c 6, 0) = .int 32 j ∧ m'.env (.sub c 6, 1) = .int 32 (j + 1) ∧
      m'.mem = m.mem ∧ m'.trace = m.trace ∧
      ∀ q k, q ≠ .sub c 6 → m'.env (q, k) = m.env (q, k) := by
  have h1 : (j + 1) % 4294967296 = j + 1 := Nat.mod_eq_of_lt (by omega)
  have hsj : sval 32 j = j := sval_small j (by omega)
  have hsr : sval 32 rq = rq := sval_small rq hr
  have e1 : toU 32 1 = 1 := by decide
  refine ⟨((m.bind (.sub c 6, 0) (.int 32 j)).bind (.sub c 6, 1) (.int 32 (j + 1))).bind
    (.sub c 6, 2) (.int 1 (if j < rq then 1 else 0)), ?_, ?_⟩
  · by_cases hb : b = 0
    · simp only [Vararg.required, hb, if_true, Vararg.available, evalValue] at hrq
      by_cases hlt : j < rq <;>
        simp [stepBlock, hF, Vararg.subCode, Vararg.required, Vararg.available, hb,
          execFrom_phi, execFrom_step, execFrom_term, Inst.isTerminator, hphi, execInst,
          evalValue, hrq, hsj, hsr, hlt, sizeof_int, e1, h1]
    · have hq : toU 32 ((b : Int) - 1) = rq := by
        simpa [Vararg.required, hb, evalValue, sizeof_int] using hrq
      by_cases hlt : j < rq <;>
        simp [stepBlock, hF, Vararg.subCode, Vararg.required, Vararg.available, hb,
          execFrom_phi, execFrom_step, execFrom_term, Inst.isTerminator, hphi, execInst,
          evalValue, hq, hsj, hsr, hlt, sizeof_int, e1, h1]
  · refine ⟨by simp, by simp, by simp, by simp, fun q k hq => ?_⟩
    simp [hq]

theorem step_fill (W : World) (F : BlockId → List Inst) (c a b : Nat)
    (hF : ∀ k, F (.sub c k) = Vararg.subCode entryValues a b c k)
    (pred : BlockId) (m : Machine) (j : Nat) (Bv : RVal)
    (hj : m.env (.sub c 6, 0) = .int 32 j) (hB : m.env (.entry, 6) = Bv)
    (haj : a + j < 2 ^ 31) :
    ∃ m', stepBlock W F pred (.sub c 7) m = .enter (.sub c 7) (.sub c 6) m' ∧
      m'.trace = m.trace ++
        [.store (.int 32 0) (.field (.elem Bv ((a : Int) + j)) .TValue_tt)] ∧
      ∀ q k, q ≠ .sub c 7 → m'.env (q, k) = m.env (q, k) := by
  have h1 : (a + j) % 4294967296 = a + j := Nat.mod_eq_of_lt (by omega)
  have hs1 : sval 32 (a + j) = (a : Int) + j := by
    rw [sval_small (a + j) haj]; push_cast; rfl
  have ea : toU 32 (a : Int) = a := toU_small a (by omega)
  have e0 : toU 32 LUA_TNIL = 0 := by decide
  refine ⟨_, stepBlock_enter W F (d := .sub c 6) ?_, ?_, ?_⟩
  · simp [stepBlock, hF, Vararg.subCode, entryValues, execFrom_step, execFrom_term,
      Inst.isTerminator, Control.next]
  · simp [hF, Vararg.subCode, entryValues, execFrom_step, execFrom_term,
      Inst.isTerminator, execInst, evalValue, hj, hB, sizeof_int, h1, hs1, ea, e0]
  · intro q k hq
    simp [hF, Vararg.subCode, entryValues, execFrom_step, execFrom_term,
      Inst.isTerminator, execInst, hq]

theorem stopAt_sub (n c k : Nat) : stopAt n (.sub c k) = false := by
  simp [stopAt]

theorem stopAt_primary (c : Nat) : stopAt (c + 1) (.primary c) = false := by
  simp [stopAt]

theorem move_loop (W : World) (F : BlockId → List Inst) (c a b : Nat)
    (hF : ∀ k, F (.sub c k) = Vararg.subCode entryValues a b c k)
    (av mv : Nat) (Bv : RVal) (hma : mv ≤ av) (ha : av < 2 ^ 31)
    (ham : a + mv ≤ 2 ^ 31) :
    ∀ (r i : Nat) (pred : BlockId) (m : Machine), i + r = mv →
      phiValue m pred [(.int 0, .sub c 2), (.inst (.sub c 3) 1, .sub c 4)] = .int 32 i →
      m.env (.sub c 2, 0) = .int 32 mv → m.env (.primary c, 9) = .int 32 av →
      m.env (.entry, 6) = Bv →
      ∃ m', Leads W F (stopAt (c + 1)) pred (.sub c 3) m (.sub c 3) (.sub c 5) m' ∧
        m'.trace = m.trace ++ Vararg.copies Bv a av i r ∧
        m'.env (.sub c 2, 0) = .int 32 mv ∧ m'.env (.primary c, 9) = .int 32 av ∧
        m'.env (.entry, 6) = Bv ∧ m'.mem = m.mem := by
  intro r
  induction r with
  | zero =>
    intro i pred m hir hphi hmv hav hB
    obtain ⟨m1, hs, _, _, hmem, htr, hfr⟩ :=
      step_movecheck W F c a b hF pred m i mv hphi hmv (by omega) (by omega)
    have hn : ¬ i < mv := by omega
    rw [if_neg hn] at hs
    refine ⟨m1, leads_step (stopAt_sub _ _ _) hs, by simp [htr, Vararg.copies_zero], ?_, ?_,
      ?_, hmem⟩
    · rw [hfr _ _ (by simp)]; exact hmv
    · rw [hfr _ _ (by simp)]; exact hav
    · rw [hfr _ _ (by simp)]; exact hB
  | succ r ih =>
    intro i pred m hir hphi hmv hav hB
    obtain ⟨m1, hs1, h10, h11, hmem1, htr1, hfr1⟩ :=
      step_movecheck W F c a b hF pred m i mv hphi hmv (by omega) (by omega)
    have hlt : i < mv := by omega
    rw [if_pos hlt] at hs1
    obtain ⟨m2, hs2, htr2, hmem2, hfr2⟩ :=
      step_move W F c a b hF (.sub c 3) m1 i av Bv h10
        (by rw [hfr1 _ _ (by simp)]; exact hav) (by rw [hfr1 _ _ (by simp)]; exact hB)
        (by omega) ha (by omega)
    have hphi2 : phiValue m2 (.sub c 4)
        [(.int 0, .sub c 2), (.inst (.sub c 3) 1, .sub c 4)] = .int 32 (i + 1) := by
      simp [phiValue, evalValue, hfr2, h11]
    obtain ⟨m3, hl3, htr3, hmv3, hav3, hB3, hmem3⟩ := ih (i + 1) (.sub c 4) m2 (by omega)
      hphi2 (by rw [hfr2 _ _ (by simp), hfr1 _ _ (by simp)]; exact hmv)
      (by rw [hfr2 _ _ (by simp), hfr1 _ _ (by simp)]; exact hav)
      (by rw [hfr2 _ _ (by simp), hfr1 _ _ (by simp)]; exact hB)
    refine ⟨m3, leads_trans (leads_step (stopAt_sub _ _ _) hs1)
      (leads_trans (leads_step (stopAt_sub _ _ _) hs2) hl3), ?_, hmv3, hav3, hB3, ?_⟩
    · rw [htr3, htr2, htr1, Vararg.copies_succ]
      simp
    · rw [hmem3, hmem2, hmem1]

theorem required_eval (c b : Nat) (m m' : Machine) (h : m'.env (.primary c, 9) = m.env (.primary c, 9)) :
    evalValue m' (Vararg.required b (.primary c)) =
      evalValue m (Vararg.required b (.primary c)) := by
  unfold Vararg.required Vararg.available
  split_ifs
  · simp only [evalValue, h]
  · rfl

theorem fill_loop (W : World) (F : BlockId → List Inst) (c a b : Nat)
    (hF : ∀ k, F (.sub c k) = Vararg.subCode entryValues a b c k)
    (rq : Nat) (Bv : RVal) (hr : rq < 2 ^ 31) (har : a + rq ≤ 2 ^ 31) :
    ∀ (r j : Nat) (pred : BlockId) (m : Machine), j + r = rq →
      phiValue m pred [(Vararg.nmoves c, .sub c 5), (.inst (.sub c 6) 1, .sub c 7)] =
        .int 32 j →
      evalValue m (Vararg.required b (.primary c)) = .int 32 rq →
      m.env (.entry, 6) = Bv →
      ∃ m', Leads W F (stopAt (c + 1)) pred (.sub c 6) m (.sub c 6) (.primary (c + 1)) m' ∧
        m'.trace = m.trace ++ Vararg.fills Bv a j r := by
  intro r
  induction r with
  | zero =>
    intro j pred m hjr hphi hrq hB
    obtain ⟨m1, hs, _, _, _, htr, _⟩ :=
      step_fillcheck W F c a b hF pred m j rq hphi hrq (by omega) hr
    have hn : ¬ j < rq := by omega
    rw [if_neg hn] at hs
    exact ⟨m1, leads_step (stopAt_sub _ _ _) hs, by simp [htr, Vararg.fills_zero]⟩
  | succ r ih =>
    intro j pred m hjr hphi hrq hB
    obtain ⟨m1, hs1, h10, h11, _, htr1, hfr1⟩ :=
      step_fillcheck W F c a b hF pred m j rq hphi hrq (by omega) hr
    have hlt : j < rq := by omega
    rw [if_pos hlt] at hs1
    obtain ⟨m2, hs2, htr2, hfr2⟩ :=
      step_fill W F c a b hF (.sub c 6) m1 j Bv h10
        (by rw [hfr1 _ _ (by simp)]; exact hB) (by omega)
    have hphi2 : phiValue m2 (.sub c 7)
        [(Vararg.nmoves c, .sub c 5), (.inst (.sub c 6) 1, .sub c 7)] =
        .int 32 (j + 1) := by
      simp [phiValue, evalValue, hfr2, h11]
    obtain ⟨m3, hl3, htr3⟩ := ih (j + 1) (.sub c 7) m2 (by omega) hphi2
      (by
        rw [required_eval c b m m2 (by rw [hfr2 _ _ (by simp), hfr1 _ _ (by simp)])]
        exact hrq)
      (by rw [hfr2 _ _ (by simp), hfr1 _ _ (by simp)]; exact hB)
    refine ⟨m3, leads_trans (leads_step (stopAt_sub _ _ _) hs1)
      (leads_trans (leads_step (stopAt_sub _ _ _) hs2) hl3), ?_⟩
    rw [htr3, htr2, htr1, Vararg.fills_succ]
    simp

/-! ## The whole `VARARG` -/

theorem entryValues_state : entryValues.state = .state := rfl

theorem entryValues_ci : entryValues.ci = .inst .entry 3 := rfl

theorem entryValues_base : entryValues.base = .inst .entry 6 := rfl

theorem availableCount_lt (W : World) (np : Nat) (m : Machine)
    (h2 : Vararg.vadiff W m - (np + 1) < 2 ^ 31) :
    Vararg.availableCount W np m < 2 ^ 31 := by
  unfold Vararg.availableCount
  norm_num at h2 ⊢
  omega

theorem step_entry (W : World) (F : BlockId → List Inst) (c a b np : Nat)
    (hF0 : F (.primary c) = Vararg.entryCode entryValues np a b c)
    (pred : BlockId) (m : Machine) (hb : b < 512)
    (h1 : -(2 : Int) ^ 31 ≤ Vararg.vadiff W m - (np + 1))
    (h2 : Vararg.vadiff W m - (np + 1) < 2 ^ 31)
    (hA : a + Vararg.requiredCount b (Vararg.availableCount W np m) < 2 ^ 31) :
    ∃ m1, stepBlock W F pred (.primary c) m =
        .enter (.primary c)
          (if Vararg.requiredCount b (Vararg.availableCount W np m) <
              Vararg.availableCount W np m then .sub c 0 else .sub c 1) m1 ∧
      m1.env (.entry, 6) = m.env (.entry, 6) ∧
      m1.env (.primary c, 9) = .int 32 (Vararg.availableCount W np m) ∧
      m1.trace = m.trace ++ Vararg.opening W a b (Vararg.availableCount W np m) m := by
  have hav := availableCount_lt W np m h2
  generalize hd : Vararg.availableCount W np m = av at hav hA ⊢
  have h9 : (execList W (.primary c) (Vararg.availableCode entryValues np (.primary c)) 0
      m).env (.primary c, 9) = .int 32 av := by
    rw [available_value W m (.primary c) np (by intro hc; cases hc), clamp_count _ h1 h2,
      ← hd]
    rfl
  obtain ⟨hmemA, htrA, hfrA⟩ := available_frame W m (.primary c) np
  have h3 := hfrA .entry 3 (by intro hc; cases hc)
  have h6 := hfrA .entry 6 (by intro hc; cases hc)
  have hpl : ∀ rest, execFrom W m pred (.primary c)
      (Vararg.availableCode entryValues np (.primary c) ++ rest) 0 m =
      execFrom W m pred (.primary c) rest 10
        (execList W (.primary c) (Vararg.availableCode entryValues np (.primary c)) 0 m) :=
    fun rest => execFrom_plain W m pred (.primary c) rest _ 0 m
      (by simp [Vararg.availableCode, Inst.isPlain, Inst.isTerminator])
  generalize execList W (.primary c) (Vararg.availableCode entryValues np (.primary c)) 0
    m = mA at h9 hmemA htrA h3 h6 hpl
  have hsa : sval 32 av = av := sval_small av hav
  by_cases hb0 : b = 0
  · subst hb0
    simp only [Vararg.requiredCount, if_true, lt_irrefl, if_false] at hA ⊢
    have hm1 : (a + av) % 4294967296 = a + av := Nat.mod_eq_of_lt (by omega)
    have hs1 : sval 32 (a + av) = (a : Int) + av := by
      rw [sval_small (a + av) hA]; push_cast; rfl
    have ea : toU 32 (a : Int) = a := toU_small a (by omega)
    refine ⟨_, stepBlock_enter W F (d := .sub c 1) ?_, ?_, ?_, ?_⟩
    · simp [stepBlock, hF0, Vararg.entryCode, List.append_assoc, hpl, Vararg.openCode,
        Vararg.required, Vararg.available, entryValues_state, entryValues_ci,
        entryValues_base, execFrom_step, execFrom_term,
        Inst.isTerminator, execInst, evalValue, h9, Control.next]
    · simp [hF0, Vararg.entryCode, List.append_assoc, hpl, Vararg.openCode,
        Vararg.required, Vararg.available, entryValues_state, entryValues_ci,
        entryValues_base, execFrom_step, execFrom_term,
        Inst.isTerminator, execInst, evalValue, h6]
    · simp [hF0, Vararg.entryCode, List.append_assoc, hpl, Vararg.openCode,
        Vararg.required, Vararg.available, entryValues_state, entryValues_ci,
        entryValues_base, execFrom_step, execFrom_term,
        Inst.isTerminator, execInst, evalValue, h9]
    · simp [hF0, Vararg.entryCode, List.append_assoc, hpl, Vararg.openCode,
        Vararg.required, Vararg.available, entryValues_state, entryValues_ci,
        entryValues_base, execFrom_step, execFrom_term,
        Inst.isTerminator, execInst, evalValue, h9, h3, h6, hmemA, htrA, Vararg.opening,
        sizeof_int, hm1, hs1, ea]
  · have hrq : Vararg.requiredCount b av = b - 1 := by simp [Vararg.requiredCount, hb0]
    rw [hrq] at hA ⊢
    have hq : toU 32 ((b : Int) - 1) = b - 1 := by
      have : ((b : Int) - 1) = ((b - 1 : Nat) : Int) := by omega
      rw [this]
      exact toU_small _ (by omega)
    have hsr : sval 32 (b - 1) = ((b - 1 : Nat) : Int) := sval_small _ (by omega)
    refine ⟨_, stepBlock_enter W F
      (d := if b - 1 < av then .sub c 0 else .sub c 1) ?_, ?_, ?_, ?_⟩
    · by_cases hlt : b - 1 < av <;>
        simp [stepBlock, hF0, Vararg.entryCode, List.append_assoc, hpl, hb0,
          Vararg.required, Vararg.available, entryValues_state, entryValues_ci,
        entryValues_base, execFrom_step, execFrom_term,
          Inst.isTerminator, execInst, evalValue, h9, Control.next, sizeof_int, hq, hsr,
          hsa, hlt]
    · simp [hF0, Vararg.entryCode, List.append_assoc, hpl, hb0,
        Vararg.required, Vararg.available, entryValues_state, entryValues_ci,
        entryValues_base, execFrom_step, execFrom_term,
        Inst.isTerminator, execInst, evalValue, h6]
    · simp [hF0, Vararg.entryCode, List.append_assoc, hpl, hb0,
        Vararg.required, Vararg.available, entryValues_state, entryValues_ci,
        entryValues_base, execFrom_step, execFrom_term,
        Inst.isTerminator, execInst, evalValue, h9]
    · simp [hF0, Vararg.entryCode, List.append_assoc, hpl, hb0,
        Vararg.required, Vararg.available, entryValues_state, entryValues_ci,
        entryValues_base, execFrom_step, execFrom_term,
        Inst.isTerminator, execInst, evalValue, htrA, Vararg.opening]

theorem required_value (c b av : Nat) (m : Machine) (hb : b < 512)
    (h9 : m.env (.primary c, 9) = .int 32 av) :
    evalValue m (Vararg.required b (.primary c)) =
      .int 32 (Vararg.requiredCount b av) := by
  unfold Vararg.required Vararg.requiredCount Vararg.available
  split_ifs with hb0
  · simp only [evalValue, h9]
  · have : ((b : Int) - 1) = ((b - 1 : Nat) : Int) := by omega
    simp only [evalValue, sizeof_int, this]
    rw [toU_small _ (by omega)]

theorem vararg_run (W : World) (F : BlockId → List Inst) (c a b np : Nat)
    (hF0 : F (.primary c) = Vararg.entryCode entryValues np a b c)
    (hF : ∀ k, F (.sub c k) = Vararg.subCode entryValues a b c k)
    (pred : BlockId) (m : Machine) (hb : b < 512)
    (h1 : -(2 : Int) ^ 31 ≤ Vararg.vadiff W m - (np + 1))
    (h2 : Vararg.vadiff W m - (np + 1) < 2 ^ 31)
    (hA : a + Vararg.requiredCount b (Vararg.availableCount W np m) < 2 ^ 31) :
    ∃ fuel m', run W F (stopAt (c + 1)) fuel pred (.primary c) m =
        some (.enter (.sub c 6) (.primary (c + 1)) m') ∧
      m'.trace = m.trace ++
        Vararg.opening W a b (Vararg.availableCount W np m) m ++
        Vararg.copies (m.env (.entry, 6)) a (Vararg.availableCount W np m) 0
          (min (Vararg.requiredCount b (Vararg.availableCount W np m))
            (Vararg.availableCount W np m)) ++
        Vararg.fills (m.env (.entry, 6)) a
          (min (Vararg.requiredCount b (Vararg.availableCount W np m))
            (Vararg.availableCount W np m))
          (Vararg.requiredCount b (Vararg.availableCount W np m) -
            min (Vararg.requiredCount b (Vararg.availableCount W np m))
              (Vararg.availableCount W np m)) := by
  obtain ⟨m1, hs1, hB1, h91, htr1⟩ := step_entry W F c a b np hF0 pred m hb h1 h2 hA
  have hav := availableCount_lt W np m h2
  generalize Vararg.availableCount W np m = av at hs1 h91 htr1 hav hA ⊢
  have hrq1 := required_value c b av m1 hb h91
  generalize Vararg.requiredCount b av = rq at hs1 hrq1 hA ⊢
  have e0 : toU 32 0 = 0 := by decide
  -- the block that computes the number of moves
  obtain ⟨q, hq, hsq, hphi⟩ : ∃ q, stepBlock W F pred (.primary c) m =
        .enter (.primary c) q m1 ∧ stepBlock W F (.primary c) q m1 = .enter q (.sub c 2) m1 ∧
      phiValue m1 q [(Vararg.required b (.primary c), .sub c 0),
        (Vararg.available (.primary c), .sub c 1)] = .int 32 (min rq av) := by
    by_cases hlt : rq < av
    · rw [if_pos hlt] at hs1
      refine ⟨.sub c 0, hs1, step_requiredmin W F c a b hF _ m1, ?_⟩
      simp [phiValue, hrq1, Nat.min_eq_left (Nat.le_of_lt hlt)]
    · rw [if_neg hlt] at hs1
      refine ⟨.sub c 1, hs1, step_availablemin W F c a b hF _ m1, ?_⟩
      simp [phiValue, Vararg.available, evalValue, h91, Nat.min_eq_right (Nat.le_of_not_lt hlt)]
  have hstopq : stopAt (c + 1) q = false := by
    by_cases hlt : rq < av
    · rw [if_pos hlt, hq] at hs1
      cases hs1
      exact stopAt_sub _ _ _
    · rw [if_neg hlt, hq] at hs1
      cases hs1
      exact stopAt_sub _ _ _
  generalize hmv : min rq av = mv at hphi ⊢
  have hmva : mv ≤ av := by omega
  have hmvr : mv ≤ rq := by omega
  have hs2 := step_computenmoves W F c a b hF q m1
  rw [hphi] at hs2
  obtain ⟨m3, hl3, htr3, hmv3, hav3, hB3, _⟩ := move_loop W F c a b hF av mv
    (m.env (.entry, 6)) hmva hav (by omega) mv 0 (.sub c 2)
    (m1.bind (.sub c 2, 0) (.int 32 mv)) (by omega)
    (by simp [phiValue, evalValue, sizeof_int, e0]) (by simp) (by simp [h91])
    (by simp [hB1])
  have hs5 := step_moveend W F c a b hF (.sub c 3) m3
  obtain ⟨m4, hl4, htr4⟩ := fill_loop W F c a b hF rq (m.env (.entry, 6)) (by omega)
    (by omega) (rq - mv) mv (.sub c 5) m3 (by omega)
    (by simp [phiValue, Vararg.nmoves, evalValue, hmv3])
    (by
      rw [required_eval c b m1 m3 (by rw [hav3, h91])]
      exact hrq1)
    hB3
  have hl : Leads W F (stopAt (c + 1)) pred (.primary c) m (.sub c 6) (.primary (c + 1))
      m4 :=
    leads_trans (leads_step (stopAt_primary c) hq)
      (leads_trans (leads_step hstopq hsq)
        (leads_trans (leads_step (stopAt_sub _ _ _) hs2)
          (leads_trans hl3 (leads_trans (leads_step (stopAt_sub _ _ _) hs5) hl4))))
  obtain ⟨fuel, hrun⟩ := leads_run hl (by simp [stopAt])
  refine ⟨fuel, m4, hrun, ?_⟩
  rw [htr4, htr3]
  simp [htr1, List.append_assoc]

theorem Vararg_result_insts (cs : CompilerState) (n : Nat) (h : Ready cs n)
    (he : cs.insts (.primary cs.curr_) = []) :
    (Vararg.result cs).insts (.primary cs.curr_) =
        Vararg.entryCode cs.values_ cs.proto_.numparams (GETARG_A cs.instr_)
          (GETARG_B cs.instr_) cs.curr_ ∧
    ∀ k, (Vararg.result cs).insts (.sub cs.curr_ k) =
      Vararg.subCode cs.values_ (GETARG_A cs.instr_) (GETARG_B cs.instr_) cs.curr_ k := by
  have h6 := h.freshInsts
  refine ⟨by simp [Vararg.result, he, Function.update_apply], fun k => ?_⟩
  by_cases h0 : k = 0
  · subst h0; simp [Vararg.result, h6, Function.update_apply]
  by_cases h1 : k = 1
  · subst h1; simp [Vararg.result, h6, Function.update_apply]
  by_cases h2 : k = 2
  · subst h2; simp [Vararg.result, h6, Function.update_apply]
  by_cases h3 : k = 3
  · subst h3; simp [Vararg.result, h6, Function.update_apply]
  by_cases h4 : k = 4
  · subst h4; simp [Vararg.result, h6, Function.update_apply]
  by_cases h5 : k = 5
  · subst h5; simp [Vararg.result, h6, Function.update_apply]
  by_cases h6' : k = 6
  · subst h6'; simp [Vararg.result, h6, Function.update_apply]
  by_cases h7 : k = 7
  · subst h7; simp [Vararg.result, h6, Function.update_apply]
  have : Vararg.subCode cs.values_ (GETARG_A cs.instr_) (GETARG_B cs.instr_) cs.curr_ k =
      [] := by
    simp [Vararg.subCode]
  simp [Vararg.result, h6, Function.update_apply, h0, h1, h2, h3, h4, h5, h6', h7, this]

/-! ## Claims about `VARARG` -/

theorem written_copies (base : RVal) (a av i r : Nat) :
    (Vararg.copies base a av i r).map Event.written =
      (List.range r).map fun k => some (.elem base ((a : Int) + ((i + k : Nat) : Int))) := by
  simp [Vararg.copies, Event.written, Function.comp_def]

theorem written_fills (base : RVal) (a j r : Nat) :
    (Vararg.fills base a j r).map Event.written =
      (List.range r).map fun k => some (.elem base ((a : Int) + ((j + k : Nat) : Int))) := by
  simp [Vararg.fills, Event.written, Function.comp_def]

theorem written_all (base : RVal) (a av mv rq : Nat) (h : mv ≤ rq) :
    (Vararg.copies base a av 0 mv ++ Vararg.fills base a mv (rq - mv)).map Event.written =
      (List.range rq).map fun k => some (.elem base ((a : Int) + (k : Int))) := by
  rw [List.map_append, written_copies, written_fills]
  have hrq : rq = mv + (rq - mv) := by omega
  conv_rhs => rw [hrq, List.range_add, List.map_append, List.map_map]
  simp [Function.comp_def]

/-- When the code of a `VARARG` runs with `available` extra arguments and
asks for `required` values (both counts non-negative 32-bit integers), it
does, after what an open call does first, exactly `moves = min(required,
available)` register copies and then exactly `required - moves` stores of
the nil tag, and reaches the block of the next instruction.  The addresses
are offsets from the value of `values_.base`, the address of the slot that
holds the stack base: the `i`-th copy goes from `i - available` to `A + i`
after it, the `j`-th fill to `A + j` after it, each offset from `A` to
`A + required - 1` written once, in order. -/
theorem vararg_copies_then_fills (cs : CompilerState) (n : Nat) (h : Ready cs n)
    (he : cs.insts (.primary cs.curr_) = []) (hv : cs.values_ = entryValues)
    (hn : cs.curr_ + 1 < n) :
    (∀ (base : RVal) (a : Nat),
      (Vararg.copies base a 3 0 (min 5 3)).length = 3 ∧
      (Vararg.fills base a (min 5 3) (5 - min 5 3)).length = 2 ∧
      (Vararg.copies base a 5 0 (min 2 5)).length = 2 ∧
      (Vararg.fills base a (min 2 5) (2 - min 2 5)).length = 0) ∧
    ∃ cs', Vararg.Compile cs = some ((), cs') ∧
      ∀ (W : World) (pred : BlockId) (m : Machine) (available required : Nat),
        available = Vararg.availableCount W cs.proto_.numparams m →
        required = Vararg.requiredCount (GETARG_B cs.instr_) available →
        -(2 : Int) ^ 31 ≤ Vararg.vadiff W m - (cs.proto_.numparams + 1) →
        Vararg.vadiff W m - (cs.proto_.numparams + 1) < 2 ^ 31 →
        GETARG_A cs.instr_ + required < 2 ^ 31 →
        ∃ fuel m', run W cs'.insts (stopAt (cs.curr_ + 1)) fuel pred (.primary cs.curr_) m =
            some (.enter (.sub cs.curr_ 6) (.primary (cs.curr_ + 1)) m') ∧
          m'.trace = m.trace ++
            Vararg.opening W (GETARG_A cs.instr_) (GETARG_B cs.instr_) available m ++
            Vararg.copies (m.env (.entry, 6)) (GETARG_A cs.instr_) available 0
              (min required available) ++
            Vararg.fills (m.env (.entry, 6)) (GETARG_A cs.instr_) (min required available)
              (required - min required available) ∧
          (Vararg.copies (m.env (.entry, 6)) (GETARG_A cs.instr_) available 0
              (min required available) ++
            Vararg.fills (m.env (.entry, 6)) (GETARG_A cs.instr_) (min required available)
              (required - min required available)).map Event.written =
            (List.range required).map fun k =>
              some (.elem (m.env (.entry, 6)) ((GETARG_A cs.instr_ : Int) + (k : Int))) := by
  refine ⟨fun base a => by simp [Vararg.copies, Vararg.fills],
    _, Vararg_Compile_eq cs n h he hn, ?_⟩
  intro W pred m available required hav hrq h1 h2 hA
  subst hav hrq
  obtain ⟨hF0, hF⟩ := Vararg_result_insts cs n h he
  rw [hv] at hF0 hF
  obtain ⟨fuel, m', hrun, htr⟩ := vararg_run W (Vararg.result cs).insts cs.curr_
    (GETARG_A cs.instr_) (GETARG_B cs.instr_) cs.proto_.numparams hF0 hF pred m
    (GETARG_B_lt cs.instr_) h1 h2 hA
  exact ⟨fuel, m', hrun, htr, written_all _ _ _ _ _ (Nat.min_le_left _ _)⟩

theorem ComputeRequiredArgs_eq (v : Vararg) (cs : CompilerState) (n : Nat)
    (h : Ready cs n) (he : cs.insts (.primary cs.curr_) = []) :
    Vararg.ComputeRequiredArgs v cs =
      some ({ v with required_ :=
            if GETARG_B cs.instr_ = 0 then v.available_
            else .int ((GETARG_B cs.instr_ : Int) - 1) },
        cs.append (.primary cs.curr_)
          (if GETARG_B cs.instr_ = 0 then
            [.call .lll_checkstack [cs.values_.state, v.available_]] ++
            updateStackCode cs.values_ (.primary cs.curr_) 1 ++
            [.add (.int (GETARG_A cs.instr_)) v.available_,
             .gep cs.values_.base (.inst (.primary cs.curr_) 6)] ++
            [.bitcast cs.values_.state,
             .gep (.inst (.primary cs.curr_) 8) (.offsetof .lua_State_top),
             .bitcast (.inst (.primary cs.curr_) 9),
             .store (.inst (.primary cs.curr_) 7) (.inst (.primary cs.curr_) 10)]
          else [])) := by
  have h3 := h.point
  by_cases hb : GETARG_B cs.instr_ = 0
  · simp [Vararg.ComputeRequiredArgs, Vararg.GetRegisterFromA, bind_eq, pure_eq, get_apply,
      emit_apply, CreateCall_apply, UpdateStack_apply, SetField_apply, append_append, h3, he,
      hb, MakeInt, updateStackCode]
  · simp [Vararg.ComputeRequiredArgs, bind_eq, pure_eq, get_apply, h3, hb, MakeInt,
      append_nil]

/-- For a `VARARG` with `B = 0`, `ComputeRequiredArgs` makes `required` the
value `available` and emits, in the block of the instruction and so before
every block of the loops, the call of `lll_checkstack` with `available`, the
reload of the stack base into its slot and the store into `lua_State::top`
of the address `A + available` after the value of `values_.base`, the address
of that slot; when the code runs, these three come first, then `available`
copies, and no fill.  For `B >= 1` `required` is the constant `B - 1` and
`ComputeRequiredArgs` emits nothing. -/
theorem open_vararg_code (v : Vararg) (cs : CompilerState) (n : Nat)
    (h : Ready cs n) (he : cs.insts (.primary cs.curr_) = [])
    (hv : cs.values_ = entryValues) (hn : cs.curr_ + 1 < n) :
    (∃ v' cs₁, Vararg.ComputeRequiredArgs v cs = some (v', cs₁) ∧
      (GETARG_B cs.instr_ = 0 →
        v'.required_ = v.available_ ∧
        cs₁.insts (.primary cs.curr_) =
          [.call .lll_checkstack [.state, v.available_]] ++
          updateStackCode entryValues (.primary cs.curr_) 1 ++
          [.add (.int (GETARG_A cs.instr_)) v.available_,
           .gep (.inst .entry 6) (.inst (.primary cs.curr_) 6)] ++
          [.bitcast .state,
           .gep (.inst (.primary cs.curr_) 8) (.offsetof .lua_State_top),
           .bitcast (.inst (.primary cs.curr_) 9),
           .store (.inst (.primary cs.curr_) 7) (.inst (.primary cs.curr_) 10)]) ∧
      (1 ≤ GETARG_B cs.instr_ →
        v'.required_ = .int ((GETARG_B cs.instr_ : Int) - 1) ∧
        cs₁.insts (.primary cs.curr_) = [])) ∧
    ∃ cs', Vararg.Compile cs = some ((), cs') ∧
      (GETARG_B cs.instr_ = 0 →
        callsOf .lll_checkstack (cs'.insts (.primary cs.curr_)) =
          [[.state, Vararg.available (.primary cs.curr_)]] ∧
        (∀ k, callsOf .lll_checkstack (cs'.insts (.sub cs.curr_ k)) = []) ∧
        ∀ (W : World) (pred : BlockId) (m : Machine) (available : Nat),
          available = Vararg.availableCount W cs.proto_.numparams m →
          -(2 : Int) ^ 31 ≤ Vararg.vadiff W m - (cs.proto_.numparams + 1) →
          Vararg.vadiff W m - (cs.proto_.numparams + 1) < 2 ^ 31 →
          GETARG_A cs.instr_ + available < 2 ^ 31 →
          ∃ fuel m', run W cs'.insts (stopAt (cs.curr_ + 1)) fuel pred
                (.primary cs.curr_) m =
              some (.enter (.sub cs.curr_ 6) (.primary (cs.curr_ + 1)) m') ∧
            m'.trace = m.trace ++
              [.call .lll_checkstack [.state, .int 32 available],
               .store ((W.call .lll_checkstack [.state, .int 32 available] m.mem).2
                  (.field (m.env (.entry, 3)) .CallInfo_base)) (m.env (.entry, 6)),
               .store (.elem (m.env (.entry, 6)) ((GETARG_A cs.instr_ : Int) + available))
                  (.field .state .lua_State_top)] ++
              Vararg.copies (m.env (.entry, 6)) (GETARG_A cs.instr_) available 0
                available) ∧
      (1 ≤ GETARG_B cs.instr_ →
        callsOf .lll_checkstack (cs'.insts (.primary cs.curr_)) = [] ∧
        topPublishes cs' (.primary cs.curr_) = [] ∧
        (∀ x, Inst.store x cs.values_.base ∉ cs'.insts (.primary cs.curr_)) ∧
        ∀ k, callsOf .lll_checkstack (cs'.insts (.sub cs.curr_ k)) = [] ∧
          topPublishes cs' (.sub cs.curr_ k) = [] ∧
          ∀ x, Inst.store x cs.values_.base ∉ cs'.insts (.sub cs.curr_ k)) := by
  obtain ⟨hF0, hF⟩ := Vararg_result_insts cs n h he
  rw [hv] at hF0 hF
  have hsub : ∀ k, callsOf .lll_checkstack
      (Vararg.subCode entryValues (GETARG_A cs.instr_) (GETARG_B cs.instr_) cs.curr_ k) =
      [] := by
    intro k
    unfold Vararg.subCode
    split <;> simp [callsOf_cons, callsOf_nil]
  refine ⟨⟨_, _, ComputeRequiredArgs_eq v cs n h he, fun hb => ?_, fun hb => ?_⟩,
    _, Vararg_Compile_eq cs n h he hn, fun hb => ⟨?_, ?_, ?_⟩, fun hb => ⟨?_, ?_, ?_, ?_⟩⟩
  · simp [hb, he, hv, entryValues_state, entryValues_base]
  · have hb0 : GETARG_B cs.instr_ ≠ 0 := by omega
    simp [hb0, he]
  · rw [hF0]
    simp [Vararg.entryCode, Vararg.availableCode, Vararg.openCode, hb, callsOf_append,
      callsOf_cons, callsOf_nil, entryValues_state]
  · intro k
    rw [hF]
    exact hsub k
  · intro W pred m available hav h1 h2 hA
    subst hav
    obtain ⟨fuel, m', hrun, htr⟩ := vararg_run W (Vararg.result cs).insts cs.curr_
      (GETARG_A cs.instr_) (GETARG_B cs.instr_) cs.proto_.numparams hF0 hF pred m
      (GETARG_B_lt cs.instr_) h1 h2 (by simpa [Vararg.requiredCount, hb] using hA)
    refine ⟨fuel, m', hrun, ?_⟩
    rw [htr]
    simp [Vararg.requiredCount, hb, Vararg.opening, Vararg.fills]
  · have hb0 : GETARG_B cs.instr_ ≠ 0 := by omega
    rw [hF0]
    simp [Vararg.entryCode, Vararg.availableCode, hb0, callsOf_append, callsOf_cons,
      callsOf_nil]
  · have hb0 : GETARG_B cs.instr_ ≠ 0 := by omega
    simp only [topPublishes, hF0]
    simp [Vararg.entryCode, Vararg.availableCode, hb0, storesTo]
  · have hb0 : GETARG_B cs.instr_ ≠ 0 := by omega
    intro x
    rw [hF0]
    simp [Vararg.entryCode, Vararg.availableCode, hb0]
  · intro k
    refine ⟨by rw [hF]; exact hsub k, ?_, ?_⟩
    · simp only [topPublishes, hF]
      unfold Vararg.subCode
      split <;> simp [storesTo, fieldOf, defOf, hv, entryValues_state]
    · intro x
      rw [hF, hv]
      unfold Vararg.subCode
      split <;> simp [entryValues_base]

/-! ## `VARARG` run from the entry of the function

`CreateBlocks` makes `values_.base` the address of a slot and stores the
stack base `ci->base` in it; `GetValueR` loads the base from the slot.  The
code of `VARARG` takes `values_.base` itself for the base. -/

/-- C10: the code does not compute what the claim states.  In a function of
no fixed parameter called with three extra arguments (`ci->base` is `R(0)`,
`ci->func` is `R(-4)`), with the slot of the base 1000 tagged values from the
function record, `values_.base` is the address of the slot, the slot holds
`R(0)`, and `available` is 999: the distance from the function record to the
slot, less `numparams + 1`.  The value the claim states,
`max(0, (base - func) - (numparams + 1))`, is 3. -/
theorem C10_available_measures_from_the_slot :
    (observed (World.distance 1000) varargFour (-4) 1).map
        (fun r => (r.1, r.2.1, r.2.2.2.1)) =
      some (.slot .entry 6, .reg 0, .int 32 999) ∧
    max 0 (ptrDistance (World.distance 1000) (.reg 0) (.reg (-4)) -
      ((varargFour.numparams : Int) + 1)) = 3 := by
  constructor
  · decide!
  · decide

/-- C9: the code does not copy and fill the registers the claim states.  For
`VARARG 2 6` in a function of one fixed parameter called with three extra
arguments (`ci->base` is `R(0)`, `ci->func` is `R(-5)`, `available` is 3), the
run from the entry stores the base in its slot and then does 3 copies and 2
nil stores, and every address in them is an offset from the slot that holds
the base, not from the base `R(0)` the slot holds: the `i`-th copy goes from
`slot[i - 3]` to `slot[2 + i]`, the fills to `slot[5]` and `slot[6]`. -/
theorem C9_copies_address_the_slot :
    (observed (World.distance 5) varargFive (-5) 1).map
        (fun r => (r.1, r.2.1, r.2.2.2.1, r.2.2.2.2)) =
      some (.slot .entry 6, .reg 0, .int 32 3,
        [.store (.reg 0) (.slot .entry 6),
         .setRegister (.elem (.slot .entry 6) 2) (.elem (.slot .entry 6) (-3)),
         .setRegister (.elem (.slot .entry 6) 3) (.elem (.slot .entry 6) (-2)),
         .setRegister (.elem (.slot .entry 6) 4) (.elem (.slot .entry 6) (-1)),
         .store (.int 32 0) (.field (.elem (.slot .entry 6) 5) .TValue_tt),
         .store (.int 32 0) (.field (.elem (.slot .entry 6) 6) .TValue_tt)]) := by
  decide!

/-- C11: the top an open `VARARG` publishes is not the register the claim
states.  For `VARARG 2 0` in a function of one fixed parameter called with
two extra arguments (`ci->base` is `R(0)`, `ci->func` is `R(-4)`, `available`
is 2), the run from the entry stores the base in its slot, calls
`lll_checkstack` with 2, stores the base `R(0)` in its slot again, and then
stores in `lua_State::top` the address 4 tagged values after the slot, where
the claim has `R(2 + 2)`, 4 after the base the slot holds. -/
theorem C11_top_is_offset_from_the_slot :
    (observed (World.distance 4) varargOpen (-4) 1).map
        (fun r => (r.1, r.2.1, r.2.2.1, r.2.2.2.1, r.2.2.2.2.take 4)) =
      some (.slot .entry 6, .reg 0, .elem (.slot .entry 6) 4, .int 32 2,
        [.store (.reg 0) (.slot .entry 6),
         .call .lll_checkstack [.state, .int 32 2],
         .store (.reg 0) (.slot .entry 6),
         .store (.elem (.slot .entry 6) 4) (.field .state .lua_State_top)]) := by
  decide!

end LLL
